import Mathlib

/-!
Sigma-Browser: the extension installation pipeline.

A shallow embedding of `src/crx-parser.js` (container header parsing and
archive extraction), `src/extension-security.js` (manifest validation, the
permission broker and the sanitizer), `src/chrome-webstore.js` (the catalog
client) and `src/extension-manager.js` (the registry), with theorems about
what the code does.

Conventions of the embedding:

* a Node `Buffer` is a list of bytes (`Fin 256`);
* a JavaScript call that may throw is an `Except String _`, the string being
  the message of the thrown error, and a `try`/`catch` is `tryCatch`;
* JavaScript numbers that hold lengths and offsets are natural numbers: every
  value the code computes from them is below `2 ^ 53`, where the arithmetic of
  doubles is exact; times in milliseconds are integers;
* a `Map` is the list of its entries and a `Set` the list of its members, in
  the order of insertion; what `crypto.randomUUID()` and `Date.now()` return
  is given to the model as an argument;
* a library the code calls (`fs`, `path`, yauzl, `fetch`, cheerio) is given by
  what it does at the calls the code makes.
-/

set_option maxRecDepth 8000

namespace SigmaBrowser

/-! ## Buffers -/

/-- One byte of a Node `Buffer`. -/
abbrev Byte := Fin 256

/-- A Node `Buffer`. -/
abbrev Buffer := List Byte

/-- The call `buffer.slice(start, end)` for non-negative arguments: both bounds are
clamped to the buffer, and the view is empty when `end` is not above `start`. -/
def bufSlice (buffer : Buffer) (start stop : Nat) : Buffer :=
  (buffer.drop start).take (stop - start)

/-- The call `buffer.slice(start)`: the view from `start` to the end of the buffer. -/
def bufSliceFrom (buffer : Buffer) (start : Nat) : Buffer :=
  buffer.drop start

/-- The character that `toString('ascii')` gives a byte: Node clears the highest
bit of the byte and decodes the rest as latin1. -/
def asciiChar (b : Byte) : Char :=
  Char.ofNat (b.val % 128)

/-- The call `buffer.toString('ascii')`. -/
def toAsciiString (buffer : Buffer) : String :=
  String.mk (buffer.map asciiChar)

/-- The little-endian 32-bit value of the four bytes at `offset`, a byte that is
not there counting as zero. -/
def le32At (buffer : Buffer) (offset : Nat) : Nat :=
  (buffer.getD offset 0).val + (buffer.getD (offset + 1) 0).val * 2 ^ 8
    + (buffer.getD (offset + 2) 0).val * 2 ^ 16 + (buffer.getD (offset + 3) 0).val * 2 ^ 24

/-- The call `buffer.readUInt32LE(offset)`: Node throws a `RangeError` when the
first or the last of the four bytes lies outside the buffer
(`ERR_BUFFER_OUT_OF_BOUNDS` when the buffer has fewer than four bytes,
`ERR_OUT_OF_RANGE` otherwise). -/
def readUInt32LE (buffer : Buffer) (offset : Nat) : Except String Nat :=
  if offset + 4 ≤ buffer.length then
    .ok (le32At buffer offset)
  else if buffer.length < 4 then
    .error "Attempt to access memory outside buffer bounds"
  else
    .error ("The value of \"offset\" is out of range. It must be >= 0 and <= "
      ++ toString (buffer.length - 4) ++ ". Received " ++ toString offset)

/-- A `try { body } catch (error) { handler(error.message) }` statement. -/
def tryCatch {α : Type} (body : Except String α) (handler : String → Except String α) :
    Except String α :=
  match body with
  | .ok a => .ok a
  | .error message => handler message

/-! ## Container header (`CrxParser`) -/

/-- The constant `CRX_MAGIC`. -/
def CRX_MAGIC : String := "Cr24"

/-- The constant `CRX3_VERSION`. -/
def CRX3_VERSION : Nat := 3

/-- The constant `CRX2_VERSION`. -/
def CRX2_VERSION : Nat := 2

/-- The object that `parseCrxHeader` returns: the failure object
`{ isValid: false, error }`, the version 3 header or the version 2 header. -/
inductive CrxHeader where
  | invalid (error : String)
  | crx3 (headerLength zipOffset : Nat) (headerData : Buffer)
  | crx2 (publicKeyLength signatureLength zipOffset : Nat) (publicKey signature : Buffer)
  deriving DecidableEq, Repr

namespace CrxHeader

/-- The field `isValid`. -/
def isValid : CrxHeader → Bool
  | invalid _ => false
  | crx3 _ _ _ => true
  | crx2 _ _ _ _ _ => true

/-- The field `error`, absent from a valid header. -/
def error : CrxHeader → Option String
  | invalid e => some e
  | _ => none

/-- The field `version`, absent from the failure object. -/
def version : CrxHeader → Option Nat
  | invalid _ => none
  | crx3 _ _ _ => some 3
  | crx2 _ _ _ _ _ => some 2

/-- The field `zipOffset`, absent from the failure object. -/
def zipOffset : CrxHeader → Option Nat
  | invalid _ => none
  | crx3 _ z _ => some z
  | crx2 _ _ z _ _ => some z

end CrxHeader

/-- The method `parseCrx3Header`. -/
def parseCrx3Header (buffer : Buffer) : Except String CrxHeader :=
  tryCatch
    (do
      let headerLength ← readUInt32LE buffer 8
      let zipOffset := 12 + headerLength
      if zipOffset ≥ buffer.length then
        return .invalid "Invalid CRX3 header length"
      return .crx3 headerLength zipOffset (bufSlice buffer 12 zipOffset))
    (fun message => .ok (.invalid ("CRX3 header parsing failed: " ++ message)))

/-- The method `parseCrx2Header`. -/
def parseCrx2Header (buffer : Buffer) : Except String CrxHeader :=
  tryCatch
    (do
      let publicKeyLength ← readUInt32LE buffer 8
      let signatureLength ← readUInt32LE buffer 12
      let zipOffset := 16 + publicKeyLength + signatureLength
      if zipOffset ≥ buffer.length then
        return .invalid "Invalid CRX2 header lengths"
      let publicKey := bufSlice buffer 16 (16 + publicKeyLength)
      let signature := bufSlice buffer (16 + publicKeyLength) zipOffset
      return .crx2 publicKeyLength signatureLength zipOffset publicKey signature)
    (fun message => .ok (.invalid ("CRX2 header parsing failed: " ++ message)))

/-- The method `parseCrxHeader`. -/
def parseCrxHeader (buffer : Buffer) : Except String CrxHeader :=
  tryCatch
    (do
      let magic := toAsciiString (bufSlice buffer 0 4)
      if magic ≠ CRX_MAGIC then
        return .invalid "Invalid CRX magic number"
      let version ← readUInt32LE buffer 4
      if version = CRX3_VERSION then
        parseCrx3Header buffer
      else if version = CRX2_VERSION then
        parseCrx2Header buffer
      else
        return .invalid ("Unsupported CRX version: " ++ toString version))
    (fun message => .ok (.invalid ("Header parsing failed: " ++ message)))

/-- The payload that `parseCrxFile` hands to the extractor: it throws
`Invalid CRX file format` when the header is not valid, and otherwise writes
`crxBuffer.slice(header.zipOffset)` to the temporary archive. -/
def zipData (crxBuffer : Buffer) (header : CrxHeader) : Except String Buffer :=
  if !header.isValid then
    .error "Invalid CRX file format"
  else
    .ok (bufSliceFrom crxBuffer (header.zipOffset.getD 0))

/-- The slices a valid header holds lie inside the buffer: each is the stretch
of the buffer its bounds name, of the full length, and ends at `zipOffset`,
which is within the buffer. -/
def CrxHeader.slicesInside (buffer : Buffer) : CrxHeader → Prop
  | .invalid _ => True
  | .crx3 headerLength zipOffset headerData =>
    zipOffset = 12 + headerLength ∧ zipOffset ≤ buffer.length
      ∧ headerData = (buffer.drop 12).take headerLength ∧ headerData.length = headerLength
  | .crx2 publicKeyLength signatureLength zipOffset publicKey signature =>
    zipOffset = 16 + publicKeyLength + signatureLength ∧ zipOffset ≤ buffer.length
      ∧ publicKey = (buffer.drop 16).take publicKeyLength
      ∧ publicKey.length = publicKeyLength
      ∧ signature = (buffer.drop (16 + publicKeyLength)).take signatureLength
      ∧ signature.length = signatureLength

/-- The bytes `Cr24`. -/
def magicBytes : Buffer := [0x43, 0x72, 0x32, 0x34]

/-! ## Paths (`path.join` and `path.dirname` of Node, POSIX flavour) -/

/-- The pieces of a path between its `/` separators, empty pieces included:
`a//b` gives `a`, the empty piece and `b`. -/
def splitSlash : List Char → List (List Char)
  | [] => [[]]
  | c :: cs =>
    if c = '/' then [] :: splitSlash cs
    else
      match splitSlash cs with
      | [] => [[c]]
      | piece :: pieces => (c :: piece) :: pieces

/-- One round of the loop of Node's `normalizeString`, on the stack of the
segments kept so far (the last one first): an empty segment and `.` are
dropped; `..` removes the last segment kept, unless there is none or it is
itself `..`, in which case `..` is kept when the path is relative and dropped
when it is absolute; any other segment is kept. -/
def normalizeStep (allowAboveRoot : Bool) (kept : List (List Char)) (segment : List Char) :
    List (List Char) :=
  if segment = [] ∨ segment = ['.'] then kept
  else if segment = ['.', '.'] then
    match kept with
    | [] => if allowAboveRoot then [segment] else []
    | last :: before =>
      if last = ['.', '.'] then (if allowAboveRoot then segment :: kept else kept)
      else before
  else segment :: kept

/-- Segments joined with `/`. -/
def joinSlash : List (List Char) → List Char
  | [] => []
  | [segment] => segment
  | segment :: rest => segment ++ '/' :: joinSlash rest

/-- The function `path.normalize` on the characters of a path. -/
def normalizeChars (path : List Char) : List Char :=
  if path = [] then ['.']
  else
    let isAbsolute := path.head? = some '/'
    let trailingSeparator := path.getLast? = some '/'
    let kept := (splitSlash path).foldl (normalizeStep (!isAbsolute)) []
    let res := joinSlash kept.reverse
    if res = [] then
      if isAbsolute then ['/'] else if trailingSeparator then ['.', '/'] else ['.']
    else
      (if isAbsolute then ['/'] else []) ++ res ++ (if trailingSeparator then ['/'] else [])

/-- The call `path.join(a, b)`: the arguments that are not empty are put together
with a `/` between them and the result is normalized; `.` when both are empty. -/
def pathJoin (a b : String) : String :=
  let joined :=
    if a.data = [] then b.data
    else if b.data = [] then a.data
    else a.data ++ '/' :: b.data
  if joined = [] then "." else String.mk (normalizeChars joined)

/-- The call `path.dirname(path)`: the path up to the last `/` that is followed
by a name, trailing separators not counting and the first character never
being taken for that separator. -/
def pathDirname (path : String) : String :=
  match path.data with
  | [] => "."
  | first :: rest =>
    let afterName := (rest.reverse.dropWhile (· = '/')).dropWhile (· ≠ '/')
    if afterName = [] then (if first = '/' then "/" else ".")
    else if first = '/' ∧ afterName.length = 1 then "//"
    else String.mk ((first :: rest).take afterName.length)

/-- The call `text.startsWith(start)`. -/
def startsWith (text start : String) : Bool :=
  start.data.isPrefixOf text.data

/-- The test `/\/$/.test(name)`: the name ends in a slash. -/
def endsWithSlash (name : String) : Bool :=
  name.data.getLast? = some '/'

/-! ## Archive extraction (`CrxParser.extractZipFile`) -/

/-- An entry of the archive: its name as yauzl has decoded it when it checks
the name, the error `openReadStream` reports for it, if any, and the error
the write stream of its target emits, if any. -/
structure ZipEntry where
  fileName : String
  openError : Option String
  writeError : Option String
  deriving DecidableEq, Repr

/-- What an extraction does to the file system: `mkdir` is a directory made
sure to exist (`mkdirSync` with `recursive: true`, skipped when the directory
is there), `writeFile` a write stream opened on a path. -/
inductive FsEffect where
  | mkdir (path : String)
  | writeFile (path : String)
  deriving DecidableEq, Repr

/-- The state of the promise `extractZipFile` returns. -/
inductive PromiseState where
  | pending
  | resolved
  | rejected (message : String)
  deriving DecidableEq, Repr

/-- A call of `resolve()`: it settles a pending promise and is ignored otherwise. -/
def PromiseState.resolve : PromiseState → PromiseState
  | .pending => .resolved
  | settled => settled

/-- A call of `reject(new Error(message))`: it settles a pending promise and is
ignored otherwise. -/
def PromiseState.reject (message : String) : PromiseState → PromiseState
  | .pending => .rejected message
  | settled => settled

/-- The variables of an extraction: the counter `extractedFiles`, the promise,
the file-system effects so far, in order, and, once the reading of the archive
has stopped, the entries that were never handed to the `entry` listener. -/
structure ExtractState where
  extractedFiles : Nat
  promise : PromiseState
  effects : List FsEffect
  unread : List ZipEntry
  deriving DecidableEq, Repr

/-- The check yauzl makes on the decoded name of an entry before it emits
`entry` (its `validateFileName`; both handles are opened without
`decodeStrings: false`, so the check is on): the message of the error for a
name that holds a backslash, that starts with a drive letter or with `/`, or
that has a `..` among the pieces `split("/")` gives. -/
def validateFileName (fileName : String) : Option String :=
  if Char.ofNat 92 ∈ fileName.data then
    some ("invalid characters in fileName: " ++ fileName)
  else if
      (match fileName.data with
        | letter :: ':' :: _ => letter.isAlpha
        | _ => false) = true
      ∨ fileName.data.head? = some '/' then
    some ("absolute path: " ++ fileName)
  else if ['.', '.'] ∈ splitSlash fileName.data then
    some ("invalid relative path: " ++ fileName)
  else none

/-- The segments `path.normalize` keeps of a name that has no `..` segment: the
pieces between its separators that are neither empty nor `.`. -/
def nameSegments (name : String) : List (List Char) :=
  (splitSlash name.data).filter fun segment => decide (¬ (segment = [] ∨ segment = ['.']))

/-- A call of `zipfile.readEntry()` on the second handle, the entries not yet
read being given, together with everything that follows from it: with no
entry left yauzl emits `end`; for a name that fails its check it emits
`error`, reads no further, and the `error` listener rejects; otherwise it
emits `entry` for the next one, and the listener skips it, makes its
directory, or streams it to its target, the `close` of the write stream
(which Node emits after an `error` as well) counting the file and either
resolving or reading on. -/
def readEntry (outputDir : String) (totalFiles : Nat) :
    List ZipEntry → ExtractState → ExtractState
  | [], st =>
    if st.extractedFiles = totalFiles then { st with promise := st.promise.resolve } else st
  | entry :: rest, st =>
    match validateFileName entry.fileName with
    | some message =>
      { st with
        promise := st.promise.reject ("ZIP extraction error: " ++ message)
        unread := entry :: rest }
    | none =>
      let entryPath := pathJoin outputDir entry.fileName
      if !startsWith entryPath outputDir then
        readEntry outputDir totalFiles rest st
      else if endsWithSlash entry.fileName then
        readEntry outputDir totalFiles rest
          { st with effects := st.effects ++ [.mkdir entryPath]
                    extractedFiles := st.extractedFiles + 1 }
      else
        match entry.openError with
        | some message =>
          { st with
            promise := st.promise.reject
              ("Failed to read entry " ++ entry.fileName ++ ": " ++ message)
            unread := rest }
        | none =>
          let opened : ExtractState :=
            { st with
              effects := st.effects ++ [.mkdir (pathDirname entryPath), .writeFile entryPath] }
          let written : ExtractState :=
            match entry.writeError with
            | some message =>
              { opened with
                promise := opened.promise.reject
                  ("Failed to write file " ++ entry.fileName ++ ": " ++ message) }
            | none => opened
          let closed : ExtractState :=
            { written with extractedFiles := written.extractedFiles + 1 }
          if closed.extractedFiles = totalFiles then
            { closed with promise := closed.promise.resolve, unread := rest }
          else
            readEntry outputDir totalFiles rest closed

/-- The number of `entry` events a handle opened with `lazyEntries: true` has
emitted after `readEntryCalls` calls of its `readEntry()`: yauzl reads one
entry for each call and none on its own. -/
def lazyEntryEvents (readEntryCalls : Nat) (entries : List ZipEntry) : Nat :=
  min readEntryCalls entries.length

/-- The method `extractZipFile`, the archive being given by what `yauzl.open`
reports for it: an error, or the entries of the archive. The output directory
is made sure to exist; `totalFiles` is counted by the `entry` listener of the
first handle, on which `readEntry()` is never called; the second handle is
read from its first entry. -/
def extractZipFile (outputDir : String) (archive : Except String (List ZipEntry)) :
    ExtractState :=
  match archive with
  | .error message =>
    { extractedFiles := 0
      promise := .rejected ("Failed to open ZIP file: " ++ message)
      effects := [.mkdir outputDir]
      unread := [] }
  | .ok entries =>
    let totalFiles := lazyEntryEvents 0 entries
    readEntry outputDir totalFiles entries
      { extractedFiles := 0, promise := .pending, effects := [.mkdir outputDir], unread := [] }

/-- A path lies within the output directory: it is the directory itself or
continues it after a separator. -/
def withinDir (outputDir path : String) : Bool :=
  path = outputDir || startsWith path (outputDir ++ "/")

/-- An entry whose body can be opened and written. -/
def plainEntry (fileName : String) : ZipEntry :=
  { fileName := fileName, openError := none, writeError := none }

/-! ## JavaScript values (the parsed `manifest.json`) -/

/-- A JavaScript value as `JSON.parse` builds it, and `undefined` for what a
missing property reads as. A number is given by an integer, which stands for
itself; the code looks at a number only to tell zero, 2 and 3 from the rest,
so that any other integer stands for any other number as well. An object
lists its own properties by key. -/
inductive JsVal where
  | undefined
  | null
  | bool (b : Bool)
  | num (n : Int)
  | str (s : String)
  | arr (items : List JsVal)
  | obj (props : List (String × JsVal))

namespace JsVal

/-- The conversion to a boolean that `!x` and `if (x)` apply. -/
def truthy : JsVal → Bool
  | undefined => false
  | null => false
  | bool b => b
  | num n => n ≠ 0
  | str s => s ≠ ""
  | arr _ => true
  | obj _ => true

/-- The test `typeof x === 'string'`. -/
def isString : JsVal → Bool
  | str _ => true
  | _ => false

/-- The test `Array.isArray(x)`. -/
def isArray : JsVal → Bool
  | arr _ => true
  | _ => false

/-- The test `x === n` for a number literal `n`. -/
def isNum (v : JsVal) (n : Int) : Bool :=
  match v with
  | num m => m = n
  | _ => false

/-- The values `undefined` and `null`, no property of which can be read. -/
def nullish : JsVal → Bool
  | undefined => true
  | null => true
  | _ => false

/-- The property read `x.key`, for the keys the validator reads (none of them is
inherited by a string, an array or an object): a `TypeError` on `undefined`
and `null`, the own property of an object, `undefined` elsewhere. -/
def getProp (v : JsVal) (key : String) : Except String JsVal :=
  match v with
  | undefined => .error ("Cannot read properties of undefined (reading '" ++ key ++ "')")
  | null => .error ("Cannot read properties of null (reading '" ++ key ++ "')")
  | obj props => .ok ((props.lookup key).getD undefined)
  | _ => .ok undefined

/-- The call `list.includes(x)` for a list of string literals: only a string
equals one of them. -/
def inList (list : List String) (v : JsVal) : Bool :=
  match v with
  | str s => decide (s ∈ list)
  | _ => false

end JsVal

/-- The call `text.includes(part)` on strings. -/
def strIncludes (text part : String) : Bool :=
  decide (part.data <:+: text.data)

/-- The call `parts.join(separator)` on an array of strings. -/
def joinStrings (separator : String) : List String → String
  | [] => ""
  | [part] => part
  | part :: rest => part ++ separator ++ joinStrings separator rest

/-! ## The package directory -/

mutual
/-- What a path of the package directory holds: a file of some size (for a link,
the size `statSync` reports for its target), a name whose `statSync` throws, a
directory `readdirSync` cannot read, or a directory with its entries. -/
inductive FsNode where
  | file (size : Nat)
  | dangling
  | unreadable
  | dir (entries : FsEntries)
/-- The entries of a directory, in the order `readdirSync` lists them. -/
inductive FsEntries where
  | nil
  | cons (name : String) (node : FsNode) (rest : FsEntries)
end

mutual
/-- The method `calculateDirectorySize` on what its path holds: `readdirSync`
throws on anything but a readable directory, and a throw anywhere in the loop
is caught, the total so far being returned. -/
def calculateDirectorySize : FsNode → Nat
  | .dir entries => sizeLoop entries 0
  | _ => 0
/-- The `for` loop of `calculateDirectorySize`, `totalSize` being given. -/
def sizeLoop : FsEntries → Nat → Nat
  | .nil, totalSize => totalSize
  | .cons _ (.file size) rest, totalSize => sizeLoop rest (totalSize + size)
  | .cons _ .dangling _, totalSize => totalSize
  | .cons _ .unreadable rest, totalSize =>
    sizeLoop rest (totalSize + calculateDirectorySize .unreadable)
  | .cons _ (.dir entries) rest, totalSize =>
    sizeLoop rest (totalSize + calculateDirectorySize (.dir entries))
end

mutual
/-- The method `countFiles` on what its path holds; `statSync` is not called, so
every entry that is not a directory counts. -/
def countFiles : FsNode → Nat
  | .dir entries => countLoop entries 0
  | _ => 0
/-- The `for` loop of `countFiles`, `fileCount` being given. -/
def countLoop : FsEntries → Nat → Nat
  | .nil, fileCount => fileCount
  | .cons _ (.file _) rest, fileCount => countLoop rest (fileCount + 1)
  | .cons _ .dangling rest, fileCount => countLoop rest (fileCount + 1)
  | .cons _ .unreadable rest, fileCount => countLoop rest (fileCount + countFiles .unreadable)
  | .cons _ (.dir entries) rest, fileCount =>
    countLoop rest (fileCount + countFiles (.dir entries))
end

/-! ## Manifest validation (`ExtensionSecurity`) -/

/-- The policy list `allowedPermissions`. -/
def allowedPermissions : List String :=
  ["tabs", "storage", "contextMenus", "browserAction", "activeTab", "background",
    "notifications", "bookmarks", "history"]

/-- The policy list `dangerousPermissions`. -/
def dangerousPermissions : List String :=
  ["webRequest", "webRequestBlocking", "proxy", "privacy", "management", "nativeMessaging",
    "debugger"]

/-- The policy list `blockedPermissions`. -/
def blockedPermissions : List String :=
  ["experimental", "system.cpu", "system.memory", "system.storage", "fileSystem", "serial",
    "usb", "bluetooth"]

/-- The policy constant `maxExtensionSize`. -/
def maxExtensionSize : Nat := 50 * 1024 * 1024

/-- The policy constant `maxFileCount`. -/
def maxFileCount : Nat := 1000

/-- The host-permission test of `validatePermissions` on a permission that is not
a string: `permission.includes('://')` is true on an array that holds the
string `://`; on any other array it is false and `permission.startsWith` is
not a function; on every other value `permission.includes` cannot be called. -/
def nonStringHostPermission (permission : JsVal) : Except String Bool :=
  match permission with
  | .arr items =>
    if items.any (JsVal.inList ["://"]) then .ok true
    else .error "permission.startsWith is not a function"
  | .undefined => .error "Cannot read properties of undefined (reading 'includes')"
  | .null => .error "Cannot read properties of null (reading 'includes')"
  | _ => .error "permission.includes is not a function"

/-- The method `validatePermissions`: the list `invalid` after the `forEach`.
A permission that is not a string is in none of the policy lists, and its
host-permission test is true or throws, so that only strings are pushed. -/
def validatePermissions : List JsVal → Except String (List String)
  | [] => .ok []
  | .str permission :: rest =>
    if permission ∈ blockedPermissions then do
      let invalid ← validatePermissions rest
      return permission :: invalid
    else do
      let isAllowed := decide (permission ∈ allowedPermissions)
      let isDangerous := decide (permission ∈ dangerousPermissions)
      let isHostPermission :=
        strIncludes permission "://" || startsWith permission "<all_urls>"
      let invalid ← validatePermissions rest
      if !isAllowed && !isDangerous && !isHostPermission then
        return permission :: invalid
      else
        return invalid
  | permission :: rest => do
    let _ ← nonStringHostPermission permission
    validatePermissions rest

/-- The method `getDangerousPermissions`: `permissions.filter` exists on an array
only. -/
def getDangerousPermissions (permissions : JsVal) : Except String (List JsVal) :=
  match permissions with
  | .arr items => .ok (items.filter (JsVal.inList dangerousPermissions))
  | .undefined => .error "Cannot read properties of undefined (reading 'filter')"
  | .null => .error "Cannot read properties of null (reading 'filter')"
  | _ => .error "permissions.filter is not a function"

/-- The object `validateManifest` returns. -/
structure ValidationResult where
  valid : Bool
  errors : List String
  warnings : List String
  permissions : JsVal
  dangerousPermissions : List JsVal

/-- The errors of the check of `manifest.name`. -/
def nameErrors (manifest : JsVal) : Except String (List String) := do
  let name ← manifest.getProp "name"
  if !name.truthy || !name.isString then
    return ["Extension name is required and must be a string"]
  return []

/-- The errors of the check of `manifest.version`. -/
def versionErrors (manifest : JsVal) : Except String (List String) := do
  let version ← manifest.getProp "version"
  if !version.truthy || !version.isString then
    return ["Extension version is required and must be a string"]
  return []

/-- The errors of the check of `manifest.manifest_version`. -/
def manifestVersionErrors (manifest : JsVal) : Except String (List String) := do
  let manifestVersion ← manifest.getProp "manifest_version"
  if !manifestVersion.truthy || !(manifestVersion.isNum 2 || manifestVersion.isNum 3) then
    return ["Manifest version must be 2 or 3"]
  return []

/-- The errors of the block `// Validate permissions`. -/
def permissionsErrors (manifest : JsVal) : Except String (List String) := do
  let permissions ← manifest.getProp "permissions"
  if permissions.truthy then
    match permissions with
    | .arr items =>
      let invalidPermissions ← validatePermissions items
      if invalidPermissions.length > 0 then
        return ["Invalid permissions: " ++ joinStrings ", " invalidPermissions]
      return []
    | _ => return ["Permissions must be an array"]
  return []

/-- The errors the `forEach` over `manifest.content_scripts` pushes, from the
entry of the given index on. -/
def contentScriptErrors : Nat → List JsVal → Except String (List String)
  | _, [] => .ok []
  | index, script :: rest => do
    let scriptMatches ← script.getProp "matches"
    let matchesErrors :=
      if !scriptMatches.truthy || !scriptMatches.isArray then
        ["Content script " ++ toString index ++ " must have matches array"]
      else []
    let js ← script.getProp "js"
    let css ← script.getProp "css"
    let filesErrors :=
      if !js.truthy && !css.truthy then
        ["Content script " ++ toString index ++ " must have js or css files"]
      else []
    let restErrors ← contentScriptErrors (index + 1) rest
    return matchesErrors ++ filesErrors ++ restErrors

/-- The errors of the block `// Validate content scripts`. -/
def contentScriptsErrors (manifest : JsVal) : Except String (List String) := do
  let contentScripts ← manifest.getProp "content_scripts"
  if contentScripts.truthy then
    match contentScripts with
    | .arr scripts => contentScriptErrors 0 scripts
    | _ => return ["Content scripts must be an array"]
  else
    return []

/-- The warnings of the block `// Validate background scripts`. -/
def backgroundWarnings (manifest : JsVal) : Except String (List String) := do
  let background ← manifest.getProp "background"
  if background.truthy then
    let manifestVersion ← manifest.getProp "manifest_version"
    if manifestVersion.isNum 2 then
      let scripts ← background.getProp "scripts"
      let page ← background.getProp "page"
      if !scripts.truthy && !page.truthy then
        return ["Background page should specify scripts or page"]
      return []
    else if manifestVersion.isNum 3 then
      let serviceWorker ← background.getProp "service_worker"
      if !serviceWorker.truthy then
        return ["Manifest v3 should use service_worker for background"]
      return []
    else
      return []
  else
    return []

/-- The errors the `forEach` over `manifest.web_accessible_resources` pushes, from
the entry of the given index on. -/
def webResourceErrors : Nat → List JsVal → Except String (List String)
  | _, [] => .ok []
  | index, resource :: rest => do
    let resources ← resource.getProp "resources"
    let resourceMatches ← resource.getProp "matches"
    let here :=
      if !resources.truthy || !resourceMatches.truthy then
        ["Web accessible resource " ++ toString index ++ " must have resources and matches"]
      else []
    let restErrors ← webResourceErrors (index + 1) rest
    return here ++ restErrors

/-- The errors of the block `// Validate web accessible resources`. -/
def webAccessibleResourcesErrors (manifest : JsVal) : Except String (List String) := do
  let resources ← manifest.getProp "web_accessible_resources"
  if resources.truthy then
    let manifestVersion ← manifest.getProp "manifest_version"
    if manifestVersion.isNum 2 then
      if !resources.isArray then
        return ["Web accessible resources must be an array in manifest v2"]
      return []
    else if manifestVersion.isNum 3 then
      match resources with
      | .arr items => webResourceErrors 0 items
      | _ => return ["Web accessible resources must be an array in manifest v3"]
    else
      return []
  else
    return []

/-- The errors of the block `// Check file size limits`. -/
def sizeErrors (extensionPath : FsNode) : List String :=
  let extensionSize := calculateDirectorySize extensionPath
  if extensionSize > maxExtensionSize then
    ["Extension size (" ++ toString extensionSize ++ " bytes) exceeds maximum allowed size"]
  else []

/-- The errors of the block `// Check file count`. -/
def fileCountErrors (extensionPath : FsNode) : List String :=
  let fileCount := countFiles extensionPath
  if fileCount > maxFileCount then
    ["Extension has too many files (" ++ toString fileCount ++ "), maximum allowed is "
      ++ toString maxFileCount]
  else []

/-- The `try` block of `validateManifest`: the checks in the order of the source,
each adding its errors to the end of `errors`, then the returned object,
whose last field calls `getDangerousPermissions`. -/
def validateManifestBody (manifest : JsVal) (extensionPath : FsNode) :
    Except String ValidationResult := do
  let e1 ← nameErrors manifest
  let e2 ← versionErrors manifest
  let e3 ← manifestVersionErrors manifest
  let e4 ← permissionsErrors manifest
  let e5 ← contentScriptsErrors manifest
  let warnings ← backgroundWarnings manifest
  let e6 ← webAccessibleResourcesErrors manifest
  let errors := e1 ++ e2 ++ e3 ++ e4 ++ e5 ++ e6 ++ sizeErrors extensionPath
    ++ fileCountErrors extensionPath
  let permissions ← manifest.getProp "permissions"
  let requested := if permissions.truthy then permissions else .arr []
  let dangerous ← getDangerousPermissions requested
  return { valid := errors.length == 0
           errors := errors
           warnings := warnings
           permissions := requested
           dangerousPermissions := dangerous }

/-- The method `validateManifest`, the package directory being given by what
its path holds: the result of the `try` block, or the object of the `catch`
block when something in it throws. -/
def validateManifest (manifest : JsVal) (extensionPath : FsNode) : ValidationResult :=
  match validateManifestBody manifest extensionPath with
  | .ok result => result
  | .error message =>
    { valid := false
      errors := ["Manifest validation failed: " ++ message]
      warnings := []
      permissions := .arr []
      dangerousPermissions := [] }

/-- A content script has a `matches` property that is an array. -/
def hasMatchesArray (script : JsVal) : Bool :=
  match script.getProp "matches" with
  | .ok value => value.isArray
  | .error _ => false

/-- A content script has a truthy `js` or a truthy `css` property. -/
def hasScriptOrStyle (script : JsVal) : Bool :=
  match script.getProp "js", script.getProp "css" with
  | .ok js, .ok css => js.truthy || css.truthy
  | _, _ => false

/-- A web accessible resource has a truthy `resources` and a truthy `matches`
property. -/
def hasResourcesAndMatches (resource : JsVal) : Bool :=
  match resource.getProp "resources", resource.getProp "matches" with
  | .ok resources, .ok resourceMatches => resources.truthy && resourceMatches.truthy
  | _, _ => false

/-! ## Permission classes in the words of the specification -/

/-- The host test of `validatePermissions` on a string: it contains `://` or
begins with `<all_urls>`. -/
def hostPermissionTest (permission : String) : Bool :=
  strIncludes permission "://" || startsWith permission "<all_urls>"

/-- A permission `validatePermissions` pushes to `invalid`, by the tests of the
code: it is blocked, or it is in neither of the two other lists and fails the
host test. -/
def rejectedPermission (permission : String) : Bool :=
  decide (permission ∈ blockedPermissions)
    || (!decide (permission ∈ allowedPermissions) && !decide (permission ∈ dangerousPermissions)
        && !hostPermissionTest permission)

/-- A host-match pattern in the words of the specification: a string that
contains the scheme separator `://` or is the wildcard `<all_urls>`. -/
def specHostPattern (permission : String) : Bool :=
  strIncludes permission "://" || decide (permission = "<all_urls>")

/-- A permission the specification rejects: it is blocked, or it is in neither
the allowed nor the escalation list and is not a host-match pattern. -/
def specRejected (permission : String) : Bool :=
  decide (permission ∈ blockedPermissions)
    || (!decide (permission ∈ allowedPermissions) && !decide (permission ∈ dangerousPermissions)
        && !specHostPattern permission)

/-! ## Package trees in the words of the specification -/

mutual
/-- Everything below the node can be read: no directory that `readdirSync`
fails on and no name that `statSync` fails on. -/
def FsNode.readable : FsNode → Bool
  | .file _ => true
  | .dangling => false
  | .unreadable => false
  | .dir entries => entries.readable
/-- Every entry of the directory can be read, at any depth. -/
def FsEntries.readable : FsEntries → Bool
  | .nil => true
  | .cons _ node rest => node.readable && rest.readable
end

mutual
/-- The byte size of a file, and for a directory the sum of the byte sizes of
the files below it at any depth. -/
def FsNode.totalSize : FsNode → Nat
  | .file size => size
  | .dangling => 0
  | .unreadable => 0
  | .dir entries => entries.totalSize
/-- The sum of the byte sizes of the files below the entries, at any depth. -/
def FsEntries.totalSize : FsEntries → Nat
  | .nil => 0
  | .cons _ node rest => node.totalSize + rest.totalSize
end

mutual
/-- One for a file, and for a directory the number of files below it at any
depth. -/
def FsNode.fileTotal : FsNode → Nat
  | .file _ => 1
  | .dangling => 1
  | .unreadable => 0
  | .dir entries => entries.fileTotal
/-- The number of files below the entries, at any depth. -/
def FsEntries.fileTotal : FsEntries → Nat
  | .nil => 0
  | .cons _ node rest => node.fileTotal + rest.fileTotal
end

/-! ## The rules of validation, one error for each -/

/-- Every rule that the manifest and the package directory break has its error in
the list: the name and the version are non-empty strings; the manifest
version is 2 or 3; no string of the permissions array is rejected; the
content scripts are an array whose entries have a `matches` array and a `js`
or a `css`; the web accessible resources are an array for the versions 2 and
3, whose entries, for the version 3, have `resources` and `matches`; the size
and the number of files are within the ceilings. -/
def reportsEveryRule (manifest : JsVal) (pkg : FsNode) (errors : List String) : Prop :=
  (∀ v, manifest.getProp "name" = .ok v → (v.truthy = false ∨ v.isString = false) →
      "Extension name is required and must be a string" ∈ errors)
  ∧ (∀ v, manifest.getProp "version" = .ok v → (v.truthy = false ∨ v.isString = false) →
      "Extension version is required and must be a string" ∈ errors)
  ∧ (∀ v, manifest.getProp "manifest_version" = .ok v → v.isNum 2 = false →
      v.isNum 3 = false → "Manifest version must be 2 or 3" ∈ errors)
  ∧ (∀ items p, manifest.getProp "permissions" = .ok (.arr items) → JsVal.str p ∈ items →
      rejectedPermission p = true → ∃ e ∈ errors, strIncludes e p = true)
  ∧ (∀ v, manifest.getProp "content_scripts" = .ok v → v.truthy = true → v.isArray = false →
      "Content scripts must be an array" ∈ errors)
  ∧ (∀ scripts (i : Nat) script, manifest.getProp "content_scripts" = .ok (.arr scripts) →
      scripts[i]? = some script →
      (hasMatchesArray script = false →
        ("Content script " ++ toString i ++ " must have matches array") ∈ errors)
      ∧ (hasScriptOrStyle script = false →
        ("Content script " ++ toString i ++ " must have js or css files") ∈ errors))
  ∧ (∀ v version, manifest.getProp "web_accessible_resources" = .ok v → v.truthy = true →
      v.isArray = false → manifest.getProp "manifest_version" = .ok version →
      (version.isNum 2 = true →
        "Web accessible resources must be an array in manifest v2" ∈ errors)
      ∧ (version.isNum 3 = true →
        "Web accessible resources must be an array in manifest v3" ∈ errors))
  ∧ (∀ items (i : Nat) resource,
      manifest.getProp "web_accessible_resources" = .ok (.arr items) →
      manifest.getProp "manifest_version" = .ok (.num 3) → items[i]? = some resource →
      hasResourcesAndMatches resource = false →
      ("Web accessible resource " ++ toString i ++ " must have resources and matches") ∈ errors)
  ∧ (calculateDirectorySize pkg > maxExtensionSize →
      ("Extension size (" ++ toString (calculateDirectorySize pkg)
        ++ " bytes) exceeds maximum allowed size") ∈ errors)
  ∧ (countFiles pkg > maxFileCount →
      ("Extension has too many files (" ++ toString (countFiles pkg)
        ++ "), maximum allowed is " ++ toString maxFileCount) ∈ errors)

/-! ## The permission broker (`ExtensionSecurity`) -/

/-- The call `map.get(key)` on a `Map` with string keys, given by its entries in
the order of insertion. -/
def mapGet {α : Type} (map : List (String × α)) (key : String) : Option α :=
  match map with
  | [] => none
  | (k, v) :: rest => if k = key then some v else mapGet rest key

/-- The call `map.set(key, value)`: the value of a key that is there is replaced
in place, a new key goes to the end. -/
def mapSet {α : Type} (map : List (String × α)) (key : String) (value : α) :
    List (String × α) :=
  match map with
  | [] => [(key, value)]
  | (k, v) :: rest =>
    if k = key then (k, value) :: rest else (k, v) :: mapSet rest key value

/-- The call `map.delete(key)`. -/
def mapDelete {α : Type} (map : List (String × α)) (key : String) : List (String × α) :=
  map.filter fun entry => decide (entry.1 ≠ key)

/-- The call `set.add(value)` on a `Set` of strings, given by its members in the
order of insertion. -/
def setAdd (set : List String) (value : String) : List String :=
  if value ∈ set then set else set ++ [value]

/-- The call `set.delete(value)`. -/
def setDelete (set : List String) (value : String) : List String :=
  set.filter fun member => decide (member ≠ value)

/-- A function passed as `userCallback`, given by a number that tells it from
other functions. -/
abbrev Callback := Nat

/-- An entry of `permissionRequests`. -/
structure PermissionRequest where
  extensionId : String
  permissions : List String
  callback : Callback
  timestamp : Int
  deriving DecidableEq, Repr

/-- The two maps of an `ExtensionSecurity` object. -/
structure Broker where
  permissionRequests : List (String × PermissionRequest)
  grantedPermissions : List (String × List String)
  deriving DecidableEq, Repr

/-- What `requestPermissions` resolves to. -/
inductive PermissionResponse where
  | granted (permissions : List String)
  | consentRequired (requestId : String) (dangerousPermissions : List String)
      (message : String)
  deriving DecidableEq, Repr

/-- The method `getDangerousPermissions` on an array of strings. -/
def dangerousAmong (permissions : List String) : List String :=
  permissions.filter fun permission => decide (permission ∈ dangerousPermissions)

/-- The method `grantPermissions`: the set of the extension, made when it is
missing, gets every permission of the list. -/
def grantPermissions (broker : Broker) (extensionId : String) (permissions : List String) :
    Broker :=
  let extensionPermissions := (mapGet broker.grantedPermissions extensionId).getD []
  { broker with
    grantedPermissions :=
      mapSet broker.grantedPermissions extensionId (permissions.foldl setAdd extensionPermissions) }

/-- The method `requestPermissions` on an array of strings, with the value
`crypto.randomUUID()` returns and the value of `Date.now()`. -/
def requestPermissions (broker : Broker) (extensionId : String) (permissions : List String)
    (userCallback : Callback) (requestId : String) (now : Int) : PermissionResponse × Broker :=
  let dangerous := dangerousAmong permissions
  if dangerous.length = 0 then
    (.granted permissions, grantPermissions broker extensionId permissions)
  else
    (.consentRequired requestId dangerous "User consent required for dangerous permissions",
      { broker with
        permissionRequests :=
          mapSet broker.permissionRequests requestId
            { extensionId := extensionId
              permissions := dangerous
              callback := userCallback
              timestamp := now } })

/-- The method `revokePermissions`; `none` is the default `null` of the
parameter `permissions`. -/
def revokePermissions (broker : Broker) (extensionId : String)
    (permissions : Option (List String)) : Broker :=
  match permissions with
  | none => { broker with grantedPermissions := mapDelete broker.grantedPermissions extensionId }
  | some list =>
    match mapGet broker.grantedPermissions extensionId with
    | some extensionPermissions =>
      { broker with
        grantedPermissions :=
          mapSet broker.grantedPermissions extensionId (list.foldl setDelete extensionPermissions) }
    | none => broker

/-- The method `hasPermission`. -/
def hasPermission (broker : Broker) (extensionId permission : String) : Bool :=
  match mapGet broker.grantedPermissions extensionId with
  | some extensionPermissions => decide (permission ∈ extensionPermissions)
  | none => false

/-- The constant `expiredTime` of `cleanupExpiredRequests`: 5 minutes, in
milliseconds. -/
def expiredTime : Int := 5 * 60 * 1000

/-- The test `now - request.timestamp > expiredTime`. -/
def expired (now : Int) (request : PermissionRequest) : Bool :=
  decide (now - request.timestamp > expiredTime)

/-- The method `cleanupExpiredRequests`, with the value of `Date.now()`: the loop
over the entries of `permissionRequests` deletes the key of every expired
one. -/
def cleanupExpiredRequests (broker : Broker) (now : Int) : Broker :=
  { broker with
    permissionRequests :=
      broker.permissionRequests.foldl
        (fun table entry => if expired now entry.2 then mapDelete table entry.1 else table)
        broker.permissionRequests }

/-- A broker with nothing granted and nothing pending. -/
def emptyBroker : Broker := { permissionRequests := [], grantedPermissions := [] }

/-! ## Regular expressions of the code, on the characters of a string -/

/-- An ASCII letter: what `[a-z]` matches under the flag `i`. -/
def isAsciiLetter (c : Char) : Bool :=
  (97 ≤ c.toNat && c.toNat ≤ 122) || (65 ≤ c.toNat && c.toNat ≤ 90)

/-- The lower-case form of an ASCII capital; any other character is itself. -/
def asciiLower (c : Char) : Char :=
  if 65 ≤ c.toNat ∧ c.toNat ≤ 90 then Char.ofNat (c.toNat + 32) else c

/-- A literal of ASCII characters matched at the start of a text under the flag
`i`: the text after the literal, when the text begins with it up to the case
of the ASCII letters. -/
def dropLiteral : List Char → List Char → Option (List Char)
  | [], text => some text
  | _ :: _, [] => none
  | p :: pattern, c :: text =>
    if asciiLower p = asciiLower c then dropLiteral pattern text else none

/-- The first 32 characters of a text, when they are there and are ASCII letters:
what the group `([a-z]{32})` captures at the start of the text. -/
def take32Letters (text : List Char) : Option (List Char) :=
  if (text.take 32).length = 32 ∧ (text.take 32).all isAsciiLetter = true then
    some (text.take 32)
  else none

/-- The leftmost match of a pattern in a text: the pattern is tried at the start
of the text, then one character further, and so on to the end. -/
def searchFrom {α : Type} (matchAt : List Char → Option α) : List Char → Option α
  | [] => matchAt []
  | c :: text =>
    match matchAt (c :: text) with
    | some found => some found
    | none => searchFrom matchAt text

/-- The call `text.replace(pattern, '')` for a pattern with the flag `g` that
matches no empty string, the pattern being given by the length of its match
at the start of a text: every match found from the left is left out, the
search going on after it. The first argument counts the characters of the
current match that are still to be dropped. -/
def removeMatches (matchLength : List Char → Option Nat) : Nat → List Char → List Char
  | _, [] => []
  | skip + 1, _ :: text => removeMatches matchLength skip text
  | 0, c :: text =>
    match matchLength (c :: text) with
    | some (n + 1) => removeMatches matchLength n text
    | _ => c :: removeMatches matchLength 0 text

/-- The length of a match, from the text it starts in and the text after it. -/
def matchedLength (text : List Char) (after : Option (List Char)) : Option Nat :=
  after.map fun rest => text.length - rest.length

/-! ## The catalog client (`ChromeWebStore`) -/

/-- The field `baseUrl`. -/
def baseUrl : String := "https://chrome.google.com/webstore/detail"

/-- The literal both patterns of `extractExtensionId` begin with. -/
def detailLiteral : List Char := "chrome.google.com/webstore/detail/".data

/-- The first pattern of `extractExtensionId` at the start of a text:
`chrome\.google\.com\/webstore\/detail\/[^\/]+\/([a-z]{32})` under the flag
`i`. The name `[^\/]+` cannot hold a slash and is followed by one, so that it
is the text up to the first slash, which must not be empty. -/
def matchNamedDetail (text : List Char) : Option (List Char) :=
  match dropLiteral detailLiteral text with
  | none => none
  | some rest =>
    if rest.takeWhile (· ≠ '/') = [] then none
    else
      match rest.dropWhile (· ≠ '/') with
      | [] => none
      | _ :: afterSlash => take32Letters afterSlash

/-- The second pattern of `extractExtensionId` at the start of a text:
`chrome\.google\.com\/webstore\/detail\/([a-z]{32})` under the flag `i`. -/
def matchDetail (text : List Char) : Option (List Char) :=
  match dropLiteral detailLiteral text with
  | none => none
  | some rest => take32Letters rest

/-- The test `/^[a-z]{32}$/i.test(url)`. -/
def isBareId (url : String) : Bool :=
  url.data.length = 32 && url.data.all isAsciiLetter

/-- The method `extractExtensionId` on a string; `none` is `null`. -/
def extractExtensionId (url : String) : Option String :=
  match searchFrom matchNamedDetail url.data with
  | some id => some (String.mk id)
  | none =>
    match searchFrom matchDetail url.data with
    | some id => some (String.mk id)
    | none =>
      if isBareId url then some (String.mk (url.data.map asciiLower)) else none

/-- The method `isValidWebStoreUrl` on a string. -/
def isValidWebStoreUrl (url : String) : Bool :=
  (searchFrom (dropLiteral "chrome.google.com/webstore/detail".data) url.data).isSome
    || isBareId url

/-- The page of a response as the selectors of `fetchExtensionMetadata` see it:
`text selector` is `$(selector).text().trim()`, the empty string when
nothing is selected, and `attr selector name` is `$(selector).attr(name)`,
`none` for `undefined`. -/
structure Page where
  text : String → String
  attr : String → String → Option String

/-- A response of `fetch`: the fields `ok`, `status` and `statusText` and the
page of its body. -/
structure HttpResponse where
  ok : Bool
  status : Nat
  statusText : String
  page : Page

/-- The object `fetchExtensionMetadata` returns; `iconUrl` is `none` for `null`. -/
structure Metadata where
  id : String
  name : String
  description : String
  version : String
  developer : String
  rating : String
  userCount : String
  iconUrl : Option String
  webStoreUrl : String
  deriving DecidableEq, Repr

/-- The expression `a || b` on strings: the first when it is not empty. -/
def orElse (a b : String) : String :=
  if a ≠ "" then a else b

/-- The expression `a || b` on a string that may be `undefined`. -/
def attrOr (a : Option String) (b : Option String) : Option String :=
  match a with
  | some value => if value ≠ "" then some value else b
  | none => b

/-- The method `fetchExtensionMetadata`, with what `fetch` settles to: the
message of the error it rejects with, or the response. -/
def fetchExtensionMetadata (extensionId : String) (fetched : Except String HttpResponse) :
    Except String Metadata :=
  tryCatch
    (do
      let url := baseUrl ++ "/" ++ extensionId
      let response ← fetched
      if !response.ok then
        throw ("Failed to fetch extension page: " ++ toString response.status ++ " "
          ++ response.statusText)
      let page := response.page
      let name := orElse (page.text "h1.e-f-w")
        (orElse (page.text "[data-g-label=\"Extension name\"]") "Unknown Extension")
      let description := orElse (page.text ".C-b-p-j-Pb")
        (orElse (page.text "[data-g-label=\"Extension description\"]")
          "No description available")
      let version := orElse (page.text ".C-b-p-j-Pb-Oa")
        (orElse (page.text "[data-g-label=\"Extension version\"]") "1.0.0")
      let developer := orElse (page.text ".e-f-Me")
        (orElse (page.text "[data-g-label=\"Extension developer\"]") "Unknown Developer")
      let rating := (attrOr (page.attr ".rsw-stars" "title") (some "No rating")).getD "No rating"
      let userCount := orElse (page.text ".e-f-ih") "0 users"
      let iconUrl := attrOr (page.attr "img.e-f-s" "src")
        (attrOr (page.attr ".webstore-test-wall-tile img" "src") none)
      let iconUrl :=
        match iconUrl with
        | some icon => if startsWith icon "//" then some ("https:" ++ icon) else some icon
        | none => none
      return { id := extensionId
               name := name
               description := description
               version := version
               developer := developer
               rating := rating
               userCount := userCount
               iconUrl := iconUrl
               webStoreUrl := url })
    (fun message => .error ("Failed to fetch extension metadata: " ++ message))

/-- What `ChromeWebStore.installFromWebStore` returns. -/
inductive DownloadResult where
  | success (extensionId : String) (metadata : Metadata) (crxPath : String) (message : String)
  | failure (error : String) (message : String)
  deriving DecidableEq, Repr

/-- The field `success` of a download result. -/
def DownloadResult.isSuccess : DownloadResult → Bool
  | .success _ _ _ _ => true
  | .failure _ _ => false

/-- The method `ChromeWebStore.installFromWebStore`, with what the two requests
settle to: `fetched` for the detail page, and `downloaded` for
`downloadExtension`, the message of the error it throws or nothing. -/
def webStoreInstall (webStoreUrl tempDir : String) (fetched : Except String HttpResponse)
    (downloaded : Except String Unit) : DownloadResult :=
  let attempt : Except String DownloadResult := do
    let extensionId ←
      match extractExtensionId webStoreUrl with
      | some id =>
        if id ≠ "" then pure id
        else throw "Invalid Chrome Web Store URL. Please provide a valid extension URL."
      | none => throw "Invalid Chrome Web Store URL. Please provide a valid extension URL."
    let metadata ← fetchExtensionMetadata extensionId fetched
    let crxPath := pathJoin tempDir (extensionId ++ ".crx")
    downloaded
    return .success extensionId metadata crxPath
      ("Successfully downloaded " ++ metadata.name ++ " v" ++ metadata.version)
  match attempt with
  | .ok result => result
  | .error message => .failure message ("Installation failed: " ++ message)

/-- A page from which nothing can be scraped. -/
def blankPage : Page := { text := fun _ => "", attr := fun _ _ => none }

/-! ## Sanitizing (`ExtensionSecurity.sanitizeExtensionContent`) -/

/-- A word character: what `\w` matches. -/
def isWordChar (c : Char) : Bool :=
  isAsciiLetter c || (48 ≤ c.toNat && c.toNat ≤ 57) || c = '_'

/-- A white-space character: what `\s` matches. -/
def isJsSpace (c : Char) : Bool :=
  decide (c.toNat ∈ [0x09, 0x0A, 0x0B, 0x0C, 0x0D, 0x20, 0xA0, 0x1680, 0x2028, 0x2029, 0x202F,
    0x205F, 0x3000, 0xFEFF]) || (0x2000 ≤ c.toNat && c.toNat ≤ 0x200A)

/-- The pattern `<script[^>]*>.*?<\/script>` with the flags `i` and `s` at the
start of a text: the text after the match. The attributes `[^>]*` end at the
first `>`, and the content `.*?` at the first closing tag after it. -/
def matchScriptElement (text : List Char) : Option (List Char) :=
  match dropLiteral "<script".data text with
  | none => none
  | some rest =>
    match rest.dropWhile (· ≠ '>') with
    | [] => none
    | _ :: content => searchFrom (dropLiteral "</script>".data) content

/-- The pattern `on\w+\s*=\s*["'][^"']*["']` with the flag `i` at the start of a
text: the text after the match. Each repetition takes all the characters of
its class that follow, since the pattern goes on with a character outside of
the class. -/
def matchEventHandler (text : List Char) : Option (List Char) :=
  match dropLiteral "on".data text with
  | none => none
  | some rest =>
    if rest.takeWhile isWordChar = [] then none
    else
      match (rest.dropWhile isWordChar).dropWhile isJsSpace with
      | '=' :: afterEquals =>
        match afterEquals.dropWhile isJsSpace with
        | quote :: value =>
          if quote = '"' ∨ quote = '\'' then
            match value.dropWhile (fun c => c ≠ '"' ∧ c ≠ '\'') with
            | [] => none
            | _ :: afterValue => some afterValue
          else none
        | [] => none
      | _ => none

/-- The method `sanitizeExtensionContent`. -/
def sanitizeExtensionContent (content contentType : String) : String :=
  if contentType = "html" then
    let noScripts :=
      removeMatches (fun text => matchedLength text (matchScriptElement text)) 0 content.data
    let noHandlers :=
      removeMatches (fun text => matchedLength text (matchEventHandler text)) 0 noScripts
    let noLinks :=
      removeMatches (fun text => matchedLength text (dropLiteral "javascript:".data text)) 0
        noHandlers
    String.mk noLinks
  else content

/-! ## The registry (`ExtensionManager`) -/

/-- A record of the map `extensions`. The path of a record is a directory of
`extensionsDir` and is given by the name of that directory; a field that an
install does not set is `none`. -/
structure Extension where
  id : String
  path : String
  manifest : JsVal
  enabled : Bool
  apis : List String
  installDate : Option String
  source : Option String
  webStoreUrl : Option String
  metadata : Option Metadata

/-- The state of an `ExtensionManager` and of the directory `extensionsDir`: the
map `extensions`, the set `enabledExtensions`, the directories of
`extensionsDir` by name, the parsed content of the file `.enabled.json`
(`none` when the file is missing), the `ExtensionSecurity` object and the
field `tempDir`. -/
structure Manager where
  extensions : List (String × Extension)
  enabledExtensions : List String
  installed : List (String × FsNode)
  enabledFile : Option JsVal
  security : Broker
  tempDir : String

/-- What a method of the manager returns: `{ success: true }`, with the id of
the extension for an install, or `{ success: false, error }`. -/
inductive OpResult where
  | success (extensionId : Option String)
  | failure (error : String)
  deriving DecidableEq, Repr

/-- The field `success`. -/
def OpResult.isSuccess : OpResult → Bool
  | .success _ => true
  | .failure _ => false

/-- What `fs.rmSync(path, { recursive: true, force: true })` does: it removes the
path, or it throws, and then something of the directory may be left. -/
inductive RmResult where
  | removed
  | failed (message : String) (left : Option FsNode)

/-- The loop of `copyDirectory` over the entries of the source: the entries made
at the destination, and the message of the error when one is thrown. A file
is copied; a name `copyFileSync` fails on stops the copy; a directory is made
and filled in turn, and a directory that cannot be listed is made and stops
the copy. The messages leave the paths out. -/
def copyEntries : FsEntries → FsEntries × Option String
  | .nil => (.nil, none)
  | .cons name (.file size) rest =>
    ((FsEntries.cons name (.file size) (copyEntries rest).1), (copyEntries rest).2)
  | .cons _ .dangling _ => (.nil, some "ENOENT: no such file or directory, copyfile")
  | .cons name .unreadable _ =>
    (.cons name (.dir .nil) .nil, some "EACCES: permission denied, scandir")
  | .cons name (.dir entries) rest =>
    match (copyEntries entries).2 with
    | some message => (.cons name (.dir (copyEntries entries).1) .nil, some message)
    | none => (.cons name (.dir (copyEntries entries).1) (copyEntries rest).1, (copyEntries rest).2)

/-- The method `copyDirectory` to a destination that does not exist: what is at
the destination afterwards, and the message of the error when one is thrown.
The destination is made first, and `readdirSync` throws on a source that is
not a directory that can be listed. -/
def copyDirectory (source : FsNode) : FsNode × Option String :=
  match source with
  | .dir entries => (.dir (copyEntries entries).1, (copyEntries entries).2)
  | _ => (.dir .nil, some "ENOTDIR: not a directory, scandir")

/-- The method `loadEnabledExtensions`: every string of the array in
`.enabled.json` that has a record is added to the set and its record is
enabled; a content that is not an array makes `forEach` throw, which is
caught. -/
def loadEnabledExtensions (manager : Manager) : Manager :=
  match manager.enabledFile with
  | some (.arr items) =>
    items.foldl
      (fun (m : Manager) item =>
        match item with
        | .str id =>
          match mapGet m.extensions id with
          | some extension =>
            { m with
              enabledExtensions := setAdd m.enabledExtensions id
              extensions := mapSet m.extensions id { extension with enabled := true } }
          | none => m
        | _ => m)
      manager
  | _ => manager

/-- The method `loadInstalledExtensions` on an empty map: `found` lists, in the
order of `readdirSync`, the directories of `extensionsDir` whose
`manifest.json` exists and parses, each with its manifest. -/
def loadInstalledExtensions (manager : Manager) (found : List (String × JsVal)) : Manager :=
  loadEnabledExtensions
    (found.foldl
      (fun (m : Manager) entry =>
        { m with
          extensions :=
            mapSet m.extensions entry.1
              { id := entry.1
                path := entry.1
                manifest := entry.2
                enabled := false
                apis := []
                installDate := none
                source := none
                webStoreUrl := none
                metadata := none } })
      manager)

/-- The state after `new ExtensionManager()`, from what is on the disk. -/
def freshManager (installed : List (String × FsNode)) (found : List (String × JsVal))
    (enabledFile : Option JsVal) (tempDir : String) : Manager :=
  loadInstalledExtensions
    { extensions := []
      enabledExtensions := []
      installed := installed
      enabledFile := enabledFile
      security := emptyBroker
      tempDir := tempDir }
    found

/-- The method `saveEnabledExtensions`; a write that fails is caught. -/
def saveEnabledExtensions (manager : Manager) (writeFails : Bool) : Manager :=
  if writeFails then manager
  else { manager with enabledFile := some (.arr (manager.enabledExtensions.map .str)) }

/-- The end of `enableExtension`, `disableExtension` and `uninstallExtension`:
the message that is logged reads `extension.manifest.name`, which throws on a
manifest that is `null`, and the `catch` block then returns the failure. -/
def logName (extension : Extension) : OpResult :=
  match extension.manifest.getProp "name" with
  | .ok _ => .success none
  | .error message => .failure message

/-- The method `enableExtension`. -/
def enableExtension (manager : Manager) (extensionId : String) (writeFails : Bool) :
    OpResult × Manager :=
  match mapGet manager.extensions extensionId with
  | none => (.failure "Extension not found", manager)
  | some extension =>
    let changed : Manager :=
      { manager with
        extensions := mapSet manager.extensions extensionId { extension with enabled := true }
        enabledExtensions := setAdd manager.enabledExtensions extensionId }
    (logName extension, saveEnabledExtensions changed writeFails)

/-- The method `disableExtension`. -/
def disableExtension (manager : Manager) (extensionId : String) (writeFails : Bool) :
    OpResult × Manager :=
  match mapGet manager.extensions extensionId with
  | none => (.failure "Extension not found", manager)
  | some extension =>
    let changed : Manager :=
      { manager with
        extensions := mapSet manager.extensions extensionId { extension with enabled := false }
        enabledExtensions := setDelete manager.enabledExtensions extensionId }
    (logName extension, saveEnabledExtensions changed writeFails)

/-- The directory of `extensionsDir` after `rmSync` on one of its names. -/
def afterRm (installed : List (String × FsNode)) (name : String) (rm : RmResult) :
    List (String × FsNode) :=
  match rm with
  | .removed => mapDelete installed name
  | .failed _ (some left) => mapSet installed name left
  | .failed _ none => mapDelete installed name

/-- The method `uninstallExtension`, with what `rmSync` does. -/
def uninstallExtension (manager : Manager) (extensionId : String) (writeFails : Bool)
    (rm : RmResult) : OpResult × Manager :=
  match mapGet manager.extensions extensionId with
  | none => (.failure "Extension not found", manager)
  | some extension =>
    let disabled : Manager :=
      if extension.enabled then (disableExtension manager extensionId writeFails).2
      else manager
    let removed : Manager :=
      { disabled with installed := afterRm disabled.installed extension.path rm }
    match rm with
    | .failed message _ => (.failure message, removed)
    | .removed =>
      (logName extension,
        { removed with extensions := mapDelete removed.extensions extensionId })

/-- The method `ExtensionManager.validateManifest`: the error it throws when the
result of the validation is not valid. -/
def checkManifest (manifest : JsVal) (extensionPath : FsNode) : Except String Unit :=
  if (validateManifest manifest extensionPath).valid then .ok ()
  else
    .error ("Manifest validation failed: "
      ++ joinStrings ", " (validateManifest manifest extensionPath).errors)

/-- The method `installExtension`: `source` is what the source path holds,
`manifestFile` what reading and parsing its `manifest.json` gives (`none`
when the file is missing, the message of the error when it does not parse),
`extensionId` what `generateExtensionId` returns and `installDate` the date. -/
def installExtension (manager : Manager) (source : FsNode)
    (manifestFile : Option (Except String JsVal)) (extensionId installDate : String) :
    OpResult × Manager :=
  match manifestFile with
  | none => (.failure "Extension manifest.json not found", manager)
  | some (.error message) => (.failure message, manager)
  | some (.ok manifest) =>
    match checkManifest manifest source with
    | .error message => (.failure message, manager)
    | .ok _ =>
      if (mapGet manager.installed extensionId).isSome then
        (.failure "Extension already installed", manager)
      else
        let copied : Manager :=
          { manager with
            installed := mapSet manager.installed extensionId (copyDirectory source).1 }
        match (copyDirectory source).2 with
        | some message => (.failure message, copied)
        | none =>
          (.success (some extensionId),
            { copied with
              extensions :=
                mapSet copied.extensions extensionId
                  { id := extensionId
                    path := extensionId
                    manifest := manifest
                    enabled := false
                    apis := []
                    installDate := some installDate
                    source := none
                    webStoreUrl := none
                    metadata := none } })

/-- The method `ExtensionManager.installFromWebStore`: `fetched` and
`downloaded` are what the two requests of the catalog client settle to,
`parsed` what `parseCrxFile` returns (the manifest, or the error),
`extracted` what the extraction directory holds, `rm` what `rmSync` does on
the final path when it exists, and `installDate` the date. The temporary
files are outside of the state. -/
def installFromWebStore (manager : Manager) (webStoreUrl : String)
    (fetched : Except String HttpResponse) (downloaded : Except String Unit)
    (parsed : Except String JsVal) (extracted : FsNode) (rm : RmResult)
    (installDate : String) : OpResult × Manager :=
  if !isValidWebStoreUrl webStoreUrl then
    (.failure "Invalid Chrome Web Store URL", manager)
  else
    match webStoreInstall webStoreUrl manager.tempDir fetched downloaded with
    | .failure error _ => (.failure error, manager)
    | .success extensionId metadata _ _ =>
      match parsed with
      | .error message => (.failure message, manager)
      | .ok manifest =>
        match checkManifest manifest extracted with
        | .error message => (.failure message, manager)
        | .ok _ =>
          let cleared : Except String Manager :=
            if (mapGet manager.installed extensionId).isSome then
              match rm with
              | .removed =>
                .ok { manager with installed := mapDelete manager.installed extensionId }
              | .failed message _ => .error message
            else .ok manager
          match cleared with
          | .error message =>
            (.failure message,
              { manager with installed := afterRm manager.installed extensionId rm })
          | .ok ready =>
            let copied : Manager :=
              { ready with
                installed := mapSet ready.installed extensionId (copyDirectory extracted).1 }
            match (copyDirectory extracted).2 with
            | some message => (.failure message, copied)
            | none =>
              (.success (some extensionId),
                { copied with
                  extensions :=
                    mapSet copied.extensions extensionId
                      { id := extensionId
                        path := extensionId
                        manifest := manifest
                        enabled := false
                        apis := []
                        installDate := some installDate
                        source := some "chrome-web-store"
                        webStoreUrl := some webStoreUrl
                        metadata := some metadata } })

/-- The method `getEnabledExtensions`. -/
def getEnabledExtensions (manager : Manager) : List Extension :=
  (manager.enabledExtensions.filterMap (mapGet manager.extensions)).filter (·.enabled)

/-- The enabled set holds exactly the ids of the records that are enabled. -/
def enabledConsistent (manager : Manager) : Prop :=
  ∀ id, id ∈ manager.enabledExtensions
    ↔ ∃ extension, mapGet manager.extensions id = some extension ∧ extension.enabled = true

/-! # Theorems -/

/-! ## Container header -/

theorem readUInt32LE_ok (buffer : Buffer) (offset : Nat) (h : offset + 4 ≤ buffer.length) :
    readUInt32LE buffer offset = .ok (le32At buffer offset) := by
  simp [readUInt32LE, h]

theorem parseCrx3Header_eq (buffer : Buffer) (hlen : 12 ≤ buffer.length) :
    parseCrx3Header buffer = .ok
      (if 12 + le32At buffer 8 < buffer.length then
        .crx3 (le32At buffer 8) (12 + le32At buffer 8) (bufSlice buffer 12 (12 + le32At buffer 8))
      else .invalid "Invalid CRX3 header length") := by
  have h8 := readUInt32LE_ok buffer 8 (by omega)
  unfold parseCrx3Header
  rw [h8]
  by_cases hz : 12 + le32At buffer 8 < buffer.length
  · have : ¬ (12 + le32At buffer 8 ≥ buffer.length) := by omega
    simp [tryCatch, bind, Except.bind, pure, Except.pure, hz, this]
  · have : 12 + le32At buffer 8 ≥ buffer.length := by omega
    simp [tryCatch, bind, Except.bind, pure, Except.pure, hz, this]

theorem parseCrx2Header_eq (buffer : Buffer) (hlen : 16 ≤ buffer.length) :
    parseCrx2Header buffer = .ok
      (if 16 + le32At buffer 8 + le32At buffer 12 < buffer.length then
        .crx2 (le32At buffer 8) (le32At buffer 12) (16 + le32At buffer 8 + le32At buffer 12)
          (bufSlice buffer 16 (16 + le32At buffer 8))
          (bufSlice buffer (16 + le32At buffer 8) (16 + le32At buffer 8 + le32At buffer 12))
      else .invalid "Invalid CRX2 header lengths") := by
  have h8 := readUInt32LE_ok buffer 8 (by omega)
  have h12 := readUInt32LE_ok buffer 12 (by omega)
  unfold parseCrx2Header
  rw [h8, h12]
  by_cases hz : 16 + le32At buffer 8 + le32At buffer 12 < buffer.length
  · have : ¬ (16 + le32At buffer 8 + le32At buffer 12 ≥ buffer.length) := by omega
    simp [tryCatch, bind, Except.bind, pure, Except.pure, hz, this]
  · have : 16 + le32At buffer 8 + le32At buffer 12 ≥ buffer.length := by omega
    simp [tryCatch, bind, Except.bind, pure, Except.pure, hz, this]

/-- A `try` whose `catch` block returns normally returns normally. -/
theorem tryCatch_returns {α : Type} (body : Except String α) (handler : String → α) :
    ∃ a, tryCatch body (fun message => .ok (handler message)) = .ok a := by
  cases body with
  | ok a => exact ⟨a, rfl⟩
  | error message => exact ⟨handler message, rfl⟩

theorem parseCrx3Header_returns (buffer : Buffer) : ∃ r, parseCrx3Header buffer = .ok r :=
  tryCatch_returns _ _

theorem parseCrx2Header_returns (buffer : Buffer) : ∃ r, parseCrx2Header buffer = .ok r :=
  tryCatch_returns _ _

theorem parseCrxHeader_returns (buffer : Buffer) : ∃ r, parseCrxHeader buffer = .ok r :=
  tryCatch_returns _ _

/-- After the magic tag, `parseCrxHeader` is decided by the version field. -/
theorem parseCrxHeader_of_magic (buffer : Buffer) (hlen : 8 ≤ buffer.length)
    (hmagic : toAsciiString (bufSlice buffer 0 4) = CRX_MAGIC) :
    parseCrxHeader buffer =
      if le32At buffer 4 = 3 then parseCrx3Header buffer
      else if le32At buffer 4 = 2 then parseCrx2Header buffer
      else .ok (.invalid ("Unsupported CRX version: " ++ toString (le32At buffer 4))) := by
  have h4 := readUInt32LE_ok buffer 4 (by omega)
  unfold parseCrxHeader
  rw [h4]
  simp only [hmagic, ne_eq, not_true_eq_false, ↓reduceIte, bind, Except.bind, pure, Except.pure,
    CRX3_VERSION, CRX2_VERSION]
  obtain ⟨r3, h3⟩ := parseCrx3Header_returns buffer
  obtain ⟨r2, h2⟩ := parseCrx2Header_returns buffer
  rw [h3, h2]
  split
  · rfl
  · split <;> rfl

/-- With a first-four-bytes text other than the tag, the failure object for the
magic number is returned. -/
theorem parseCrxHeader_of_bad_magic (buffer : Buffer)
    (hmagic : toAsciiString (bufSlice buffer 0 4) ≠ CRX_MAGIC) :
    parseCrxHeader buffer = .ok (.invalid "Invalid CRX magic number") := by
  unfold parseCrxHeader
  simp [hmagic, tryCatch, pure, Except.pure]

theorem magic_of_take4 (buffer : Buffer) (h : buffer.take 4 = magicBytes) :
    toAsciiString (bufSlice buffer 0 4) = CRX_MAGIC := by
  have : bufSlice buffer 0 4 = buffer.take 4 := by simp [bufSlice]
  rw [this, h]
  rfl

theorem take4_of_take8 (buffer : Buffer) (tail : Buffer)
    (h : buffer.take 8 = magicBytes ++ tail) : buffer.take 4 = magicBytes := by
  have h4 : buffer.take 4 = (buffer.take 8).take 4 := by
    rw [List.take_take]; rfl
  rw [h4, h]
  rfl

theorem le32At_eq_of_take (b1 b2 : Buffer) (n offset : Nat) (hoff : offset + 4 ≤ n)
    (h : b1.take n = b2.take n) : le32At b1 offset = le32At b2 offset := by
  have key : ∀ i, i < n → b1.getD i 0 = b2.getD i 0 := by
    intro i hi
    have h1 : (b1.take n)[i]? = b1[i]? := List.getElem?_take_of_lt hi
    have h2 : (b2.take n)[i]? = b2[i]? := List.getElem?_take_of_lt hi
    simp only [List.getD_eq_getElem?_getD, ← h1, ← h2, h]
  unfold le32At
  rw [key offset (by omega), key (offset + 1) (by omega), key (offset + 2) (by omega),
    key (offset + 3) (by omega)]

/-- C4. A buffer of at least 12 bytes that starts with `Cr24` and the version 3:
the header is valid exactly when `12 + headerLength < buffer.length`, and then
`zipOffset = 12 + headerLength` and `headerData` is the `headerLength` bytes
that follow byte 12; otherwise the failure object is returned. -/
theorem parseCrxHeader_crx3 (buffer : Buffer) (hlen : 12 ≤ buffer.length)
    (hstart : buffer.take 8 = magicBytes ++ [3, 0, 0, 0]) :
    ∃ r, parseCrxHeader buffer = .ok r
      ∧ (r.isValid = true ↔ 12 + le32At buffer 8 < buffer.length)
      ∧ (12 + le32At buffer 8 < buffer.length →
          r = .crx3 (le32At buffer 8) (12 + le32At buffer 8)
                ((buffer.drop 12).take (le32At buffer 8))
          ∧ ((buffer.drop 12).take (le32At buffer 8)).length = le32At buffer 8)
      ∧ (buffer.length ≤ 12 + le32At buffer 8 → r.isValid = false) := by
  have hmagic := magic_of_take4 buffer (take4_of_take8 buffer _ hstart)
  have hver : le32At buffer 4 = 3 := by
    rw [le32At_eq_of_take buffer (buffer.take 8) 8 4 (by omega) (by simp), hstart]
    rfl
  have hparse := parseCrxHeader_of_magic buffer (by omega) hmagic
  rw [if_pos hver, parseCrx3Header_eq buffer hlen] at hparse
  refine ⟨_, hparse, ?_, ?_, ?_⟩
  · by_cases hz : 12 + le32At buffer 8 < buffer.length <;> simp [hz, CrxHeader.isValid]
  · intro hz
    simp only [hz, ↓reduceIte, bufSlice, Nat.add_sub_cancel_left, List.length_take,
      List.length_drop, true_and]
    omega
  · intro hz
    have : ¬ 12 + le32At buffer 8 < buffer.length := by omega
    simp [this, CrxHeader.isValid]

/-- A witness for C4: a 14-byte container with a one-byte header. -/
theorem parseCrxHeader_crx3_witness :
    ∃ r, parseCrxHeader (magicBytes ++ [3, 0, 0, 0, 1, 0, 0, 0, 0xAA, 0x50]) = .ok r
      ∧ r = .crx3 1 13 [0xAA] := by
  obtain ⟨r, hr, _, h, _⟩ :=
    parseCrxHeader_crx3 (magicBytes ++ [3, 0, 0, 0, 1, 0, 0, 0, 0xAA, 0x50])
      (by decide) (by decide)
  exact ⟨r, hr, (h (by decide)).1⟩


/-- C5. A buffer of at least 16 bytes that starts with `Cr24` and the version 2:
the header is valid exactly when `16 + keyLen + sigLen < buffer.length`, the
sum being taken without wrap-around, and then `zipOffset` is that sum,
`publicKey` is the `keyLen` bytes that follow byte 16 and `signature` the
`sigLen` bytes after them; otherwise the failure object is returned. -/
theorem parseCrxHeader_crx2 (buffer : Buffer) (hlen : 16 ≤ buffer.length)
    (hstart : buffer.take 8 = magicBytes ++ [2, 0, 0, 0]) :
    ∃ r, parseCrxHeader buffer = .ok r
      ∧ (r.isValid = true ↔ 16 + le32At buffer 8 + le32At buffer 12 < buffer.length)
      ∧ (16 + le32At buffer 8 + le32At buffer 12 < buffer.length →
          r = .crx2 (le32At buffer 8) (le32At buffer 12)
                (16 + le32At buffer 8 + le32At buffer 12)
                ((buffer.drop 16).take (le32At buffer 8))
                ((buffer.drop (16 + le32At buffer 8)).take (le32At buffer 12))
          ∧ ((buffer.drop 16).take (le32At buffer 8)).length = le32At buffer 8
          ∧ ((buffer.drop (16 + le32At buffer 8)).take (le32At buffer 12)).length
              = le32At buffer 12)
      ∧ (buffer.length ≤ 16 + le32At buffer 8 + le32At buffer 12 → r.isValid = false) := by
  have hmagic := magic_of_take4 buffer (take4_of_take8 buffer _ hstart)
  have hver : le32At buffer 4 = 2 := by
    rw [le32At_eq_of_take buffer (buffer.take 8) 8 4 (by omega) (by simp), hstart]
    rfl
  have hparse := parseCrxHeader_of_magic buffer (by omega) hmagic
  rw [if_neg (by omega), if_pos hver, parseCrx2Header_eq buffer hlen] at hparse
  refine ⟨_, hparse, ?_, ?_, ?_⟩
  · by_cases hz : 16 + le32At buffer 8 + le32At buffer 12 < buffer.length <;>
      simp [hz, CrxHeader.isValid]
  · intro hz
    have e1 : 16 + le32At buffer 8 - 16 = le32At buffer 8 := by omega
    have e2 : 16 + le32At buffer 8 + le32At buffer 12 - (16 + le32At buffer 8)
        = le32At buffer 12 := by omega
    simp only [hz, ↓reduceIte, bufSlice, e1, e2, List.length_take, List.length_drop, true_and]
    omega
  · intro hz
    have : ¬ 16 + le32At buffer 8 + le32At buffer 12 < buffer.length := by omega
    simp [this, CrxHeader.isValid]

/-- A witness for C5: a 20-byte container with a one-byte key and a two-byte
signature. -/
theorem parseCrxHeader_crx2_witness :
    ∃ r, parseCrxHeader
        (magicBytes ++ [2, 0, 0, 0, 1, 0, 0, 0, 2, 0, 0, 0, 0xAA, 0xBB, 0xCC, 0x50]) = .ok r
      ∧ r = .crx2 1 2 19 [0xAA] [0xBB, 0xCC] := by
  obtain ⟨r, hr, _, h, _⟩ :=
    parseCrxHeader_crx2
      (magicBytes ++ [2, 0, 0, 0, 1, 0, 0, 0, 2, 0, 0, 0, 0xAA, 0xBB, 0xCC, 0x50])
      (by decide) (by decide)
  exact ⟨r, hr, (h (by decide)).1⟩

/-- C6. A buffer of at least 8 bytes that starts with `Cr24` and whose version
field is neither 2 nor 3: the failure object is returned, its error giving
the version read, whatever follows the version field. -/
theorem parseCrxHeader_unsupported_version (buffer : Buffer) (hlen : 8 ≤ buffer.length)
    (hmagic : buffer.take 4 = magicBytes)
    (h2 : le32At buffer 4 ≠ 2) (h3 : le32At buffer 4 ≠ 3) :
    parseCrxHeader buffer
      = .ok (.invalid ("Unsupported CRX version: " ++ toString (le32At buffer 4))) := by
  rw [parseCrxHeader_of_magic buffer hlen (magic_of_take4 buffer hmagic), if_neg h3, if_neg h2]

/-- A witness for C6: the version 4, with nothing after the version field. -/
theorem parseCrxHeader_unsupported_version_witness :
    parseCrxHeader (magicBytes ++ [4, 0, 0, 0])
      = .ok (.invalid "Unsupported CRX version: 4") :=
  parseCrxHeader_unsupported_version (magicBytes ++ [4, 0, 0, 0]) (by decide) (by decide)
    (by decide) (by decide)

theorem parseCrx3Header_valid (buffer : Buffer) (r : CrxHeader)
    (h : parseCrx3Header buffer = .ok r) (hv : r.isValid = true) :
    ∃ headerLength, 12 + headerLength < buffer.length
      ∧ r = .crx3 headerLength (12 + headerLength) ((buffer.drop 12).take headerLength) := by
  unfold parseCrx3Header at h
  cases h8 : readUInt32LE buffer 8 with
  | error message =>
    rw [h8] at h
    simp [tryCatch, bind, Except.bind] at h
    subst h
    simp [CrxHeader.isValid] at hv
  | ok headerLength =>
    rw [h8] at h
    by_cases hz : 12 + headerLength ≥ buffer.length
    · simp [tryCatch, bind, Except.bind, pure, Except.pure, hz] at h
      subst h
      simp [CrxHeader.isValid] at hv
    · simp [tryCatch, bind, Except.bind, pure, Except.pure, hz, bufSlice] at h
      exact ⟨headerLength, by omega, h.symm⟩

theorem parseCrx2Header_valid (buffer : Buffer) (r : CrxHeader)
    (h : parseCrx2Header buffer = .ok r) (hv : r.isValid = true) :
    ∃ keyLen sigLen, 16 + keyLen + sigLen < buffer.length
      ∧ r = .crx2 keyLen sigLen (16 + keyLen + sigLen) ((buffer.drop 16).take keyLen)
          ((buffer.drop (16 + keyLen)).take sigLen) := by
  unfold parseCrx2Header at h
  cases h8 : readUInt32LE buffer 8 with
  | error message =>
    rw [h8] at h
    simp [tryCatch, bind, Except.bind] at h
    subst h
    simp [CrxHeader.isValid] at hv
  | ok keyLen =>
    cases h12 : readUInt32LE buffer 12 with
    | error message =>
      rw [h8, h12] at h
      simp [tryCatch, bind, Except.bind] at h
      subst h
      simp [CrxHeader.isValid] at hv
    | ok sigLen =>
      rw [h8, h12] at h
      by_cases hz : 16 + keyLen + sigLen ≥ buffer.length
      · simp [tryCatch, bind, Except.bind, pure, Except.pure, hz] at h
        subst h
        simp [CrxHeader.isValid] at hv
      · have e1 : 16 + keyLen + sigLen - (16 + keyLen) = sigLen := by omega
        simp [tryCatch, bind, Except.bind, pure, Except.pure, hz, bufSlice, e1] at h
        exact ⟨keyLen, sigLen, by omega, h.symm⟩

theorem parseCrxHeader_valid (buffer : Buffer) (r : CrxHeader)
    (h : parseCrxHeader buffer = .ok r) (hv : r.isValid = true) :
    parseCrx3Header buffer = .ok r ∨ parseCrx2Header buffer = .ok r := by
  by_cases hmagic : toAsciiString (bufSlice buffer 0 4) = CRX_MAGIC
  · unfold parseCrxHeader at h
    cases h4 : readUInt32LE buffer 4 with
    | error message =>
      rw [h4] at h
      simp [tryCatch, bind, Except.bind, pure, Except.pure, hmagic] at h
      subst h
      simp [CrxHeader.isValid] at hv
    | ok version =>
      rw [h4] at h
      obtain ⟨r3, h3⟩ := parseCrx3Header_returns buffer
      obtain ⟨r2, h2⟩ := parseCrx2Header_returns buffer
      simp only [hmagic, ne_eq, not_true_eq_false, ↓reduceIte, bind, Except.bind, pure,
        Except.pure, h3, h2] at h
      by_cases hv3 : version = CRX3_VERSION
      · simp [hv3, tryCatch] at h
        left; rw [h3, h]
      · by_cases hv2 : version = CRX2_VERSION
        · subst hv2
          simp [CRX3_VERSION, CRX2_VERSION, tryCatch] at h
          right; rw [h2, h]
        · simp [hv3, hv2, tryCatch] at h
          subst h
          simp [CrxHeader.isValid] at hv
  · rw [parseCrxHeader_of_bad_magic buffer hmagic] at h
    simp at h
    subst h
    simp [CrxHeader.isValid] at hv

/-- C7. For every buffer `parseCrxHeader` returns an object and does not throw;
when the object is valid, `12 ≤ zipOffset < buffer.length`, the slices taken
for `headerData`, `publicKey` and `signature` lie inside the buffer, and the
payload `parseCrxFile` hands on is `buffer.slice(zipOffset)`, which is not
empty and has `buffer.length - zipOffset` bytes. -/
theorem parseCrxHeader_safe (buffer : Buffer) :
    ∃ r, parseCrxHeader buffer = .ok r
      ∧ (r.isValid = true →
          ∃ z, r.zipOffset = some z ∧ 12 ≤ z ∧ z < buffer.length
            ∧ r.slicesInside buffer
            ∧ zipData buffer r = .ok (buffer.drop z)
            ∧ buffer.drop z ≠ []
            ∧ (buffer.drop z).length = buffer.length - z) := by
  obtain ⟨r, hr⟩ := parseCrxHeader_returns buffer
  refine ⟨r, hr, fun hv => ?_⟩
  have hne : ∀ z, z < buffer.length → buffer.drop z ≠ [] := by
    intro z hz hnil
    have := congrArg List.length hnil
    simp at this
    omega
  rcases parseCrxHeader_valid buffer r hr hv with h3 | h2
  · obtain ⟨hl, hz, rfl⟩ := parseCrx3Header_valid buffer r h3 hv
    refine ⟨12 + hl, rfl, by omega, hz, ?_, ?_, hne _ hz, by simp⟩
    · refine ⟨rfl, by omega, rfl, ?_⟩
      simp only [List.length_take, List.length_drop]
      omega
    · simp [zipData, CrxHeader.isValid, CrxHeader.zipOffset, bufSliceFrom]
  · obtain ⟨kl, sl, hz, rfl⟩ := parseCrx2Header_valid buffer r h2 hv
    refine ⟨16 + kl + sl, rfl, by omega, hz, ?_, ?_, hne _ hz, by simp⟩
    · refine ⟨rfl, by omega, rfl, ?_, rfl, ?_⟩
      · simp only [List.length_take, List.length_drop]
        omega
      · simp only [List.length_take, List.length_drop]
        omega
    · simp [zipData, CrxHeader.isValid, CrxHeader.zipOffset, bufSliceFrom]

theorem readUInt32LE_error_of_short (b1 b2 : Buffer) (offset : Nat)
    (hlen : b1.length = b2.length) (hshort : b1.length < offset + 4) :
    readUInt32LE b1 offset = readUInt32LE b2 offset
      ∧ ∃ message, readUInt32LE b1 offset = .error message := by
  have h1 : ¬ offset + 4 ≤ b1.length := by omega
  have h2 : ¬ offset + 4 ≤ b2.length := by omega
  unfold readUInt32LE
  rw [if_neg h1, if_neg h2, hlen]
  refine ⟨rfl, ?_⟩
  split
  · exact ⟨_, rfl⟩
  · exact ⟨_, rfl⟩

theorem take_eq_of_agree (b1 b2 : Buffer) (n : Nat)
    (h : ∀ i, i < n → b1[i]? = b2[i]?) : b1.take n = b2.take n := by
  apply List.ext_getElem?
  intro i
  by_cases hi : i < n
  · rw [List.getElem?_take_of_lt hi, List.getElem?_take_of_lt hi, h i hi]
  · have hi2 : n ≤ i := by omega
    rw [List.getElem?_eq_none (by simp; omega), List.getElem?_eq_none (by simp; omega)]

theorem drop_eq_of_agree (b1 b2 : Buffer) (n : Nat)
    (h : ∀ i, n ≤ i → b1[i]? = b2[i]?) : b1.drop n = b2.drop n := by
  apply List.ext_getElem?
  intro i
  rw [List.getElem?_drop, List.getElem?_drop]
  exact h _ (by omega)

/-- C8. Two version 2 containers of the same length that agree on every byte
outside the key and signature region `[16, 16 + keyLen + sigLen)` get the
same `isValid` and the same `zipOffset`, and the same payload is handed to
the extractor (or none is, for both): the key and the signature bytes play no
part in the acceptance of a container. -/
theorem parseCrxHeader_ignores_key_and_signature (b1 b2 : Buffer)
    (hlen : b1.length = b2.length)
    (hstart : b1.take 8 = magicBytes ++ [2, 0, 0, 0])
    (hagree : ∀ i, (i < 16 ∨ 16 + le32At b1 8 + le32At b1 12 ≤ i) → b1[i]? = b2[i]?) :
    ∃ r1 r2, parseCrxHeader b1 = .ok r1 ∧ parseCrxHeader b2 = .ok r2
      ∧ r1.isValid = r2.isValid ∧ r1.zipOffset = r2.zipOffset
      ∧ zipData b1 r1 = zipData b2 r2 := by
  have h16 : b1.take 16 = b2.take 16 :=
    take_eq_of_agree b1 b2 16 (fun i hi => hagree i (Or.inl hi))
  have h8 : b2.take 8 = b1.take 8 := by
    have e1 : b1.take 8 = (b1.take 16).take 8 := by rw [List.take_take]; rfl
    have e2 : b2.take 8 = (b2.take 16).take 8 := by rw [List.take_take]; rfl
    rw [e1, e2, h16]
  have hstart2 : b2.take 8 = magicBytes ++ [2, 0, 0, 0] := h8.trans hstart
  have hk : le32At b1 8 = le32At b2 8 := le32At_eq_of_take b1 b2 16 8 (by omega) h16
  have hs : le32At b1 12 = le32At b2 12 := le32At_eq_of_take b1 b2 16 12 (by omega) h16
  have hlen8 : 8 ≤ b1.length := by
    have := congrArg List.length hstart
    simp [magicBytes] at this
    omega
  have hver : ∀ b : Buffer, b.take 8 = magicBytes ++ [2, 0, 0, 0] → le32At b 4 = 2 := by
    intro b hb
    rw [le32At_eq_of_take b (b.take 8) 8 4 (by omega) (by simp), hb]
    rfl
  have hp1 := parseCrxHeader_of_magic b1 hlen8 (magic_of_take4 b1 (take4_of_take8 b1 _ hstart))
  have hp2 := parseCrxHeader_of_magic b2 (by omega)
    (magic_of_take4 b2 (take4_of_take8 b2 _ hstart2))
  rw [hver b1 hstart] at hp1
  rw [hver b2 hstart2] at hp2
  rw [if_neg (by decide), if_pos rfl] at hp1 hp2
  by_cases hlong : 16 ≤ b1.length
  · rw [parseCrx2Header_eq b1 hlong] at hp1
    rw [parseCrx2Header_eq b2 (by omega), ← hk, ← hs, ← hlen] at hp2
    refine ⟨_, _, hp1, hp2, ?_⟩
    by_cases hz : 16 + le32At b1 8 + le32At b1 12 < b1.length
    · have hdrop := drop_eq_of_agree b1 b2 (16 + le32At b1 8 + le32At b1 12)
        (fun i hi => hagree i (Or.inr hi))
      simp [hz, CrxHeader.isValid, CrxHeader.zipOffset, zipData, bufSliceFrom, hdrop]
    · simp [hz, CrxHeader.isValid, CrxHeader.zipOffset, zipData]
  · have h12 := readUInt32LE_error_of_short b1 b2 12 hlen (by omega)
    obtain ⟨h12eq, message, h12err⟩ := h12
    have h8eq : readUInt32LE b1 8 = readUInt32LE b2 8 := by
      by_cases h12len : 12 ≤ b1.length
      · rw [readUInt32LE_ok b1 8 (by omega), readUInt32LE_ok b2 8 (by omega), hk]
      · exact (readUInt32LE_error_of_short b1 b2 8 hlen (by omega)).1
    have hsame : parseCrx2Header b1 = parseCrx2Header b2 := by
      unfold parseCrx2Header
      rw [← h8eq, ← h12eq, h12err]
      cases readUInt32LE b1 8 <;> rfl
    obtain ⟨r, hr⟩ := parseCrx2Header_returns b1
    rw [hr] at hp1
    rw [← hsame, hr] at hp2
    exact ⟨r, r, hp1, hp2, rfl, rfl, by
      unfold zipData
      have hinv : r.isValid = false := by
        cases hv : r.isValid
        · rfl
        · obtain ⟨kl, sl, hz, -⟩ := parseCrx2Header_valid b1 r hr hv
          omega
      simp [hinv]⟩

/-- A witness for C8: two containers that differ in the key and the signature
bytes only. -/
theorem parseCrxHeader_ignores_key_and_signature_witness :
    ∃ r1 r2,
      parseCrxHeader
          (magicBytes ++ [2, 0, 0, 0, 1, 0, 0, 0, 2, 0, 0, 0, 0xAA, 0xBB, 0xCC, 0x50]) = .ok r1
      ∧ parseCrxHeader
          (magicBytes ++ [2, 0, 0, 0, 1, 0, 0, 0, 2, 0, 0, 0, 0x11, 0x22, 0x33, 0x50]) = .ok r2
      ∧ r1.isValid = r2.isValid ∧ r1.zipOffset = r2.zipOffset
      ∧ zipData (magicBytes ++ [2, 0, 0, 0, 1, 0, 0, 0, 2, 0, 0, 0, 0xAA, 0xBB, 0xCC, 0x50]) r1
          = zipData
              (magicBytes ++ [2, 0, 0, 0, 1, 0, 0, 0, 2, 0, 0, 0, 0x11, 0x22, 0x33, 0x50]) r2 :=
  parseCrxHeader_ignores_key_and_signature
    (magicBytes ++ [2, 0, 0, 0, 1, 0, 0, 0, 2, 0, 0, 0, 0xAA, 0xBB, 0xCC, 0x50])
    (magicBytes ++ [2, 0, 0, 0, 1, 0, 0, 0, 2, 0, 0, 0, 0x11, 0x22, 0x33, 0x50])
    (by decide) (by decide)
    (by
      intro i hi
      have h19 : 16 + le32At
          (magicBytes ++ [2, 0, 0, 0, 1, 0, 0, 0, 2, 0, 0, 0, 0xAA, 0xBB, 0xCC, 0x50]) 8
          + le32At
          (magicBytes ++ [2, 0, 0, 0, 1, 0, 0, 0, 2, 0, 0, 0, 0xAA, 0xBB, 0xCC, 0x50]) 12
          = 19 := by decide
      rw [h19] at hi
      rcases hi with hi | hi
      · interval_cases i <;> rfl
      · obtain ⟨k, rfl⟩ := Nat.exists_eq_add_of_le hi
        cases k with
        | zero => rfl
        | succ k =>
          rw [List.getElem?_eq_none (by simp [magicBytes]; omega),
            List.getElem?_eq_none (by simp [magicBytes]; omega)])

/-- C3, at the failing input. The first byte is `0xC3`, not `0x43`, and the
container is accepted all the same: decoding as `ascii` clears the highest
bit, so that the text compared with the tag is `Cr24`. -/
theorem parseCrxHeader_high_bit_magic :
    ([0xC3, 0x72, 0x32, 0x34, 3, 0, 0, 0, 0, 0, 0, 0, 0x50] : Buffer).take 4 ≠ magicBytes
      ∧ toAsciiString (bufSlice [0xC3, 0x72, 0x32, 0x34, 3, 0, 0, 0, 0, 0, 0, 0, 0x50] 0 4)
          = "Cr24"
      ∧ parseCrxHeader [0xC3, 0x72, 0x32, 0x34, 3, 0, 0, 0, 0, 0, 0, 0, 0x50]
          = .ok (.crx3 0 12 []) :=
  ⟨by decide, by decide, rfl⟩

/-! ## Archive extraction -/

theorem splitSlash_ne_nil (l : List Char) : splitSlash l ≠ [] := by
  cases l with
  | nil => simp [splitSlash]
  | cons c cs =>
    unfold splitSlash
    by_cases hc : c = '/'
    · simp [hc]
    · simp only [hc, ↓reduceIte]
      split <;> simp

theorem splitSlash_cons (c : Char) (cs : List Char) :
    splitSlash (c :: cs)
      = if c = '/' then [] :: splitSlash cs
        else
          match splitSlash cs with
          | [] => [[c]]
          | piece :: pieces => (c :: piece) :: pieces := by
  rw [splitSlash]

theorem splitSlash_append (x y : List Char) :
    splitSlash (x ++ '/' :: y) = splitSlash x ++ splitSlash y := by
  induction x with
  | nil =>
    rw [List.nil_append, splitSlash_cons, if_pos rfl]
    rfl
  | cons c cs ih =>
    rw [List.cons_append, splitSlash_cons, splitSlash_cons c cs]
    by_cases hc : c = '/'
    · rw [if_pos hc, if_pos hc, ih]
      rfl
    · rw [if_neg hc, if_neg hc, ih]
      rcases hs : splitSlash cs with _ | ⟨piece, pieces⟩
      · exact absurd hs (splitSlash_ne_nil cs)
      · rfl

theorem splitSlash_no_slash (l : List Char) : ∀ piece ∈ splitSlash l, '/' ∉ piece := by
  induction l with
  | nil => simp [splitSlash]
  | cons c cs ih =>
    unfold splitSlash
    by_cases hc : c = '/'
    · simp only [hc, ↓reduceIte, List.mem_cons]
      rintro piece (h | h)
      · simp [h]
      · exact ih piece h
    · simp only [hc, ↓reduceIte]
      rcases hs : splitSlash cs with _ | ⟨piece, pieces⟩
      · exact absurd hs (splitSlash_ne_nil cs)
      · rw [hs] at ih
        simp only [List.mem_cons]
        rintro q (h | h)
        · rw [h]
          simp only [List.mem_cons, not_or]
          exact ⟨fun e => hc e.symm, ih piece (by simp)⟩
        · exact ih q (by simp [h])

theorem foldl_normalizeStep_plain (allow : Bool) (segments : List (List Char))
    (h : ['.', '.'] ∉ segments) :
    ∀ kept, segments.foldl (normalizeStep allow) kept
      = (segments.filter fun segment =>
          decide (¬ (segment = [] ∨ segment = ['.']))).reverse ++ kept := by
  induction segments with
  | nil => intro kept; simp
  | cons segment rest ih =>
    intro kept
    have hrest : ['.', '.'] ∉ rest := fun hm => h (List.mem_cons_of_mem _ hm)
    have hseg : segment ≠ ['.', '.'] := fun e => h (by simp [e])
    rw [List.foldl_cons, ih hrest]
    by_cases hdrop : segment = [] ∨ segment = ['.']
    · rw [List.filter_cons_of_neg (by rw [decide_eq_true_iff]; exact not_not.mpr hdrop)]
      unfold normalizeStep
      rw [if_pos hdrop]
    · rw [List.filter_cons_of_pos (by rw [decide_eq_true_iff]; exact hdrop)]
      unfold normalizeStep
      rw [if_neg hdrop, if_neg hseg]
      simp

theorem joinSlash_append (xs ys : List (List Char)) (hx : xs ≠ []) (hy : ys ≠ []) :
    joinSlash (xs ++ ys) = joinSlash xs ++ '/' :: joinSlash ys := by
  induction xs with
  | nil => exact absurd rfl hx
  | cons x rest ih =>
    cases rest with
    | nil =>
      cases ys with
      | nil => exact absurd rfl hy
      | cons y more => simp [joinSlash]
    | cons x2 more =>
      have e : joinSlash (x :: x2 :: more ++ ys) = x ++ '/' :: joinSlash (x2 :: more ++ ys) := by
        simp [joinSlash]
      rw [e, ih (by simp)]
      simp [joinSlash]

theorem normalizeChars_absolute (a : List Char) (hnorm : normalizeChars a = a)
    (habs : a.head? = some '/') (hend : a.getLast? ≠ some '/') :
    joinSlash ((splitSlash a).foldl (normalizeStep false) []).reverse ≠ []
      ∧ a = '/' :: joinSlash ((splitSlash a).foldl (normalizeStep false) []).reverse := by
  have ha : a ≠ [] := by
    intro e
    rw [e] at habs
    simp at habs
  unfold normalizeChars at hnorm
  simp only [ha, ↓reduceIte, habs, decide_True, Bool.not_true, hend, List.append_nil] at hnorm
  by_cases hres : joinSlash ((splitSlash a).foldl (normalizeStep false) []).reverse = []
  · rw [if_pos hres] at hnorm
    rw [← hnorm] at hend
    exact absurd rfl hend
  · rw [if_neg hres] at hnorm
    exact ⟨hres, by simpa using hnorm.symm⟩

theorem getLast?_append_cons (a : List Char) (c d : Char) (cs : List Char) :
    (a ++ c :: d :: cs).getLast? = (d :: cs).getLast? := by
  rw [List.getLast?_append, List.getLast?_cons_cons]
  rcases h : (d :: cs).getLast? with _ | x
  · simp at h
  · rfl

theorem normalizeChars_join (a b : List Char) (hnorm : normalizeChars a = a)
    (habs : a.head? = some '/') (hend : a.getLast? ≠ some '/') (hb : b ≠ [])
    (hdots : ['.', '.'] ∉ splitSlash b) :
    normalizeChars (a ++ '/' :: b)
      = a
        ++ (if (splitSlash b).filter (fun segment =>
              decide (¬ (segment = [] ∨ segment = ['.']))) = [] then []
            else '/' :: joinSlash ((splitSlash b).filter fun segment =>
              decide (¬ (segment = [] ∨ segment = ['.']))))
        ++ (if b.getLast? = some '/' then ['/'] else []) := by
  obtain ⟨hres, ha⟩ := normalizeChars_absolute a hnorm habs hend
  have hne : a ≠ [] := by
    intro e
    rw [e] at habs
    simp at habs
  obtain ⟨d, cs, rfl⟩ : ∃ d cs, b = d :: cs := by
    cases b with
    | nil => exact absurd rfl hb
    | cons d cs => exact ⟨d, cs, rfl⟩
  have hhead : (a ++ '/' :: d :: cs).head? = some '/' := by
    cases a with
    | nil => exact absurd rfl hne
    | cons x xs => simpa using habs
  have hjoined : a ++ '/' :: d :: cs ≠ [] := by simp
  unfold normalizeChars
  simp only [hjoined, ↓reduceIte, hhead, decide_True, Bool.not_true, getLast?_append_cons]
  rw [splitSlash_append, List.foldl_append, foldl_normalizeStep_plain false _ hdots]
  generalize hK : (splitSlash a).foldl (normalizeStep false) [] = K at hres ha
  generalize hN : (splitSlash (d :: cs)).filter
    (fun segment => decide (¬ (segment = [] ∨ segment = ['.']))) = N
  have hKne : K.reverse ≠ [] := by
    intro e
    rw [e] at hres
    exact hres rfl
  rw [List.reverse_append, List.reverse_reverse]
  by_cases hNe : N = []
  · subst hNe
    simp only [List.append_nil, hres, ↓reduceIte]
    have e : ['/'] ++ joinSlash K.reverse = a := by
      rw [ha]
      rfl
    rw [e]
  · rw [joinSlash_append _ _ hKne hNe]
    simp only [hNe, ↓reduceIte]
    have hnn : joinSlash K.reverse ++ '/' :: joinSlash N ≠ [] := by simp
    rw [if_neg hnn]
    conv_rhs => rw [ha]
    simp

theorem dropWhile_append_stop {p : Char → Bool} (l r : List Char) (c : Char)
    (hl : ∀ x ∈ l, p x = true) (hc : p c = false) :
    (l ++ c :: r).dropWhile p = c :: r := by
  induction l with
  | nil => simp [List.dropWhile, hc]
  | cons x xs ih =>
    have hx : p x = true := hl x (by simp)
    rw [List.cons_append, List.dropWhile_cons, if_pos hx]
    exact ih (fun y hy => hl y (by simp [hy]))

theorem pathDirname_append (parent name : List Char) (hparent : 2 ≤ parent.length)
    (hname : name ≠ []) (hslash : '/' ∉ name) :
    pathDirname (String.mk (parent ++ '/' :: name)) = String.mk parent := by
  obtain ⟨first, more, rfl⟩ : ∃ first more, parent = first :: more := by
    cases parent with
    | nil => simp at hparent
    | cons first more => exact ⟨first, more, rfl⟩
  have hrev : (more ++ '/' :: name).reverse = name.reverse ++ '/' :: more.reverse := by
    simp
  have hnot : ∀ x ∈ name.reverse, x ≠ '/' := by
    intro x hx e
    rw [e] at hx
    exact hslash (List.mem_reverse.mp hx)
  have h1 : ((more ++ '/' :: name).reverse.dropWhile (· = '/'))
      = name.reverse ++ '/' :: more.reverse := by
    rw [hrev]
    cases hr : name.reverse with
    | nil => exact absurd (List.reverse_eq_nil_iff.mp hr) hname
    | cons last before =>
      have hl : last ≠ '/' := hnot last (by rw [hr]; simp)
      rw [List.cons_append, List.dropWhile_cons, if_neg (by simpa using hl)]
  have h2 : ((name.reverse ++ '/' :: more.reverse).dropWhile (· ≠ '/'))
      = '/' :: more.reverse := by
    apply dropWhile_append_stop
    · intro x hx
      simpa using hnot x hx
    · simp
  unfold pathDirname
  simp only [List.cons_append]
  rw [h1, h2]
  have hlen : ('/' :: more.reverse).length = (first :: more).length := by simp
  have hne : ¬ ('/' :: more.reverse = []) := by simp
  have hone : ¬ (first = '/' ∧ ('/' :: more.reverse).length = 1) := by
    rintro ⟨-, h⟩
    rw [hlen] at h
    omega
  rw [if_neg hne, if_neg hone, hlen]
  congr 1
  have e : first :: (more ++ '/' :: name) = (first :: more) ++ '/' :: name := rfl
  rw [e, List.take_left']
  rfl

theorem validateFileName_none (name : String) (h : validateFileName name = none) :
    name.data.head? ≠ some '/' ∧ ['.', '.'] ∉ splitSlash name.data := by
  unfold validateFileName at h
  split at h
  · cases h
  · split at h
    · cases h
    · rename_i habs
      split at h
      · cases h
      · rename_i hdots
        exact ⟨fun e => habs (Or.inr e), hdots⟩

theorem normalized_of_pathJoin (outputDir : String) (hnorm : pathJoin outputDir "" = outputDir)
    (habs : startsWith outputDir "/" = true) (hend : endsWithSlash outputDir = false) :
    normalizeChars outputDir.data = outputDir.data
      ∧ outputDir.data.head? = some '/' ∧ outputDir.data.getLast? ≠ some '/' := by
  have hhead : outputDir.data.head? = some '/' := by
    unfold startsWith at habs
    cases hd : outputDir.data with
    | nil => rw [hd] at habs; simp at habs
    | cons c cs =>
      rw [hd] at habs
      simp at habs
      simp [← habs]
  have hne : outputDir.data ≠ [] := by
    intro e
    rw [e] at hhead
    simp at hhead
  refine ⟨?_, hhead, ?_⟩
  · unfold pathJoin at hnorm
    have e : "".data = [] := rfl
    rw [if_neg hne, e, if_pos rfl, if_neg hne] at hnorm
    have hdata := congrArg String.data hnorm
    exact hdata
  · unfold endsWithSlash at hend
    simpa using hend

/-- The target of a name that passes the check of yauzl, for an output
directory that is a normalized absolute path with no separator at its end: the
output directory, followed by the segments of the name that are kept and by
the separator the name ends in. -/
theorem pathJoin_valid (outputDir name : String) (hnorm : pathJoin outputDir "" = outputDir)
    (habs : startsWith outputDir "/" = true) (hend : endsWithSlash outputDir = false)
    (hvalid : validateFileName name = none) :
    (pathJoin outputDir name).data
      = outputDir.data
        ++ (if nameSegments name = [] then [] else '/' :: joinSlash (nameSegments name))
        ++ (if name.data.getLast? = some '/' then ['/'] else []) := by
  obtain ⟨hn, hh, he⟩ := normalized_of_pathJoin outputDir hnorm habs hend
  obtain ⟨-, hdots⟩ := validateFileName_none name hvalid
  have hne : outputDir.data ≠ [] := by
    intro e
    rw [e] at hh
    simp at hh
  unfold pathJoin nameSegments
  by_cases hb : name.data = []
  · simp only [hne, ↓reduceIte, hb, hn]
    simp [splitSlash]
  · simp only [hne, ↓reduceIte, hb]
    rw [if_neg (by simp)]
    exact normalizeChars_join outputDir.data name.data hn hh he hb hdots

theorem withinDir_of_data (outputDir path : String) (rest : List Char)
    (h : path.data = outputDir.data ++ rest) (hrest : rest = [] ∨ rest.head? = some '/') :
    withinDir outputDir path = true := by
  unfold withinDir
  rcases hrest with hrest | hrest
  · have e : path = outputDir := by
      apply String.ext
      rw [h, hrest, List.append_nil]
    simp [e]
  · obtain ⟨more, rfl⟩ : ∃ more, rest = '/' :: more := by
      cases rest with
      | nil => simp at hrest
      | cons c more =>
        simp at hrest
        exact ⟨more, by rw [hrest]⟩
    have hp : startsWith path (outputDir ++ "/") = true := by
      unfold startsWith
      rw [List.isPrefixOf_iff_prefix, h, String.data_append]
      exact ⟨more, by simp⟩
    simp [hp]

theorem nameSegments_spec (name : String) :
    ∀ segment ∈ nameSegments name, segment ≠ [] ∧ '/' ∉ segment := by
  intro segment hmem
  unfold nameSegments at hmem
  rw [List.mem_filter] at hmem
  obtain ⟨hsplit, hkeep⟩ := hmem
  rw [decide_eq_true_iff] at hkeep
  exact ⟨fun e => hkeep (Or.inl e), splitSlash_no_slash _ _ hsplit⟩

theorem joinSlash_concat (init : List (List Char)) (last : List Char) :
    joinSlash (init ++ [last])
      = if init = [] then last else joinSlash init ++ '/' :: last := by
  by_cases h : init = []
  · subst h
    rfl
  · rw [if_neg h, joinSlash_append init [last] h (by simp)]
    rfl

/-- The target of a name that passes the check of yauzl is the output directory
or continues it after a separator. -/
theorem withinDir_pathJoin (outputDir name : String)
    (hnorm : pathJoin outputDir "" = outputDir) (habs : startsWith outputDir "/" = true)
    (hend : endsWithSlash outputDir = false) (hvalid : validateFileName name = none) :
    withinDir outputDir (pathJoin outputDir name) = true := by
  have h := pathJoin_valid outputDir name hnorm habs hend hvalid
  rw [List.append_assoc] at h
  apply withinDir_of_data outputDir _ _ h
  by_cases hN : nameSegments name = []
  · rw [if_pos hN]
    by_cases hT : name.data.getLast? = some '/'
    · rw [if_pos hT]
      right
      rfl
    · rw [if_neg hT]
      left
      rfl
  · rw [if_neg hN]
    right
    rfl

/-- The directory of the target of a file name that passes the check of yauzl
lies within the output directory, unless the target is the output directory
itself. -/
theorem withinDir_pathDirname (outputDir name : String)
    (hnorm : pathJoin outputDir "" = outputDir) (habs : startsWith outputDir "/" = true)
    (hend : endsWithSlash outputDir = false) (hvalid : validateFileName name = none)
    (hfile : endsWithSlash name = false) :
    withinDir outputDir (pathDirname (pathJoin outputDir name)) = true
      ∨ pathDirname (pathJoin outputDir name) = pathDirname outputDir := by
  have h := pathJoin_valid outputDir name hnorm habs hend hvalid
  have hT : ¬ name.data.getLast? = some '/' := by
    unfold endsWithSlash at hfile
    simpa using hfile
  rw [if_neg hT, List.append_nil] at h
  obtain ⟨hn, hh, he⟩ := normalized_of_pathJoin outputDir hnorm habs hend
  obtain ⟨hres, ha⟩ := normalizeChars_absolute outputDir.data hn hh he
  have hlen : 2 ≤ outputDir.data.length := by
    rw [ha]
    generalize joinSlash _ = res at hres
    cases res with
    | nil => exact absurd rfl hres
    | cons c cs => simp
  by_cases hN : nameSegments name = []
  · right
    rw [if_pos hN, List.append_nil] at h
    have e : pathJoin outputDir name = outputDir := String.ext h
    rw [e]
  · left
    rw [if_neg hN] at h
    obtain ⟨init, last, hsplit⟩ : ∃ init last, nameSegments name = init ++ [last] := by
      rcases List.eq_nil_or_concat (nameSegments name) with h0 | ⟨init, last, h1⟩
      · exact absurd h0 hN
      · exact ⟨init, last, by rw [h1]; simp⟩
    obtain ⟨hlast, hslash⟩ := nameSegments_spec name last (by rw [hsplit]; simp)
    rw [hsplit, joinSlash_concat] at h
    have hpath : pathJoin outputDir name = String.mk (pathJoin outputDir name).data := rfl
    by_cases hinit : init = []
    · rw [if_pos hinit] at h
      rw [hpath, h, pathDirname_append _ _ hlen hlast hslash]
      exact withinDir_of_data outputDir _ [] (by simp) (Or.inl rfl)
    · rw [if_neg hinit] at h
      have e : outputDir.data ++ '/' :: (joinSlash init ++ '/' :: last)
          = (outputDir.data ++ '/' :: joinSlash init) ++ '/' :: last := by simp
      have hlen2 : 2 ≤ (outputDir.data ++ '/' :: joinSlash init).length := by
        rw [List.length_append]
        omega
      rw [hpath, h, e, pathDirname_append _ _ hlen2 hlast hslash]
      exact withinDir_of_data outputDir _ ('/' :: joinSlash init) rfl (Or.inr rfl)

theorem startsWith_pathJoin (outputDir name : String)
    (hnorm : pathJoin outputDir "" = outputDir) (habs : startsWith outputDir "/" = true)
    (hend : endsWithSlash outputDir = false) (hvalid : validateFileName name = none) :
    startsWith (pathJoin outputDir name) outputDir = true := by
  have h := pathJoin_valid outputDir name hnorm habs hend hvalid
  unfold startsWith
  rw [List.isPrefixOf_iff_prefix, h, List.append_assoc]
  exact List.prefix_append _ _

theorem readEntry_effects (outputDir : String) (totalFiles : Nat) (safe : FsEffect → Prop)
    (hdir : ∀ name, validateFileName name = none → safe (.mkdir (pathJoin outputDir name)))
    (hfile : ∀ name, validateFileName name = none → endsWithSlash name = false →
      safe (.mkdir (pathDirname (pathJoin outputDir name)))
        ∧ safe (.writeFile (pathJoin outputDir name))) :
    ∀ (entries : List ZipEntry) (st : ExtractState), (∀ e ∈ st.effects, safe e) →
      ∀ e ∈ (readEntry outputDir totalFiles entries st).effects, safe e := by
  intro entries
  induction entries with
  | nil =>
    intro st hst
    rw [readEntry]
    split
    · exact hst
    · exact hst
  | cons entry rest ih =>
    intro st hst
    rw [readEntry]
    rcases hv : validateFileName entry.fileName with _ | message
    · dsimp only
      by_cases hstart : startsWith (pathJoin outputDir entry.fileName) outputDir = true
      · rw [hstart]
        simp only [Bool.not_true, Bool.false_eq_true, ↓reduceIte]
        by_cases hslash : endsWithSlash entry.fileName = true
        · rw [if_pos hslash]
          apply ih
          intro e he
          rcases List.mem_append.mp he with he | he
          · exact hst e he
          · rw [List.mem_singleton.mp he]
            exact hdir _ hv
        · rw [if_neg hslash]
          have hs : endsWithSlash entry.fileName = false := by simpa using hslash
          obtain ⟨hmk, hwr⟩ := hfile _ hv hs
          have hopened : ∀ e ∈ st.effects
              ++ [.mkdir (pathDirname (pathJoin outputDir entry.fileName)),
                .writeFile (pathJoin outputDir entry.fileName)], safe e := by
            intro e he
            rcases List.mem_append.mp he with he | he
            · exact hst e he
            · simp only [List.mem_cons, List.mem_singleton, List.not_mem_nil, or_false] at he
              rcases he with he | he
              · rw [he]; exact hmk
              · rw [he]; exact hwr
          rcases entry.openError with _ | message
          · dsimp only
            rcases entry.writeError with _ | message
            · dsimp only
              split
              · exact hopened
              · exact ih _ hopened
            · dsimp only
              split
              · exact hopened
              · exact ih _ hopened
          · exact hst
      · have hs : startsWith (pathJoin outputDir entry.fileName) outputDir = false := by
          simpa using hstart
        rw [hs]
        simp only [Bool.not_false, ↓reduceIte]
        exact ih st hst
    · exact hst

theorem readEntry_invalid (outputDir : String) :
    ∀ (entries : List ZipEntry) (st : ExtractState) (entry : ZipEntry), entry ∈ entries →
      validateFileName entry.fileName ≠ none → st.promise ≠ .resolved →
      entry ∈ (readEntry outputDir 0 entries st).unread
        ∧ ∃ message, (readEntry outputDir 0 entries st).promise = .rejected message := by
  have hreject : ∀ (p : PromiseState) (m : String), p ≠ .resolved →
      ∃ message, p.reject m = .rejected message := by
    intro p m hp
    cases p with
    | pending => exact ⟨m, rfl⟩
    | resolved => exact absurd rfl hp
    | rejected old => exact ⟨old, rfl⟩
  intro entries
  induction entries with
  | nil => intro st entry hmem; simp at hmem
  | cons first rest ih =>
    intro st entry hmem hbad hst
    rw [readEntry]
    rcases hv : validateFileName first.fileName with _ | message
    · have hrest : entry ∈ rest := by
        rcases List.mem_cons.mp hmem with h | h
        · rw [h] at hbad
          exact absurd hv hbad
        · exact h
      dsimp only
      by_cases hstart : startsWith (pathJoin outputDir first.fileName) outputDir = true
      · rw [hstart]
        simp only [Bool.not_true, Bool.false_eq_true, ↓reduceIte]
        by_cases hslash : endsWithSlash first.fileName = true
        · rw [if_pos hslash]
          exact ih _ entry hrest hbad hst
        · rw [if_neg hslash]
          rcases first.openError with _ | message
          · dsimp only
            rw [if_neg (by omega)]
            apply ih _ entry hrest hbad
            rcases first.writeError with _ | message
            · exact hst
            · dsimp only
              obtain ⟨m, hm⟩ := hreject st.promise
                ("Failed to write file " ++ first.fileName ++ ": " ++ message) hst
              rw [hm]
              simp
          · exact ⟨hrest, hreject _ _ hst⟩
      · have hs : startsWith (pathJoin outputDir first.fileName) outputDir = false := by
          simpa using hstart
        rw [hs]
        simp only [Bool.not_false, ↓reduceIte]
        exact ih st entry hrest hbad hst
    · exact ⟨hmem, hreject _ _ hst⟩

theorem validateFileName_escaping (name : String)
    (h : Char.ofNat 92 ∈ name.data ∨ name.data.head? = some '/'
      ∨ ['.', '.'] ∈ splitSlash name.data) :
    validateFileName name ≠ none := by
  unfold validateFileName
  split
  · simp
  · split
    · simp
    · rename_i hback habs
      split
      · simp
      · rename_i hdots
        rcases h with h | h | h
        · exact absurd h hback
        · exact absurd (Or.inr h) habs
        · exact absurd h hdots

/-- C1, as amended. The output directory is a normalized absolute path with no
separator at its end. Every path the extraction opens for writing is the
output directory or continues it after a separator, and so is every directory
it makes sure to exist, except that it may be the directory of the output
directory itself, which is there already. A name that passes the check of
yauzl is never skipped by the listener. An entry whose target is outside
the output directory, or whose name holds a backslash, starts with `/` or
has a `..` segment, is never handed to the listener: it is among the entries
left unread and the promise is rejected. -/
theorem extractZipFile_within (outputDir : String) (archive : Except String (List ZipEntry))
    (hnorm : pathJoin outputDir "" = outputDir) (habs : startsWith outputDir "/" = true)
    (hend : endsWithSlash outputDir = false) :
    (∀ path, FsEffect.writeFile path ∈ (extractZipFile outputDir archive).effects →
        withinDir outputDir path = true)
      ∧ (∀ path, FsEffect.mkdir path ∈ (extractZipFile outputDir archive).effects →
          withinDir outputDir path = true ∨ path = pathDirname outputDir)
      ∧ (∀ name, validateFileName name = none →
          startsWith (pathJoin outputDir name) outputDir = true)
      ∧ (∀ entries entry, archive = .ok entries → entry ∈ entries →
          withinDir outputDir (pathJoin outputDir entry.fileName) = false
            ∨ Char.ofNat 92 ∈ entry.fileName.data ∨ entry.fileName.data.head? = some '/'
            ∨ ['.', '.'] ∈ splitSlash entry.fileName.data →
          entry ∈ (extractZipFile outputDir archive).unread
            ∧ ∃ message, (extractZipFile outputDir archive).promise = .rejected message) := by
  have hself : withinDir outputDir outputDir = true :=
    withinDir_of_data outputDir outputDir [] (by simp) (Or.inl rfl)
  have hsafe : ∀ e ∈ (extractZipFile outputDir archive).effects,
      (∀ path, e = .writeFile path → withinDir outputDir path = true)
        ∧ (∀ path, e = .mkdir path →
            withinDir outputDir path = true ∨ path = pathDirname outputDir) := by
    have hfirst : ∀ e ∈ [FsEffect.mkdir outputDir],
        (∀ path, e = .writeFile path → withinDir outputDir path = true)
          ∧ (∀ path, e = .mkdir path →
              withinDir outputDir path = true ∨ path = pathDirname outputDir) := by
      intro e he
      rw [List.mem_singleton.mp he]
      constructor
      · intro path hp
        cases hp
      · intro path hp
        cases hp
        exact Or.inl hself
    rcases archive with message | entries
    · exact hfirst
    · unfold extractZipFile
      dsimp only
      apply readEntry_effects outputDir _
        (fun e => (∀ path, e = .writeFile path → withinDir outputDir path = true)
          ∧ (∀ path, e = .mkdir path →
              withinDir outputDir path = true ∨ path = pathDirname outputDir))
      · intro name hvalid
        constructor
        · intro path hp
          cases hp
        · intro path hp
          cases hp
          exact Or.inl (withinDir_pathJoin outputDir name hnorm habs hend hvalid)
      · intro name hvalid hfile
        refine ⟨⟨?_, ?_⟩, ⟨?_, ?_⟩⟩
        · intro path hp
          cases hp
        · intro path hp
          cases hp
          exact withinDir_pathDirname outputDir name hnorm habs hend hvalid hfile
        · intro path hp
          cases hp
          exact withinDir_pathJoin outputDir name hnorm habs hend hvalid
        · intro path hp
          cases hp
      · exact hfirst
  refine ⟨fun path hp => (hsafe _ hp).1 path rfl, fun path hp => (hsafe _ hp).2 path rfl,
    fun name hvalid => startsWith_pathJoin outputDir name hnorm habs hend hvalid, ?_⟩
  intro entries entry harchive hmem hbad
  subst harchive
  unfold extractZipFile
  dsimp only
  have hzero : lazyEntryEvents 0 entries = 0 := by
    unfold lazyEntryEvents
    simp
  rw [hzero]
  have hinvalid : validateFileName entry.fileName ≠ none := by
    rcases hbad with hout | hname
    · intro hvalid
      rw [withinDir_pathJoin outputDir entry.fileName hnorm habs hend hvalid] at hout
      exact absurd hout (by decide)
    · exact validateFileName_escaping _ hname
  exact readEntry_invalid outputDir entries _ entry hmem hinvalid (by simp)

theorem extractZipFile_within_witness :
    pathJoin "/t/extract_a" "" = "/t/extract_a"
      ∧ startsWith "/t/extract_a" "/" = true
      ∧ endsWithSlash "/t/extract_a" = false
      ∧ FsEffect.writeFile "/t/extract_a/lib/a.js"
          ∈ (extractZipFile "/t/extract_a"
              (.ok [plainEntry "lib/", plainEntry "lib/a.js"])).effects
      ∧ withinDir "/t/extract_a" "/t/extract_a/lib/a.js" = true :=
  ⟨by decide, by decide, by decide, by decide,
    (extractZipFile_within "/t/extract_a" (.ok [plainEntry "lib/", plainEntry "lib/a.js"])
      (by decide) (by decide) (by decide)).1 "/t/extract_a/lib/a.js" (by decide)⟩

/-- C1, as the claim states it, fails. The entry `../extract_ab/x`, whose target
`/t/extract_ab/x` is outside the output directory `/t/extract_a`, is not
skipped: yauzl reports its name, the promise is rejected, nothing is written,
and the entry `manifest.json` that follows it is never read. -/
theorem extractZipFile_rejects_escaping_entry :
    pathJoin "/t/extract_a" "../extract_ab/x" = "/t/extract_ab/x"
      ∧ withinDir "/t/extract_a" "/t/extract_ab/x" = false
      ∧ extractZipFile "/t/extract_a"
          (.ok [plainEntry "../extract_ab/x", plainEntry "manifest.json"])
        = { extractedFiles := 0
            promise := .rejected "ZIP extraction error: invalid relative path: ../extract_ab/x"
            effects := [.mkdir "/t/extract_a"]
            unread := [plainEntry "../extract_ab/x", plainEntry "manifest.json"] } := by
  decide

/-- C2, at the failing input. An archive with the one file `manifest.json`: the
file is written, every entry has been read, and the promise is still pending,
for `extractedFiles` is 1 and `totalFiles` is 0. -/
theorem extractZipFile_never_resolves :
    extractZipFile "/t/out" (.ok [plainEntry "manifest.json"])
      = { extractedFiles := 1
          promise := .pending
          effects := [.mkdir "/t/out", .mkdir "/t/out", .writeFile "/t/out/manifest.json"]
          unread := [] } := by
  decide

theorem readEntry_file_step (totalFiles : Nat) (rest : List ZipEntry) (st : ExtractState) :
    readEntry "/t/out" totalFiles (plainEntry "a" :: rest) st =
      if st.extractedFiles + 1 = totalFiles then
        { extractedFiles := st.extractedFiles + 1
          promise := st.promise.resolve
          effects := st.effects ++ [.mkdir "/t/out", .writeFile "/t/out/a"]
          unread := rest }
      else
        readEntry "/t/out" totalFiles rest
          { extractedFiles := st.extractedFiles + 1
            promise := st.promise
            effects := st.effects ++ [.mkdir "/t/out", .writeFile "/t/out/a"]
            unread := st.unread } := by
  have hjoin : pathJoin "/t/out" "a" = "/t/out/a" := by decide
  have hstart : startsWith "/t/out/a" "/t/out" = true := by decide
  have hslash : endsWithSlash "a" = false := by decide
  have hdir : pathDirname "/t/out/a" = "/t/out" := by decide
  have hvalid : validateFileName "a" = none := by decide
  rw [readEntry]
  simp [hjoin, hstart, hslash, hdir, hvalid, plainEntry]

theorem readEntry_stops_early (totalFiles : Nat) (rest : List ZipEntry) :
    ∀ (m : Nat) (st : ExtractState), st.extractedFiles + (m + 1) = totalFiles →
      (readEntry "/t/out" totalFiles (List.replicate (m + 1) (plainEntry "a") ++ rest) st).unread
        = rest := by
  intro m
  induction m with
  | zero =>
    intro st h
    simp only [List.replicate, List.cons_append, List.nil_append]
    rw [readEntry_file_step, if_pos (by omega)]
  | succ m ih =>
    intro st h
    rw [List.replicate_succ, List.cons_append, readEntry_file_step, if_neg (by omega)]
    exact ih _ (by simp only; omega)

/-- Whatever number the counting listener has reached, some archive of plain
files is not completed as it should: with the count `c`, the archive of
`c + 1` files is left pending or is resolved with an entry still unread. -/
theorem readEntry_miscounts (c : Nat) :
    (readEntry "/t/out" c (List.replicate (c + 1) (plainEntry "a"))
        { extractedFiles := 0, promise := .pending, effects := [.mkdir "/t/out"], unread := [] }
      ).promise = .pending
    ∨ (readEntry "/t/out" c (List.replicate (c + 1) (plainEntry "a"))
        { extractedFiles := 0, promise := .pending, effects := [.mkdir "/t/out"], unread := [] }
      ).unread ≠ [] := by
  cases c with
  | zero => left; decide
  | succ c =>
    right
    have h := readEntry_stops_early (c + 1) [plainEntry "a"] c
      { extractedFiles := 0, promise := .pending, effects := [.mkdir "/t/out"], unread := [] }
      (by simp only; omega)
    have e : List.replicate (c + 1 + 1) (plainEntry "a")
        = List.replicate (c + 1) (plainEntry "a") ++ [plainEntry "a"] := by
      rw [List.replicate_succ']
    rw [e, h]
    simp

/-- With the count the listener was meant to reach, an archive with an entry
that escapes the output directory is not completed either: yauzl reports the
name of the first entry, the promise is rejected, and the second entry is
never read. -/
theorem readEntry_escaping_entry_rejected :
    readEntry "/t/out" 2 [plainEntry "../../x", plainEntry "a"]
        { extractedFiles := 0, promise := .pending, effects := [.mkdir "/t/out"], unread := [] }
      = { extractedFiles := 0
          promise := .rejected "ZIP extraction error: invalid relative path: ../../x"
          effects := [.mkdir "/t/out"]
          unread := [plainEntry "../../x", plainEntry "a"] } := by
  decide

/-! ## Manifest validation -/

theorem strIncludes_iff (text part : String) :
    strIncludes text part = true ↔ part.data <:+: text.data := by
  unfold strIncludes
  exact decide_eq_true_iff

theorem mem_joinStrings (separator : String) (parts : List String) (part : String)
    (h : part ∈ parts) : part.data <:+: (joinStrings separator parts).data := by
  induction parts with
  | nil => simp at h
  | cons first rest ih =>
    cases rest with
    | nil =>
      simp at h
      subst h
      exact List.infix_refl _
    | cons second more =>
      have e : joinStrings separator (first :: second :: more)
          = first ++ separator ++ joinStrings separator (second :: more) := rfl
      rw [e, String.data_append, String.data_append]
      rcases List.mem_cons.mp h with h | h
      · subst h
        exact ⟨[], separator.data ++ (joinStrings separator (second :: more)).data, by simp⟩
      · obtain ⟨pre, post, hpp⟩ := ih h
        exact ⟨first.data ++ separator.data ++ pre, post, by simp [← hpp]⟩

/-- On strings, `validatePermissions` returns, in order, the permissions that
are blocked or that are in no policy list and do not pass the host test. -/
theorem validatePermissions_strings (perms : List String) :
    validatePermissions (perms.map .str) = .ok
      (perms.filter fun p =>
        decide (p ∈ blockedPermissions)
          || (!decide (p ∈ allowedPermissions) && !decide (p ∈ dangerousPermissions)
              && !(strIncludes p "://" || startsWith p "<all_urls>"))) := by
  induction perms with
  | nil => rfl
  | cons p rest ih =>
    rw [List.map_cons, validatePermissions, ih]
    by_cases hb : p ∈ blockedPermissions
    · simp [hb, bind, Except.bind, pure, Except.pure]
    · simp only [hb, ↓reduceIte, bind, Except.bind, pure, Except.pure, decide_False,
        Bool.false_or, List.filter_cons]
      split <;> rfl

/-- A value one property of which can be read lets every property be read. -/
theorem getProp_returns (v : JsVal) (key : String) (value : JsVal)
    (h : v.getProp key = .ok value) (other : String) : ∃ x, v.getProp other = .ok x := by
  cases v <;> simp [JsVal.getProp] at h ⊢

/-- Every property of a truthy value can be read. -/
theorem getProp_of_truthy (v : JsVal) (h : v.truthy = true) (key : String) :
    ∃ x, v.getProp key = .ok x := by
  cases v <;> simp [JsVal.getProp, JsVal.truthy] at h ⊢

theorem nameErrors_returns (manifest : JsVal) (hm : ∀ key, ∃ x, manifest.getProp key = .ok x) :
    ∃ e, nameErrors manifest = .ok e := by
  obtain ⟨x, hx⟩ := hm "name"
  unfold nameErrors
  rw [hx]
  simp only [bind, Except.bind, pure, Except.pure]
  split <;> exact ⟨_, rfl⟩

theorem versionErrors_returns (manifest : JsVal)
    (hm : ∀ key, ∃ x, manifest.getProp key = .ok x) :
    ∃ e, versionErrors manifest = .ok e := by
  obtain ⟨x, hx⟩ := hm "version"
  unfold versionErrors
  rw [hx]
  simp only [bind, Except.bind, pure, Except.pure]
  split <;> exact ⟨_, rfl⟩

theorem manifestVersionErrors_returns (manifest : JsVal)
    (hm : ∀ key, ∃ x, manifest.getProp key = .ok x) :
    ∃ e, manifestVersionErrors manifest = .ok e := by
  obtain ⟨x, hx⟩ := hm "manifest_version"
  unfold manifestVersionErrors
  rw [hx]
  simp only [bind, Except.bind, pure, Except.pure]
  split <;> exact ⟨_, rfl⟩

theorem backgroundWarnings_returns (manifest : JsVal)
    (hm : ∀ key, ∃ x, manifest.getProp key = .ok x) :
    ∃ w, backgroundWarnings manifest = .ok w := by
  obtain ⟨bg, hbg⟩ := hm "background"
  obtain ⟨mv, hmv⟩ := hm "manifest_version"
  unfold backgroundWarnings
  rw [hbg]
  simp only [bind, Except.bind, pure, Except.pure, hmv]
  by_cases ht : bg.truthy = true
  · obtain ⟨x1, h1⟩ := getProp_of_truthy bg ht "scripts"
    obtain ⟨x2, h2⟩ := getProp_of_truthy bg ht "page"
    obtain ⟨x3, h3⟩ := getProp_of_truthy bg ht "service_worker"
    simp only [ht, ↓reduceIte, h1, h2, h3]
    split
    · split <;> exact ⟨_, rfl⟩
    · split
      · split <;> exact ⟨_, rfl⟩
      · exact ⟨_, rfl⟩
  · simp only [ht]
    exact ⟨_, rfl⟩

theorem getProp_of_not_nullish (v : JsVal) (h : v.nullish = false) (key : String) :
    ∃ x, v.getProp key = .ok x := by
  cases v <;> simp [JsVal.getProp, JsVal.nullish] at h ⊢

theorem contentScriptErrors_returns (scripts : List JsVal)
    (h : ∀ x ∈ scripts, x.nullish = false) :
    ∀ index, ∃ e, contentScriptErrors index scripts = .ok e := by
  induction scripts with
  | nil => intro index; exact ⟨[], rfl⟩
  | cons script rest ih =>
    intro index
    have hs := h script (List.mem_cons_self _ _)
    obtain ⟨x1, h1⟩ := getProp_of_not_nullish script hs "matches"
    obtain ⟨x2, h2⟩ := getProp_of_not_nullish script hs "js"
    obtain ⟨x3, h3⟩ := getProp_of_not_nullish script hs "css"
    obtain ⟨e, he⟩ := ih (fun x hx => h x (List.mem_cons_of_mem _ hx)) (index + 1)
    rw [contentScriptErrors, h1, h2, h3, he]
    exact ⟨_, rfl⟩

theorem webResourceErrors_returns (items : List JsVal)
    (h : ∀ x ∈ items, x.nullish = false) :
    ∀ index, ∃ e, webResourceErrors index items = .ok e := by
  induction items with
  | nil => intro index; exact ⟨[], rfl⟩
  | cons resource rest ih =>
    intro index
    have hs := h resource (List.mem_cons_self _ _)
    obtain ⟨x1, h1⟩ := getProp_of_not_nullish resource hs "resources"
    obtain ⟨x2, h2⟩ := getProp_of_not_nullish resource hs "matches"
    obtain ⟨e, he⟩ := ih (fun x hx => h x (List.mem_cons_of_mem _ hx)) (index + 1)
    rw [webResourceErrors, h1, h2, he]
    exact ⟨_, rfl⟩

theorem contentScriptsErrors_returns (manifest : JsVal)
    (hm : ∀ key, ∃ x, manifest.getProp key = .ok x)
    (h : ∀ items, manifest.getProp "content_scripts" = .ok (.arr items) →
      ∀ x ∈ items, x.nullish = false) :
    ∃ e, contentScriptsErrors manifest = .ok e := by
  obtain ⟨cs, hcs⟩ := hm "content_scripts"
  unfold contentScriptsErrors
  rw [hcs]
  simp only [bind, Except.bind, pure, Except.pure]
  split
  · cases cs with
    | arr items => exact contentScriptErrors_returns items (h items hcs) 0
    | _ => exact ⟨_, rfl⟩
  · exact ⟨_, rfl⟩

theorem webAccessibleResourcesErrors_returns (manifest : JsVal)
    (hm : ∀ key, ∃ x, manifest.getProp key = .ok x)
    (h : ∀ items, manifest.getProp "web_accessible_resources" = .ok (.arr items) →
      ∀ x ∈ items, x.nullish = false) :
    ∃ e, webAccessibleResourcesErrors manifest = .ok e := by
  obtain ⟨war, hwar⟩ := hm "web_accessible_resources"
  obtain ⟨mv, hmv⟩ := hm "manifest_version"
  unfold webAccessibleResourcesErrors
  rw [hwar]
  simp only [bind, Except.bind, pure, Except.pure, hmv]
  split
  · split
    · split <;> exact ⟨_, rfl⟩
    · split
      · cases war with
        | arr items => exact webResourceErrors_returns items (h items hwar) 0
        | _ => exact ⟨_, rfl⟩
      · exact ⟨_, rfl⟩
  · exact ⟨_, rfl⟩

/-- What `permissionsErrors` returns for an array of strings. -/
theorem permissionsErrors_strings (manifest : JsVal) (perms : List String)
    (h : manifest.getProp "permissions" = .ok (.arr (perms.map .str))) :
    permissionsErrors manifest = .ok
      (if (perms.filter fun p =>
            decide (p ∈ blockedPermissions)
              || (!decide (p ∈ allowedPermissions) && !decide (p ∈ dangerousPermissions)
                  && !(strIncludes p "://" || startsWith p "<all_urls>"))).length > 0
        then
          ["Invalid permissions: " ++ joinStrings ", "
            (perms.filter fun p =>
              decide (p ∈ blockedPermissions)
                || (!decide (p ∈ allowedPermissions) && !decide (p ∈ dangerousPermissions)
                    && !(strIncludes p "://" || startsWith p "<all_urls>")))]
        else []) := by
  unfold permissionsErrors
  rw [h]
  simp only [bind, Except.bind, pure, Except.pure, JsVal.truthy, ↓reduceIte,
    validatePermissions_strings]
  split <;> rfl

theorem validateManifestBody_inv (manifest : JsVal) (pkg : FsNode) (r : ValidationResult)
    (h : validateManifestBody manifest pkg = .ok r) :
    ∃ e1 e2 e3 e4 e5 w e6 perms d,
      nameErrors manifest = .ok e1 ∧ versionErrors manifest = .ok e2
      ∧ manifestVersionErrors manifest = .ok e3 ∧ permissionsErrors manifest = .ok e4
      ∧ contentScriptsErrors manifest = .ok e5 ∧ backgroundWarnings manifest = .ok w
      ∧ webAccessibleResourcesErrors manifest = .ok e6
      ∧ manifest.getProp "permissions" = .ok perms
      ∧ getDangerousPermissions (if perms.truthy then perms else .arr []) = .ok d
      ∧ r.errors = e1 ++ e2 ++ e3 ++ e4 ++ e5 ++ e6 ++ sizeErrors pkg ++ fileCountErrors pkg
      ∧ r.valid = (r.errors.length == 0)
      ∧ r.warnings = w
      ∧ r.permissions = (if perms.truthy then perms else .arr [])
      ∧ r.dangerousPermissions = d := by
  unfold validateManifestBody at h
  simp only [bind, Except.bind, pure, Except.pure] at h
  rcases h1 : nameErrors manifest with m | e1
  · simp [h1] at h
  rcases h2 : versionErrors manifest with m | e2
  · simp [h1, h2] at h
  rcases h3 : manifestVersionErrors manifest with m | e3
  · simp [h1, h2, h3] at h
  rcases h4 : permissionsErrors manifest with m | e4
  · simp [h1, h2, h3, h4] at h
  rcases h5 : contentScriptsErrors manifest with m | e5
  · simp [h1, h2, h3, h4, h5] at h
  rcases h6 : backgroundWarnings manifest with m | w
  · simp [h1, h2, h3, h4, h5, h6] at h
  rcases h7 : webAccessibleResourcesErrors manifest with m | e6
  · simp [h1, h2, h3, h4, h5, h6, h7] at h
  rcases h8 : manifest.getProp "permissions" with m | perms
  · simp [h1, h2, h3, h4, h5, h6, h7, h8] at h
  rcases h9 : getDangerousPermissions (if perms.truthy then perms else .arr []) with m | d
  · simp [h1, h2, h3, h4, h5, h6, h7, h8, h9] at h
  simp only [h1, h2, h3, h4, h5, h6, h7, h8, h9, Except.ok.injEq] at h
  subst h
  exact ⟨e1, e2, e3, e4, e5, w, e6, perms, d, rfl, rfl, rfl, rfl, rfl, rfl, rfl, rfl, h9, rfl,
    rfl, rfl, rfl, rfl⟩

theorem validateManifestBody_eq (manifest : JsVal) (pkg : FsNode)
    (e1 e2 e3 e4 e5 w e6 : List String) (perms : JsVal) (d : List JsVal)
    (h1 : nameErrors manifest = .ok e1) (h2 : versionErrors manifest = .ok e2)
    (h3 : manifestVersionErrors manifest = .ok e3) (h4 : permissionsErrors manifest = .ok e4)
    (h5 : contentScriptsErrors manifest = .ok e5) (h6 : backgroundWarnings manifest = .ok w)
    (h7 : webAccessibleResourcesErrors manifest = .ok e6)
    (h8 : manifest.getProp "permissions" = .ok perms)
    (h9 : getDangerousPermissions (if perms.truthy then perms else .arr []) = .ok d) :
    validateManifestBody manifest pkg = .ok
      { valid := (e1 ++ e2 ++ e3 ++ e4 ++ e5 ++ e6 ++ sizeErrors pkg
          ++ fileCountErrors pkg).length == 0
        errors := e1 ++ e2 ++ e3 ++ e4 ++ e5 ++ e6 ++ sizeErrors pkg ++ fileCountErrors pkg
        warnings := w
        permissions := if perms.truthy then perms else .arr []
        dangerousPermissions := d } := by
  unfold validateManifestBody
  simp only [bind, Except.bind, pure, Except.pure, h1, h2, h3, h4, h5, h6, h7, h8, h9]

theorem validateManifest_of_body_ok (manifest : JsVal) (pkg : FsNode) (r : ValidationResult)
    (h : validateManifestBody manifest pkg = .ok r) : validateManifest manifest pkg = r := by
  unfold validateManifest
  rw [h]

theorem validateManifest_of_body_error (manifest : JsVal) (pkg : FsNode) (message : String)
    (h : validateManifestBody manifest pkg = .error message) :
    validateManifest manifest pkg =
      { valid := false
        errors := ["Manifest validation failed: " ++ message]
        warnings := []
        permissions := .arr []
        dangerousPermissions := [] } := by
  unfold validateManifest
  rw [h]

/-- The error `permissionsErrors` gives for an array of strings with a blocked
permission in it names every blocked permission of the array. -/
theorem permissionsErrors_blocked (manifest : JsVal) (perms : List String)
    (hperms : manifest.getProp "permissions" = .ok (.arr (perms.map .str)))
    (hblocked : ∃ b ∈ perms, b ∈ blockedPermissions) :
    ∃ message, permissionsErrors manifest = .ok [message]
      ∧ ∀ b ∈ perms, b ∈ blockedPermissions → strIncludes message b = true := by
  have hp := permissionsErrors_strings manifest perms hperms
  obtain ⟨b0, hb0, hb0'⟩ := hblocked
  have hmem : ∀ b ∈ perms, b ∈ blockedPermissions →
      b ∈ perms.filter fun p =>
        decide (p ∈ blockedPermissions)
          || (!decide (p ∈ allowedPermissions) && !decide (p ∈ dangerousPermissions)
              && !(strIncludes p "://" || startsWith p "<all_urls>")) := by
    intro b hb hb'
    rw [List.mem_filter]
    exact ⟨hb, by simp [hb']⟩
  have hpos := List.length_pos_of_mem (hmem b0 hb0 hb0')
  rw [if_pos hpos] at hp
  refine ⟨_, hp, ?_⟩
  intro b hb hb'
  obtain ⟨pre, post, hpp⟩ := mem_joinStrings ", " _ b (hmem b hb hb')
  apply (strIncludes_iff _ _).mpr
  rw [String.data_append]
  exact ⟨"Invalid permissions: ".data ++ pre, post, by
    simp only [← hpp, List.append_assoc]⟩

/-- C9, as amended. A manifest whose `permissions` is an array of strings with a
blocked permission in it is not valid, whatever its other fields and the
package directory; and when no entry of `content_scripts` and of
`web_accessible_resources` is `null`, so that the checks run to their end,
one of the errors names every blocked permission requested. -/
theorem validateManifest_blocked_permission (manifest : JsVal) (pkg : FsNode)
    (perms : List String)
    (hperms : manifest.getProp "permissions" = .ok (.arr (perms.map .str)))
    (hblocked : ∃ b ∈ perms, b ∈ blockedPermissions) :
    (validateManifest manifest pkg).valid = false
      ∧ ((∀ items, manifest.getProp "content_scripts" = .ok (.arr items) →
            ∀ x ∈ items, x.nullish = false) →
          (∀ items, manifest.getProp "web_accessible_resources" = .ok (.arr items) →
            ∀ x ∈ items, x.nullish = false) →
          ∃ e ∈ (validateManifest manifest pkg).errors,
            ∀ b ∈ perms, b ∈ blockedPermissions → strIncludes e b = true) := by
  obtain ⟨message, hmsg, hnames⟩ := permissionsErrors_blocked manifest perms hperms hblocked
  have hm : ∀ key, ∃ x, manifest.getProp key = .ok x := getProp_returns manifest _ _ hperms
  constructor
  · rcases hbody : validateManifestBody manifest pkg with m | r
    · rw [validateManifest_of_body_error manifest pkg m hbody]
    · rw [validateManifest_of_body_ok manifest pkg r hbody]
      obtain ⟨e1, e2, e3, e4, e5, w, e6, p, d, -, -, -, h4, -, -, -, -, -, herr, hvalid, -⟩ :=
        validateManifestBody_inv manifest pkg r hbody
      rw [hmsg] at h4
      injection h4 with h4
      subst h4
      rw [hvalid, herr]
      simp
  · intro hcs hwar
    obtain ⟨e1, h1⟩ := nameErrors_returns manifest hm
    obtain ⟨e2, h2⟩ := versionErrors_returns manifest hm
    obtain ⟨e3, h3⟩ := manifestVersionErrors_returns manifest hm
    obtain ⟨e5, h5⟩ := contentScriptsErrors_returns manifest hm hcs
    obtain ⟨w, h6⟩ := backgroundWarnings_returns manifest hm
    obtain ⟨e6, h7⟩ := webAccessibleResourcesErrors_returns manifest hm hwar
    have h9 : getDangerousPermissions
        (if (JsVal.arr (perms.map .str)).truthy then JsVal.arr (perms.map .str) else .arr [])
        = .ok ((perms.map JsVal.str).filter (JsVal.inList dangerousPermissions)) := rfl
    have hbody := validateManifestBody_eq manifest pkg e1 e2 e3 [message] e5 w e6 _ _
      h1 h2 h3 hmsg h5 h6 h7 hperms h9
    rw [validateManifest_of_body_ok manifest pkg _ hbody]
    exact ⟨message, by simp, hnames⟩

/-- A witness for C9 as amended: the permissions `storage` and `system.cpu`. -/
theorem validateManifest_blocked_permission_witness :
    (validateManifest
        (.obj [("name", .str "X"), ("version", .str "1.0"), ("manifest_version", .num 3),
          ("permissions", .arr (["storage", "system.cpu"].map .str))])
        (.dir .nil)).valid = false
      ∧ ∃ e ∈ (validateManifest
          (.obj [("name", .str "X"), ("version", .str "1.0"), ("manifest_version", .num 3),
            ("permissions", .arr (["storage", "system.cpu"].map .str))])
          (.dir .nil)).errors,
        ∀ b ∈ ["storage", "system.cpu"], b ∈ blockedPermissions → strIncludes e b = true := by
  have h := validateManifest_blocked_permission
    (.obj [("name", .str "X"), ("version", .str "1.0"), ("manifest_version", .num 3),
      ("permissions", .arr (["storage", "system.cpu"].map .str))])
    (.dir .nil) ["storage", "system.cpu"] rfl ⟨"system.cpu", by decide, by decide⟩
  refine ⟨h.1, h.2 ?_ ?_⟩
  · intro items hitems
    simp [JsVal.getProp, List.lookup] at hitems
  · intro items hitems
    simp [JsVal.getProp, List.lookup] at hitems

/-- C9, as the claim states it, fails. The manifest asks for `system.cpu` and has
a `null` entry in `content_scripts`: reading `matches` of that entry throws,
the `catch` block returns its own error list, and no error names the blocked
permission. -/
theorem validateManifest_blocked_permission_unnamed :
    (validateManifest
        (.obj [("name", .str "X"), ("version", .str "1.0"), ("manifest_version", .num 3),
          ("permissions", .arr [.str "system.cpu"]), ("content_scripts", .arr [.null])])
        (.dir .nil)).errors
        = ["Manifest validation failed: Cannot read properties of null (reading 'matches')"]
      ∧ ¬ ∃ e ∈ (validateManifest
          (.obj [("name", .str "X"), ("version", .str "1.0"), ("manifest_version", .num 3),
            ("permissions", .arr [.str "system.cpu"]), ("content_scripts", .arr [.null])])
          (.dir .nil)).errors, strIncludes e "system.cpu" = true := by
  decide

theorem not_blocked_of_listed (p : String)
    (h : p ∈ allowedPermissions ∨ p ∈ dangerousPermissions) : p ∉ blockedPermissions := by
  simp only [allowedPermissions, dangerousPermissions, List.mem_cons, List.mem_singleton,
    List.not_mem_nil, or_false] at h
  rcases h with (h | h | h | h | h | h | h | h | h) | (h | h | h | h | h | h | h) <;>
    subst h <;> decide

theorem not_dangerous_of_allowed (p : String) (h : p ∈ allowedPermissions) :
    p ∉ dangerousPermissions := by
  simp only [allowedPermissions, List.mem_cons, List.mem_singleton, List.not_mem_nil,
    or_false] at h
  rcases h with h | h | h | h | h | h | h | h | h <;> subst h <;> decide

/-- C10. A manifest with a name and a version that are non-empty strings, the
manifest version 2 or 3, no content scripts, no web accessible resources and
permissions that are all in the allowed or the dangerous list, in a package
directory within the ceilings: the result is valid, without errors, and
`dangerousPermissions` is the list of the requested permissions that are in
the dangerous list, in order and with repetitions; it is empty when only
allowed permissions are requested and not empty when a dangerous one is. -/
theorem validateManifest_accepts (manifest : JsVal) (pkg : FsNode)
    (name version : String) (manifestVersion : Int) (perms : List String)
    (hname : manifest.getProp "name" = .ok (.str name)) (hname' : name ≠ "")
    (hversion : manifest.getProp "version" = .ok (.str version)) (hversion' : version ≠ "")
    (hmv : manifest.getProp "manifest_version" = .ok (.num manifestVersion))
    (hmv' : manifestVersion = 2 ∨ manifestVersion = 3)
    (hcs : manifest.getProp "content_scripts" = .ok .undefined)
    (hwar : manifest.getProp "web_accessible_resources" = .ok .undefined)
    (hperms : manifest.getProp "permissions" = .ok (.arr (perms.map .str)))
    (hlisted : ∀ p ∈ perms, p ∈ allowedPermissions ∨ p ∈ dangerousPermissions)
    (hsize : calculateDirectorySize pkg ≤ maxExtensionSize)
    (hcount : countFiles pkg ≤ maxFileCount) :
    (validateManifest manifest pkg).valid = true
      ∧ (validateManifest manifest pkg).errors = []
      ∧ (validateManifest manifest pkg).dangerousPermissions
          = (perms.filter (· ∈ dangerousPermissions)).map .str
      ∧ ((∀ p ∈ perms, p ∈ allowedPermissions) →
          (validateManifest manifest pkg).dangerousPermissions = [])
      ∧ ((∃ p ∈ perms, p ∈ dangerousPermissions) →
          (validateManifest manifest pkg).dangerousPermissions ≠ []) := by
  have hm : ∀ key, ∃ x, manifest.getProp key = .ok x := getProp_returns manifest _ _ hperms
  have h1 : nameErrors manifest = .ok [] := by
    unfold nameErrors
    rw [hname]
    simp [bind, Except.bind, pure, Except.pure, JsVal.truthy, JsVal.isString, hname']
  have h2 : versionErrors manifest = .ok [] := by
    unfold versionErrors
    rw [hversion]
    simp [bind, Except.bind, pure, Except.pure, JsVal.truthy, JsVal.isString, hversion']
  have h3 : manifestVersionErrors manifest = .ok [] := by
    unfold manifestVersionErrors
    rw [hmv]
    rcases hmv' with h | h <;> subst h <;> rfl
  have h4 : permissionsErrors manifest = .ok [] := by
    rw [permissionsErrors_strings manifest perms hperms]
    have hnone : (perms.filter fun p =>
        decide (p ∈ blockedPermissions)
          || (!decide (p ∈ allowedPermissions) && !decide (p ∈ dangerousPermissions)
              && !(strIncludes p "://" || startsWith p "<all_urls>"))) = [] := by
      rw [List.filter_eq_nil_iff]
      intro p hp
      have hnb := not_blocked_of_listed p (hlisted p hp)
      rcases hlisted p hp with h | h <;> simp [hnb, h]
    rw [hnone]
    rfl
  have h5 : contentScriptsErrors manifest = .ok [] := by
    unfold contentScriptsErrors
    rw [hcs]
    rfl
  obtain ⟨w, h6⟩ := backgroundWarnings_returns manifest hm
  have h7 : webAccessibleResourcesErrors manifest = .ok [] := by
    unfold webAccessibleResourcesErrors
    rw [hwar]
    rfl
  have h9 : getDangerousPermissions
      (if (JsVal.arr (perms.map .str)).truthy then JsVal.arr (perms.map .str) else .arr [])
      = .ok ((perms.filter (· ∈ dangerousPermissions)).map .str) := by
    simp only [JsVal.truthy, ↓reduceIte, getDangerousPermissions, List.filter_map]
    rfl
  have hs : sizeErrors pkg = [] := by
    unfold sizeErrors
    simp only [gt_iff_lt]
    rw [if_neg (by omega)]
  have hc : fileCountErrors pkg = [] := by
    unfold fileCountErrors
    simp only [gt_iff_lt]
    rw [if_neg (by omega)]
  have hbody := validateManifestBody_eq manifest pkg [] [] [] [] [] w [] _ _
    h1 h2 h3 h4 h5 h6 h7 hperms h9
  rw [validateManifest_of_body_ok manifest pkg _ hbody, hs, hc]
  refine ⟨rfl, rfl, rfl, ?_, ?_⟩
  · intro hall
    simp only [List.map_eq_nil_iff, List.filter_eq_nil_iff]
    intro p hp
    simpa using not_dangerous_of_allowed p (hall p hp)
  · rintro ⟨p, hp, hd⟩
    simp only [ne_eq, List.map_eq_nil_iff, List.filter_eq_nil_iff, not_forall]
    exact ⟨p, hp, by simpa using hd⟩

/-- A witness for C10: the permissions `storage`, `webRequest`, `tabs`, `proxy`
and `webRequest` again, and a background section. -/
theorem validateManifest_accepts_witness :
    (validateManifest
        (.obj [("name", .str "X"), ("version", .str "1.0"), ("manifest_version", .num 3),
          ("background", .obj [("page", .str "bg.html")]),
          ("permissions",
            .arr (["storage", "webRequest", "tabs", "proxy", "webRequest"].map .str))])
        (.dir (.cons "manifest.json" (.file 120) .nil))).valid = true
      ∧ (validateManifest
        (.obj [("name", .str "X"), ("version", .str "1.0"), ("manifest_version", .num 3),
          ("background", .obj [("page", .str "bg.html")]),
          ("permissions",
            .arr (["storage", "webRequest", "tabs", "proxy", "webRequest"].map .str))])
        (.dir (.cons "manifest.json" (.file 120) .nil))).dangerousPermissions
          = [.str "webRequest", .str "proxy", .str "webRequest"] := by
  have h := validateManifest_accepts
    (.obj [("name", .str "X"), ("version", .str "1.0"), ("manifest_version", .num 3),
      ("background", .obj [("page", .str "bg.html")]),
      ("permissions", .arr (["storage", "webRequest", "tabs", "proxy", "webRequest"].map .str))])
    (.dir (.cons "manifest.json" (.file 120) .nil))
    "X" "1.0" 3 ["storage", "webRequest", "tabs", "proxy", "webRequest"]
    rfl (by decide) rfl (by decide) rfl (Or.inr rfl) rfl rfl rfl (by decide) (by decide)
    (by decide)
  exact ⟨h.1, h.2.2.1⟩

/-- C11, as amended. On strings, `validatePermissions` returns, in order, exactly
the permissions that are blocked, or that are in neither the allowed nor the
dangerous list and fail the host test, the host test being passed by a string
that contains `://` or begins with `<all_urls>`; every other permission is
left out of the list. The test differs from the one of the specification only
on the strings that begin with `<all_urls>` and go on. -/
theorem validatePermissions_sublist (perms : List String) :
    validatePermissions (perms.map .str) = .ok (perms.filter rejectedPermission)
      ∧ (∀ p ∈ perms, rejectedPermission p = false → p ∉ perms.filter rejectedPermission)
      ∧ (∀ p, (startsWith p "<all_urls>" = true → p = "<all_urls>") →
          rejectedPermission p = specRejected p) := by
  refine ⟨validatePermissions_strings perms, ?_, ?_⟩
  · intro p _ hp hmem
    rw [List.mem_filter] at hmem
    rw [hp] at hmem
    exact Bool.false_ne_true hmem.2
  · intro p hp
    have hhost : hostPermissionTest p = specHostPattern p := by
      unfold hostPermissionTest specHostPattern
      cases hs : startsWith p "<all_urls>"
      · have hne : p ≠ "<all_urls>" := by
          intro h
          rw [h] at hs
          exact absurd hs (by decide)
        simp [hne]
      · simp [hp hs]
    unfold rejectedPermission specRejected
    rw [hhost]

/-- C11, as the claim states it, fails. The string `<all_urls>x` is in no list,
has no `://` and is not the wildcard, so that the claim has it rejected; it
begins with `<all_urls>`, and `validatePermissions` accepts it. -/
theorem validatePermissions_all_urls_start :
    specRejected "<all_urls>x" = true
      ∧ ["<all_urls>x"].filter specRejected = ["<all_urls>x"]
      ∧ validatePermissions [.str "<all_urls>x"] = .ok [] := by
  refine ⟨by decide, by decide, rfl⟩

theorem validateManifest_valid_iff (manifest : JsVal) (pkg : FsNode) :
    (validateManifest manifest pkg).valid = true
      ↔ (validateManifest manifest pkg).errors = [] := by
  rcases hbody : validateManifestBody manifest pkg with m | r
  · rw [validateManifest_of_body_error manifest pkg m hbody]
    simp
  · rw [validateManifest_of_body_ok manifest pkg r hbody]
    obtain ⟨e1, e2, e3, e4, e5, w, e6, p, d, -, -, -, -, -, -, -, -, -, -, hvalid, -⟩ :=
      validateManifestBody_inv manifest pkg r hbody
    rw [hvalid]
    simp

theorem nameErrors_throws (manifest : JsVal) (message : String)
    (h : manifest.getProp "name" = .error message) :
    validateManifestBody manifest pkg = .error message := by
  unfold validateManifestBody nameErrors
  rw [h]
  rfl

/-- The errors, the validity and the permissions of the result depend on the
manifest through the properties other than `background` only. -/
theorem validateManifest_congr (m1 m2 : JsVal) (pkg : FsNode)
    (h : ∀ key, key ≠ "background" → m1.getProp key = m2.getProp key) :
    (validateManifest m1 pkg).valid = (validateManifest m2 pkg).valid
      ∧ (validateManifest m1 pkg).errors = (validateManifest m2 pkg).errors := by
  rcases hname : m1.getProp "name" with message | v
  · rw [validateManifest_of_body_error m1 pkg message (nameErrors_throws m1 message hname),
      validateManifest_of_body_error m2 pkg message
        (nameErrors_throws m2 message ((h "name" (by decide)).symm.trans hname))]
    exact ⟨rfl, rfl⟩
  · have hm1 := getProp_returns m1 "name" v hname
    have hm2 := getProp_returns m2 "name" v ((h "name" (by decide)).symm.trans hname)
    obtain ⟨w1, hw1⟩ := backgroundWarnings_returns m1 hm1
    obtain ⟨w2, hw2⟩ := backgroundWarnings_returns m2 hm2
    have h1 : nameErrors m1 = nameErrors m2 := by
      unfold nameErrors; rw [h "name" (by decide)]
    have h2 : versionErrors m1 = versionErrors m2 := by
      unfold versionErrors; rw [h "version" (by decide)]
    have h3 : manifestVersionErrors m1 = manifestVersionErrors m2 := by
      unfold manifestVersionErrors; rw [h "manifest_version" (by decide)]
    have h4 : permissionsErrors m1 = permissionsErrors m2 := by
      unfold permissionsErrors; rw [h "permissions" (by decide)]
    have h5 : contentScriptsErrors m1 = contentScriptsErrors m2 := by
      unfold contentScriptsErrors; rw [h "content_scripts" (by decide)]
    have h7 : webAccessibleResourcesErrors m1 = webAccessibleResourcesErrors m2 := by
      unfold webAccessibleResourcesErrors
      rw [h "web_accessible_resources" (by decide), h "manifest_version" (by decide)]
    have h8 := h "permissions" (by decide)
    unfold validateManifest validateManifestBody
    rw [h1, h2, h3, h4, h5, h7, h8, hw1, hw2]
    simp only [bind, Except.bind, pure, Except.pure]
    rcases nameErrors m2 with m | e1
    · exact ⟨rfl, rfl⟩
    rcases versionErrors m2 with m | e2
    · exact ⟨rfl, rfl⟩
    rcases manifestVersionErrors m2 with m | e3
    · exact ⟨rfl, rfl⟩
    rcases permissionsErrors m2 with m | e4
    · exact ⟨rfl, rfl⟩
    rcases contentScriptsErrors m2 with m | e5
    · exact ⟨rfl, rfl⟩
    rcases webAccessibleResourcesErrors m2 with m | e6
    · exact ⟨rfl, rfl⟩
    rcases m2.getProp "permissions" with m | perms
    · exact ⟨rfl, rfl⟩
    dsimp only
    rcases getDangerousPermissions (if perms.truthy = true then perms else .arr []) with m | d
    · exact ⟨rfl, rfl⟩
    exact ⟨rfl, rfl⟩

/-- C12. Whatever the manifest and the package directory, the result is valid
exactly when its error list is empty; and two manifests that differ in the
`background` section only, one having it or not, get the same validity and
the same errors: the section can add a warning and nothing else. -/
theorem validateManifest_warnings_apart (m1 m2 : JsVal) (pkg : FsNode)
    (h : ∀ key, key ≠ "background" → m1.getProp key = m2.getProp key) :
    ((validateManifest m1 pkg).valid = true ↔ (validateManifest m1 pkg).errors = [])
      ∧ ((validateManifest m2 pkg).valid = true ↔ (validateManifest m2 pkg).errors = [])
      ∧ (validateManifest m1 pkg).valid = (validateManifest m2 pkg).valid
      ∧ (validateManifest m1 pkg).errors = (validateManifest m2 pkg).errors :=
  ⟨validateManifest_valid_iff m1 pkg, validateManifest_valid_iff m2 pkg,
    validateManifest_congr m1 m2 pkg h⟩

theorem getProp_cons_ne (key other : String) (value : JsVal) (props : List (String × JsVal))
    (h : other ≠ key) :
    (JsVal.obj ((key, value) :: props)).getProp other = (JsVal.obj props).getProp other := by
  have hb : (other == key) = false := by simpa using h
  simp [JsVal.getProp, List.lookup, hb]

/-- A witness for C12: a version 3 manifest whose background section names a
page and no service worker, and the same manifest without the section. -/
theorem validateManifest_warnings_apart_witness :
    (validateManifest
        (.obj [("background", .obj [("page", .str "bg.html")]), ("name", .str "X"),
          ("manifest_version", .num 3)])
        (.dir .nil)).errors
      = (validateManifest (.obj [("name", .str "X"), ("manifest_version", .num 3)])
          (.dir .nil)).errors
    ∧ (validateManifest
        (.obj [("background", .obj [("page", .str "bg.html")]), ("name", .str "X"),
          ("manifest_version", .num 3)])
        (.dir .nil)).errors = ["Extension version is required and must be a string"]
    ∧ (validateManifest
        (.obj [("background", .obj [("page", .str "bg.html")]), ("name", .str "X"),
          ("manifest_version", .num 3)])
        (.dir .nil)).warnings = ["Manifest v3 should use service_worker for background"]
    ∧ (validateManifest (.obj [("name", .str "X"), ("manifest_version", .num 3)])
          (.dir .nil)).warnings = [] :=
  ⟨(validateManifest_warnings_apart
      (.obj [("background", .obj [("page", .str "bg.html")]), ("name", .str "X"),
        ("manifest_version", .num 3)])
      (.obj [("name", .str "X"), ("manifest_version", .num 3)]) (.dir .nil)
      (fun key hk => getProp_cons_ne "background" key _ _ hk)).2.2.2,
    by decide, by decide, by decide⟩

theorem contentScriptErrors_inv (scripts : List JsVal) :
    ∀ (index : Nat) (e : List String), contentScriptErrors index scripts = .ok e →
      ∀ (i : Nat) (script : JsVal), scripts[i]? = some script →
        (hasMatchesArray script = false →
          ("Content script " ++ toString (index + i) ++ " must have matches array") ∈ e)
        ∧ (hasScriptOrStyle script = false →
          ("Content script " ++ toString (index + i) ++ " must have js or css files") ∈ e) := by
  induction scripts with
  | nil => intro index e _ i script hi; simp at hi
  | cons first rest ih =>
    intro index e h i script hi
    rw [contentScriptErrors] at h
    simp only [bind, Except.bind, pure, Except.pure] at h
    rcases h1 : first.getProp "matches" with m | sm
    · simp [h1] at h
    rcases h2 : first.getProp "js" with m | js
    · simp [h1, h2] at h
    rcases h3 : first.getProp "css" with m | css
    · simp [h1, h2, h3] at h
    rcases h4 : contentScriptErrors (index + 1) rest with m | restErrors
    · simp [h1, h2, h3, h4] at h
    simp only [h1, h2, h3, h4, Except.ok.injEq] at h
    subst h
    cases i with
    | zero =>
      simp only [List.getElem?_cons_zero, Option.some.injEq] at hi
      subst hi
      constructor
      · intro hm
        have : sm.isArray = false := by simpa [hasMatchesArray, h1] using hm
        simp [this]
      · intro hf
        have hf' : (js.truthy || css.truthy) = false := by
          simpa [hasScriptOrStyle, h2, h3] using hf
        rw [Bool.or_eq_false_iff] at hf'
        simp [hf'.1, hf'.2]
    | succ j =>
      simp only [List.getElem?_cons_succ] at hi
      have := ih (index + 1) restErrors h4 j script hi
      have e1 : index + 1 + j = index + (j + 1) := by omega
      rw [e1] at this
      exact ⟨fun hm => by simp [this.1 hm], fun hf => by simp [this.2 hf]⟩

theorem contentScriptsErrors_arr (manifest : JsVal) (scripts : List JsVal)
    (hcs : manifest.getProp "content_scripts" = .ok (.arr scripts)) :
    contentScriptsErrors manifest = contentScriptErrors 0 scripts := by
  unfold contentScriptsErrors
  rw [hcs]
  rfl

theorem mem_errors_of_body (manifest : JsVal) (pkg : FsNode) (r : ValidationResult)
    (hbody : validateManifestBody manifest pkg = .ok r) (message : String)
    (hmem : message ∈ r.errors) :
    (validateManifest manifest pkg).valid = false
      ∧ message ∈ (validateManifest manifest pkg).errors := by
  rw [validateManifest_of_body_ok manifest pkg r hbody]
  obtain ⟨e1, e2, e3, e4, e5, w, e6, p, d, -, -, -, -, -, -, -, -, -, -, hvalid, -⟩ :=
    validateManifestBody_inv manifest pkg r hbody
  refine ⟨?_, hmem⟩
  rw [hvalid]
  have := List.length_pos_of_mem hmem
  simp only [beq_eq_false_iff_ne, ne_eq]
  omega

/-- C13, as amended. Of a manifest whose `content_scripts` is an array: an entry
without a `matches` array, or with neither `js` nor `css`, makes the result
not valid, and its error is in the list unless a check has thrown, in which
case the list is the one error of the `catch` block; so a valid result has a
`matches` array, empty or not, and a `js` or a `css` in every entry. -/
theorem validateManifest_content_scripts (manifest : JsVal) (pkg : FsNode)
    (scripts : List JsVal)
    (hcs : manifest.getProp "content_scripts" = .ok (.arr scripts)) :
    (∀ (i : Nat) (script : JsVal), scripts[i]? = some script → hasMatchesArray script = false →
        (validateManifest manifest pkg).valid = false
        ∧ (("Content script " ++ toString i ++ " must have matches array")
              ∈ (validateManifest manifest pkg).errors
            ∨ ∃ m, (validateManifest manifest pkg).errors
                = ["Manifest validation failed: " ++ m]))
      ∧ (∀ (i : Nat) (script : JsVal), scripts[i]? = some script → hasScriptOrStyle script = false →
        (validateManifest manifest pkg).valid = false
        ∧ (("Content script " ++ toString i ++ " must have js or css files")
              ∈ (validateManifest manifest pkg).errors
            ∨ ∃ m, (validateManifest manifest pkg).errors
                = ["Manifest validation failed: " ++ m]))
      ∧ ((validateManifest manifest pkg).valid = true →
          ∀ script ∈ scripts, hasMatchesArray script = true ∧ hasScriptOrStyle script = true) := by
  have key : ∀ (i : Nat) (script : JsVal), scripts[i]? = some script →
      (hasMatchesArray script = false →
        (validateManifest manifest pkg).valid = false
        ∧ (("Content script " ++ toString i ++ " must have matches array")
              ∈ (validateManifest manifest pkg).errors
            ∨ ∃ m, (validateManifest manifest pkg).errors
                = ["Manifest validation failed: " ++ m]))
      ∧ (hasScriptOrStyle script = false →
        (validateManifest manifest pkg).valid = false
        ∧ (("Content script " ++ toString i ++ " must have js or css files")
              ∈ (validateManifest manifest pkg).errors
            ∨ ∃ m, (validateManifest manifest pkg).errors
                = ["Manifest validation failed: " ++ m])) := by
    intro i script hi
    rcases hbody : validateManifestBody manifest pkg with m | r
    · rw [validateManifest_of_body_error manifest pkg m hbody]
      exact ⟨fun _ => ⟨rfl, Or.inr ⟨m, rfl⟩⟩, fun _ => ⟨rfl, Or.inr ⟨m, rfl⟩⟩⟩
    · obtain ⟨e1, e2, e3, e4, e5, w, e6, p, d, -, -, -, -, h5, -, -, -, -, herr, -⟩ :=
        validateManifestBody_inv manifest pkg r hbody
      rw [contentScriptsErrors_arr manifest scripts hcs] at h5
      have hinv := contentScriptErrors_inv scripts 0 e5 h5 i script hi
      rw [Nat.zero_add] at hinv
      constructor
      · intro hm
        have hmem : ("Content script " ++ toString i ++ " must have matches array")
            ∈ r.errors := by
          rw [herr]; simp [hinv.1 hm]
        have := mem_errors_of_body manifest pkg r hbody _ hmem
        exact ⟨this.1, Or.inl this.2⟩
      · intro hf
        have hmem : ("Content script " ++ toString i ++ " must have js or css files")
            ∈ r.errors := by
          rw [herr]; simp [hinv.2 hf]
        have := mem_errors_of_body manifest pkg r hbody _ hmem
        exact ⟨this.1, Or.inl this.2⟩
  refine ⟨fun i script hi => (key i script hi).1, fun i script hi => (key i script hi).2, ?_⟩
  intro hvalid script hmem
  obtain ⟨i, hi⟩ := List.getElem?_of_mem hmem
  constructor
  · cases hm : hasMatchesArray script
    · have := ((key i script hi).1 hm).1
      rw [hvalid] at this
      exact absurd this (by decide)
    · rfl
  · cases hf : hasScriptOrStyle script
    · have := ((key i script hi).2 hf).1
      rw [hvalid] at this
      exact absurd this (by decide)
    · rfl

/-- A witness for C13 as amended: the second content script has no `matches`. -/
theorem validateManifest_content_scripts_witness :
    (validateManifest
        (.obj [("name", .str "X"), ("version", .str "1.0"), ("manifest_version", .num 3),
          ("content_scripts",
            .arr [.obj [("matches", .arr [.str "https://a/*"]), ("js", .arr [.str "a.js"])],
              .obj [("js", .arr [.str "b.js"])]])])
        (.dir .nil)).valid = false
      ∧ (validateManifest
        (.obj [("name", .str "X"), ("version", .str "1.0"), ("manifest_version", .num 3),
          ("content_scripts",
            .arr [.obj [("matches", .arr [.str "https://a/*"]), ("js", .arr [.str "a.js"])],
              .obj [("js", .arr [.str "b.js"])]])])
        (.dir .nil)).errors = ["Content script 1 must have matches array"] := by
  have h := (validateManifest_content_scripts
    (.obj [("name", .str "X"), ("version", .str "1.0"), ("manifest_version", .num 3),
      ("content_scripts",
        .arr [.obj [("matches", .arr [.str "https://a/*"]), ("js", .arr [.str "a.js"])],
          .obj [("js", .arr [.str "b.js"])]])])
    (.dir .nil) _ rfl).1 1 (.obj [("js", .arr [.str "b.js"])]) rfl rfl
  exact ⟨h.1, by decide⟩

/-- C13, as the claim states it, fails. The content script has an empty `matches`
list and a script file: the result is valid and has no error. -/
theorem validateManifest_empty_matches_accepted :
    hasMatchesArray (.obj [("matches", .arr []), ("js", .arr [.str "a.js"])]) = true
      ∧ (validateManifest
        (.obj [("name", .str "X"), ("version", .str "1.0"), ("manifest_version", .num 3),
          ("content_scripts", .arr [.obj [("matches", .arr []), ("js", .arr [.str "a.js"])]])])
        (.dir .nil)).valid = true
      ∧ (validateManifest
        (.obj [("name", .str "X"), ("version", .str "1.0"), ("manifest_version", .num 3),
          ("content_scripts", .arr [.obj [("matches", .arr []), ("js", .arr [.str "a.js"])]])])
        (.dir .nil)).errors = [] := by
  decide

theorem sizeLoop_eq : ∀ (entries : FsEntries) (totalSize : Nat), entries.readable = true →
    sizeLoop entries totalSize = totalSize + entries.totalSize
  | .nil, totalSize, _ => by simp [sizeLoop, FsEntries.totalSize]
  | .cons _ (.file size) rest, totalSize, h => by
    have hr : rest.readable = true := by
      simpa [FsEntries.readable, FsNode.readable] using h
    rw [sizeLoop, sizeLoop_eq rest _ hr]
    simp [FsEntries.totalSize, FsNode.totalSize, Nat.add_assoc]
  | .cons _ .dangling rest, totalSize, h => by
    simp [FsEntries.readable, FsNode.readable] at h
  | .cons _ .unreadable rest, totalSize, h => by
    simp [FsEntries.readable, FsNode.readable] at h
  | .cons _ (.dir entries) rest, totalSize, h => by
    have hr : entries.readable = true ∧ rest.readable = true := by
      simpa [FsEntries.readable, FsNode.readable] using h
    rw [sizeLoop, sizeLoop_eq rest _ hr.2, calculateDirectorySize, sizeLoop_eq entries 0 hr.1]
    simp [FsEntries.totalSize, FsNode.totalSize, Nat.add_assoc]

theorem countLoop_eq : ∀ (entries : FsEntries) (fileCount : Nat), entries.readable = true →
    countLoop entries fileCount = fileCount + entries.fileTotal
  | .nil, fileCount, _ => by simp [countLoop, FsEntries.fileTotal]
  | .cons _ (.file size) rest, fileCount, h => by
    have hr : rest.readable = true := by
      simpa [FsEntries.readable, FsNode.readable] using h
    rw [countLoop, countLoop_eq rest _ hr]
    simp [FsEntries.fileTotal, FsNode.fileTotal, Nat.add_assoc]
  | .cons _ .dangling rest, fileCount, h => by
    simp [FsEntries.readable, FsNode.readable] at h
  | .cons _ .unreadable rest, fileCount, h => by
    simp [FsEntries.readable, FsNode.readable] at h
  | .cons _ (.dir entries) rest, fileCount, h => by
    have hr : entries.readable = true ∧ rest.readable = true := by
      simpa [FsEntries.readable, FsNode.readable] using h
    rw [countLoop, countLoop_eq rest _ hr.2, countFiles, countLoop_eq entries 0 hr.1]
    simp [FsEntries.fileTotal, FsNode.fileTotal, Nat.add_assoc]

/-- Whether the `try` block throws does not depend on the package directory, and
when it does not throw the errors are those of the manifest followed by the
errors of the two ceilings. -/
theorem validateManifest_errors_split (manifest : JsVal) (pkg : FsNode) :
    ((validateManifest manifest pkg).valid = false
        ∧ ∃ m, (validateManifest manifest pkg).errors = ["Manifest validation failed: " ++ m])
      ∨ ((validateManifest manifest pkg).errors
          = (validateManifest manifest (.dir .nil)).errors
              ++ sizeErrors pkg ++ fileCountErrors pkg
        ∧ (validateManifest manifest pkg).valid
            = ((validateManifest manifest pkg).errors.length == 0)) := by
  rcases hbody : validateManifestBody manifest pkg with m | r
  · left
    rw [validateManifest_of_body_error manifest pkg m hbody]
    exact ⟨rfl, m, rfl⟩
  · right
    obtain ⟨e1, e2, e3, e4, e5, w, e6, p, d, h1, h2, h3, h4, h5, h6, h7, h8, h9, herr, hvalid,
      -⟩ := validateManifestBody_inv manifest pkg r hbody
    have hempty := validateManifestBody_eq manifest (.dir .nil) e1 e2 e3 e4 e5 w e6 p d
      h1 h2 h3 h4 h5 h6 h7 h8 h9
    rw [validateManifest_of_body_ok manifest pkg r hbody,
      validateManifest_of_body_ok manifest (.dir .nil) _ hempty, herr, hvalid, herr]
    have hs : sizeErrors (.dir .nil) = [] := rfl
    have hc : fileCountErrors (.dir .nil) = [] := rfl
    simp only [hs, hc, List.append_nil, and_self]

/-- C14, as amended. For a package directory that can be read at every depth,
`calculateDirectorySize` is the sum of the sizes of its files and `countFiles`
their number; a size above 52428800 or a count above 1000 makes the result
not valid; and unless a check of the manifest throws (the result is then the
one error of the `catch` block), the errors are those of the manifest
followed by the size error exactly when the size is above 52428800 and by the
file-count error exactly when the count is above 1000. -/
theorem validateManifest_ceilings (manifest : JsVal) (entries : FsEntries)
    (hr : entries.readable = true) :
    calculateDirectorySize (.dir entries) = entries.totalSize
      ∧ countFiles (.dir entries) = entries.fileTotal
      ∧ ((entries.totalSize > 52428800 ∨ entries.fileTotal > 1000) →
          (validateManifest manifest (.dir entries)).valid = false)
      ∧ ((∃ m, (validateManifest manifest (.dir entries)).errors
              = ["Manifest validation failed: " ++ m])
          ∨ (validateManifest manifest (.dir entries)).errors
              = (validateManifest manifest (.dir .nil)).errors
                ++ (if entries.totalSize > 52428800 then
                      ["Extension size (" ++ toString entries.totalSize
                        ++ " bytes) exceeds maximum allowed size"]
                    else [])
                ++ (if entries.fileTotal > 1000 then
                      ["Extension has too many files (" ++ toString entries.fileTotal
                        ++ "), maximum allowed is 1000"]
                    else [])) := by
  have hsize : calculateDirectorySize (.dir entries) = entries.totalSize := by
    rw [calculateDirectorySize, sizeLoop_eq entries 0 hr, Nat.zero_add]
  have hcount : countFiles (.dir entries) = entries.fileTotal := by
    rw [countFiles, countLoop_eq entries 0 hr, Nat.zero_add]
  have hs : sizeErrors (.dir entries)
      = if entries.totalSize > 52428800 then
          ["Extension size (" ++ toString entries.totalSize
            ++ " bytes) exceeds maximum allowed size"]
        else [] := by
    unfold sizeErrors
    rw [hsize]
    rfl
  have hc : fileCountErrors (.dir entries)
      = if entries.fileTotal > 1000 then
          ["Extension has too many files (" ++ toString entries.fileTotal
            ++ "), maximum allowed is 1000"]
        else [] := by
    have hmax : toString maxFileCount = "1000" := by decide
    have hcat : "), maximum allowed is " ++ "1000" = "), maximum allowed is 1000" := by decide
    unfold fileCountErrors
    rw [hcount, hmax]
    simp only [String.append_assoc, hcat]
    rfl
  refine ⟨hsize, hcount, ?_, ?_⟩
  · intro hbreach
    rcases validateManifest_errors_split manifest (.dir entries) with h | h
    · exact h.1
    · rw [h.2, h.1, hs, hc]
      rcases hbreach with hb | hb
      · simp [hb]
      · simp [hb]
  · rcases validateManifest_errors_split manifest (.dir entries) with h | h
    · exact Or.inl h.2
    · right
      rw [h.1, hs, hc]

/-- A witness for C14 as amended: a package with a file and a directory that
holds a second file. -/
theorem validateManifest_ceilings_witness :
    calculateDirectorySize
        (.dir (.cons "manifest.json" (.file 120)
          (.cons "js" (.dir (.cons "a.js" (.file 30) .nil)) .nil))) = 150
      ∧ countFiles
        (.dir (.cons "manifest.json" (.file 120)
          (.cons "js" (.dir (.cons "a.js" (.file 30) .nil)) .nil))) = 2 :=
  have h := validateManifest_ceilings (.obj [("name", .str "X")])
    (.cons "manifest.json" (.file 120) (.cons "js" (.dir (.cons "a.js" (.file 30) .nil)) .nil))
    rfl
  ⟨h.1, h.2.1⟩

/-- C14, as the claim states it, fails. The package holds one file of 52428801
bytes, above the ceiling, and the manifest has a `null` content script:
reading `matches` throws before the ceilings are checked, and the errors are
the one error of the `catch` block, with no size error. -/
theorem validateManifest_ceiling_unreported :
    FsEntries.readable (.cons "big.bin" (.file 52428801) .nil) = true
      ∧ calculateDirectorySize (.dir (.cons "big.bin" (.file 52428801) .nil)) = 52428801
      ∧ (validateManifest
          (.obj [("name", .str "X"), ("version", .str "1.0"), ("manifest_version", .num 3),
            ("content_scripts", .arr [.null])])
          (.dir (.cons "big.bin" (.file 52428801) .nil))).errors
        = ["Manifest validation failed: Cannot read properties of null (reading 'matches')"]
      ∧ "Extension size (52428801 bytes) exceeds maximum allowed size"
        ∉ (validateManifest
          (.obj [("name", .str "X"), ("version", .str "1.0"), ("manifest_version", .num 3),
            ("content_scripts", .arr [.null])])
          (.dir (.cons "big.bin" (.file 52428801) .nil))).errors := by
  refine ⟨by decide, by decide, by decide, by decide⟩

theorem webResourceErrors_inv (items : List JsVal) :
    ∀ (index : Nat) (e : List String), webResourceErrors index items = .ok e →
      ∀ (i : Nat) (resource : JsVal), items[i]? = some resource →
        hasResourcesAndMatches resource = false →
          ("Web accessible resource " ++ toString (index + i)
            ++ " must have resources and matches") ∈ e := by
  induction items with
  | nil => intro index e _ i resource hi; simp at hi
  | cons first rest ih =>
    intro index e h i resource hi hbad
    rw [webResourceErrors] at h
    simp only [bind, Except.bind, pure, Except.pure] at h
    rcases h1 : first.getProp "resources" with m | res
    · simp [h1] at h
    rcases h2 : first.getProp "matches" with m | rm
    · simp [h1, h2] at h
    rcases h3 : webResourceErrors (index + 1) rest with m | restErrors
    · simp [h1, h2, h3] at h
    simp only [h1, h2, h3, Except.ok.injEq] at h
    subst h
    cases i with
    | zero =>
      simp only [List.getElem?_cons_zero, Option.some.injEq] at hi
      subst hi
      have hb : (res.truthy && rm.truthy) = false := by
        simpa [hasResourcesAndMatches, h1, h2] using hbad
      rcases Bool.and_eq_false_iff.mp hb with hb | hb <;> simp [hb]
    | succ j =>
      simp only [List.getElem?_cons_succ] at hi
      have := ih (index + 1) restErrors h3 j resource hi hbad
      have e1 : index + 1 + j = index + (j + 1) := by omega
      rw [e1] at this
      simp [this]

theorem validatePermissions_str_cons (q : String) (rest : List JsVal) :
    validatePermissions (.str q :: rest)
      = match validatePermissions rest with
        | .ok invalid => .ok (if rejectedPermission q then q :: invalid else invalid)
        | .error m => .error m := by
  rw [validatePermissions]
  by_cases hb : q ∈ blockedPermissions
  · have hr : rejectedPermission q = true := by simp [rejectedPermission, hb]
    rw [if_pos hb, hr]
    cases validatePermissions rest <;> rfl
  · have hr : rejectedPermission q
        = (!decide (q ∈ allowedPermissions) && !decide (q ∈ dangerousPermissions)
            && !(strIncludes q "://" || startsWith q "<all_urls>")) := by
      simp [rejectedPermission, hostPermissionTest, hb]
    rw [if_neg hb, hr]
    simp only [bind, Except.bind, pure, Except.pure]
    generalize (!decide (q ∈ allowedPermissions) && !decide (q ∈ dangerousPermissions)
            && !(strIncludes q "://" || startsWith q "<all_urls>")) = c
    cases validatePermissions rest <;> cases c <;> rfl

theorem validatePermissions_inv (items : List JsVal) :
    ∀ (invalid : List String), validatePermissions items = .ok invalid →
      ∀ p, JsVal.str p ∈ items → rejectedPermission p = true → p ∈ invalid := by
  induction items with
  | nil => intro invalid _ p hp; simp at hp
  | cons first rest ih =>
    intro invalid h p hp hrej
    cases first with
    | str q =>
      rw [validatePermissions_str_cons] at h
      rcases hrest : validatePermissions rest with m | restInvalid
      · simp [hrest] at h
      simp only [hrest, Except.ok.injEq] at h
      subst h
      rcases List.mem_cons.mp hp with hpq | hpr
      · have : p = q := by simpa using hpq
        subst this
        simp [hrej]
      · have := ih restInvalid hrest p hpr hrej
        split <;> simp [this]
    | undefined | null | bool _ | num _ | arr _ | obj _ =>
      rw [validatePermissions] at h
      · simp only [bind, Except.bind] at h
        split at h
        · simp at h
        · rcases List.mem_cons.mp hp with hpq | hpr
          · simp at hpq
          · exact ih invalid h p hpr hrej
      all_goals (intro q hq; simp at hq)

theorem nameErrors_mem (manifest : JsVal) (e : List String) (v : JsVal)
    (h : nameErrors manifest = .ok e) (hv : manifest.getProp "name" = .ok v)
    (hbad : v.truthy = false ∨ v.isString = false) :
    "Extension name is required and must be a string" ∈ e := by
  unfold nameErrors at h
  rw [hv] at h
  have hc : (!v.truthy || !v.isString) = true := by rcases hbad with hb | hb <;> simp [hb]
  simp [bind, Except.bind, pure, Except.pure, hc] at h
  simp [← h]

theorem versionErrors_mem (manifest : JsVal) (e : List String) (v : JsVal)
    (h : versionErrors manifest = .ok e) (hv : manifest.getProp "version" = .ok v)
    (hbad : v.truthy = false ∨ v.isString = false) :
    "Extension version is required and must be a string" ∈ e := by
  unfold versionErrors at h
  rw [hv] at h
  have hc : (!v.truthy || !v.isString) = true := by rcases hbad with hb | hb <;> simp [hb]
  simp [bind, Except.bind, pure, Except.pure, hc] at h
  simp [← h]

theorem manifestVersionErrors_mem (manifest : JsVal) (e : List String) (v : JsVal)
    (h : manifestVersionErrors manifest = .ok e)
    (hv : manifest.getProp "manifest_version" = .ok v)
    (h2 : v.isNum 2 = false) (h3 : v.isNum 3 = false) :
    "Manifest version must be 2 or 3" ∈ e := by
  unfold manifestVersionErrors at h
  rw [hv] at h
  simp [bind, Except.bind, pure, Except.pure, h2, h3] at h
  simp [← h]

theorem permissionsErrors_mem (manifest : JsVal) (e : List String) (items : List JsVal)
    (p : String) (h : permissionsErrors manifest = .ok e)
    (hv : manifest.getProp "permissions" = .ok (.arr items)) (hp : JsVal.str p ∈ items)
    (hrej : rejectedPermission p = true) : ∃ message ∈ e, strIncludes message p = true := by
  unfold permissionsErrors at h
  rw [hv] at h
  simp only [bind, Except.bind, pure, Except.pure, JsVal.truthy, ↓reduceIte] at h
  rcases hvp : validatePermissions items with m | invalid
  · simp [hvp] at h
  have hmem := validatePermissions_inv items invalid hvp p hp hrej
  have hpos := List.length_pos_of_mem hmem
  simp only [hvp, gt_iff_lt, hpos, ↓reduceIte, Except.ok.injEq] at h
  refine ⟨_, by rw [← h]; exact List.mem_singleton_self _, ?_⟩
  obtain ⟨pre, post, hpp⟩ := mem_joinStrings ", " invalid p hmem
  apply (strIncludes_iff _ _).mpr
  rw [String.data_append]
  exact ⟨"Invalid permissions: ".data ++ pre, post, by
    simp only [← hpp, List.append_assoc]⟩

theorem contentScriptsErrors_mem (manifest : JsVal) (e : List String) (v : JsVal)
    (h : contentScriptsErrors manifest = .ok e)
    (hv : manifest.getProp "content_scripts" = .ok v) (ht : v.truthy = true)
    (ha : v.isArray = false) : "Content scripts must be an array" ∈ e := by
  unfold contentScriptsErrors at h
  rw [hv] at h
  cases v <;> simp [JsVal.isArray] at ha <;>
    simp [bind, Except.bind, pure, Except.pure, ht] at h <;> simp [← h]

theorem webAccessibleResourcesErrors_mem (manifest : JsVal) (e : List String)
    (v version : JsVal) (h : webAccessibleResourcesErrors manifest = .ok e)
    (hv : manifest.getProp "web_accessible_resources" = .ok v) (ht : v.truthy = true)
    (ha : v.isArray = false) (hmv : manifest.getProp "manifest_version" = .ok version) :
    (version.isNum 2 = true → "Web accessible resources must be an array in manifest v2" ∈ e)
      ∧ (version.isNum 3 = true →
          "Web accessible resources must be an array in manifest v3" ∈ e) := by
  unfold webAccessibleResourcesErrors at h
  rw [hv] at h
  simp only [bind, Except.bind, pure, Except.pure, ht, ↓reduceIte, hmv] at h
  constructor
  · intro h2
    simp [h2, ha] at h
    simp [← h]
  · intro h3
    have h2 : version.isNum 2 = false := by
      cases version <;> simp [JsVal.isNum] at h3 ⊢
      subst h3
      decide
    cases v <;> simp [JsVal.isArray] at ha <;> simp [h2, h3] at h <;> simp [← h]

theorem webAccessibleResourcesErrors_arr (manifest : JsVal) (items : List JsVal)
    (hv : manifest.getProp "web_accessible_resources" = .ok (.arr items))
    (hmv : manifest.getProp "manifest_version" = .ok (.num 3)) :
    webAccessibleResourcesErrors manifest = webResourceErrors 0 items := by
  unfold webAccessibleResourcesErrors
  rw [hv]
  simp only [bind, Except.bind, pure, Except.pure, hmv]
  rfl

/-- C15, as amended. Whatever the manifest and the package directory, the result
either is the one error of the `catch` block, a check having thrown, or has
in its error list the error of every rule that is broken, all of them and
not the first only. -/
theorem validateManifest_full_list (manifest : JsVal) (pkg : FsNode) :
    (∃ m, (validateManifest manifest pkg).errors = ["Manifest validation failed: " ++ m])
      ∨ reportsEveryRule manifest pkg (validateManifest manifest pkg).errors := by
  rcases hbody : validateManifestBody manifest pkg with m | r
  · left
    rw [validateManifest_of_body_error manifest pkg m hbody]
    exact ⟨m, rfl⟩
  · right
    obtain ⟨e1, e2, e3, e4, e5, w, e6, p, d, h1, h2, h3, h4, h5, -, h7, -, -, herr, -⟩ :=
      validateManifestBody_inv manifest pkg r hbody
    rw [validateManifest_of_body_ok manifest pkg r hbody, herr]
    refine ⟨?_, ?_, ?_, ?_, ?_, ?_, ?_, ?_, ?_, ?_⟩
    · intro v hv hbad
      simp [nameErrors_mem manifest e1 v h1 hv hbad]
    · intro v hv hbad
      simp [versionErrors_mem manifest e2 v h2 hv hbad]
    · intro v hv hv2 hv3
      simp [manifestVersionErrors_mem manifest e3 v h3 hv hv2 hv3]
    · intro items q hv hq hrej
      obtain ⟨message, hmem, hinc⟩ := permissionsErrors_mem manifest e4 items q h4 hv hq hrej
      exact ⟨message, by simp [hmem], hinc⟩
    · intro v hv ht ha
      simp [contentScriptsErrors_mem manifest e5 v h5 hv ht ha]
    · intro scripts i script hv hi
      rw [contentScriptsErrors_arr manifest scripts hv] at h5
      have hinv := contentScriptErrors_inv scripts 0 e5 h5 i script hi
      rw [Nat.zero_add] at hinv
      exact ⟨fun hm => by simp [hinv.1 hm], fun hf => by simp [hinv.2 hf]⟩
    · intro v version hv ht ha hmv
      have := webAccessibleResourcesErrors_mem manifest e6 v version h7 hv ht ha hmv
      exact ⟨fun hv2 => by simp [this.1 hv2], fun hv3 => by simp [this.2 hv3]⟩
    · intro items i resource hv hmv hi hbad
      rw [webAccessibleResourcesErrors_arr manifest items hv hmv] at h7
      have hinv := webResourceErrors_inv items 0 e6 h7 i resource hi hbad
      rw [Nat.zero_add] at hinv
      simp [hinv]
    · intro hsize
      have : sizeErrors pkg = ["Extension size (" ++ toString (calculateDirectorySize pkg)
          ++ " bytes) exceeds maximum allowed size"] := by
        unfold sizeErrors
        simp only [hsize, ↓reduceIte]
      simp [this]
    · intro hcount
      have : fileCountErrors pkg = ["Extension has too many files ("
          ++ toString (countFiles pkg) ++ "), maximum allowed is "
          ++ toString maxFileCount] := by
        unfold fileCountErrors
        simp only [hcount, ↓reduceIte]
      simp [this]

/-- C15, as the claim states it, fails. The manifest has no name and a `null`
content script: reading `matches` throws, and the errors are the one error of
the `catch` block, without the error of the name. -/
theorem validateManifest_name_error_lost :
    JsVal.getProp
        (.obj [("version", .str "1.0"), ("manifest_version", .num 3),
          ("content_scripts", .arr [.null])]) "name" = .ok .undefined
      ∧ (validateManifest
          (.obj [("version", .str "1.0"), ("manifest_version", .num 3),
            ("content_scripts", .arr [.null])])
          (.dir .nil)).errors
        = ["Manifest validation failed: Cannot read properties of null (reading 'matches')"]
      ∧ "Extension name is required and must be a string"
        ∉ (validateManifest
          (.obj [("version", .str "1.0"), ("manifest_version", .num 3),
            ("content_scripts", .arr [.null])])
          (.dir .nil)).errors := by
  refine ⟨rfl, by decide, by decide⟩

/-- The example of C15: a manifest without a name whose `permissions` is the
string `tabs`. Both errors are pushed, and then `permissions.filter` throws in
`getDangerousPermissions`: the errors are the one error of the `catch` block,
and `Permissions must be an array` is not among them. -/
theorem validateManifest_permissions_not_array :
    nameErrors (.obj [("version", .str "1.0"), ("manifest_version", .num 3),
        ("permissions", .str "tabs")])
      = .ok ["Extension name is required and must be a string"]
      ∧ permissionsErrors (.obj [("version", .str "1.0"), ("manifest_version", .num 3),
          ("permissions", .str "tabs")])
        = .ok ["Permissions must be an array"]
      ∧ (validateManifest
          (.obj [("version", .str "1.0"), ("manifest_version", .num 3),
            ("permissions", .str "tabs")])
          (.dir .nil)).errors
        = ["Manifest validation failed: permissions.filter is not a function"] := by
  refine ⟨rfl, rfl, by decide⟩

/-- The error `Permissions must be an array` is never in a result: a manifest
whose `permissions` is truthy and not an array makes `getDangerousPermissions`
throw. -/
theorem validateManifest_never_permissions_array_error (manifest : JsVal) (pkg : FsNode)
    (v : JsVal) (hv : manifest.getProp "permissions" = .ok v) (ht : v.truthy = true)
    (ha : v.isArray = false) :
    ∃ m, (validateManifest manifest pkg).errors = ["Manifest validation failed: " ++ m] := by
  rcases hbody : validateManifestBody manifest pkg with m | r
  · rw [validateManifest_of_body_error manifest pkg m hbody]
    exact ⟨m, rfl⟩
  · obtain ⟨e1, e2, e3, e4, e5, w, e6, p, d, -, -, -, -, -, -, -, h8, h9, -⟩ :=
      validateManifestBody_inv manifest pkg r hbody
    rw [hv] at h8
    injection h8 with h8
    subst h8
    rw [if_pos ht] at h9
    cases v <;> simp [JsVal.isArray, JsVal.truthy, getDangerousPermissions] at ha ht h9

/-! ## The permission broker -/

theorem mapGet_mapSet_same {α : Type} (map : List (String × α)) (key : String) (value : α) :
    mapGet (mapSet map key value) key = some value := by
  induction map with
  | nil => simp [mapSet, mapGet]
  | cons entry rest ih =>
    obtain ⟨k, v⟩ := entry
    by_cases hk : k = key
    · simp [mapSet, mapGet, hk]
    · simp [mapSet, mapGet, hk, ih]

theorem mapGet_mapSet_ne {α : Type} (map : List (String × α)) (key other : String) (value : α)
    (h : other ≠ key) : mapGet (mapSet map key value) other = mapGet map other := by
  induction map with
  | nil => simp [mapSet, mapGet, Ne.symm h]
  | cons entry rest ih =>
    obtain ⟨k, v⟩ := entry
    by_cases hk : k = key
    · subst hk
      simp [mapSet, mapGet, Ne.symm h]
    · by_cases ho : k = other
      · subst ho
        simp [mapSet, mapGet, hk]
      · simp [mapSet, mapGet, hk, ho, ih]

theorem mapGet_mapDelete_same {α : Type} (map : List (String × α)) (key : String) :
    mapGet (mapDelete map key) key = none := by
  induction map with
  | nil => simp [mapDelete, mapGet]
  | cons entry rest ih =>
    obtain ⟨k, v⟩ := entry
    by_cases hk : k = key
    · simpa [mapDelete, List.filter_cons, hk] using ih
    · have : mapDelete ((k, v) :: rest) key = (k, v) :: mapDelete rest key := by
        simp [mapDelete, List.filter_cons, hk]
      rw [this]
      simp [mapGet, hk, ih]

theorem mapGet_mapDelete_ne {α : Type} (map : List (String × α)) (key other : String)
    (h : other ≠ key) : mapGet (mapDelete map key) other = mapGet map other := by
  induction map with
  | nil => simp [mapDelete, mapGet]
  | cons entry rest ih =>
    obtain ⟨k, v⟩ := entry
    by_cases hk : k = key
    · have hd : mapDelete ((k, v) :: rest) key = mapDelete rest key := by
        simp [mapDelete, List.filter_cons, hk]
      have ho : ¬ k = other := by rw [hk]; exact Ne.symm h
      rw [hd, ih]
      simp [mapGet, ho]
    · have hd : mapDelete ((k, v) :: rest) key = (k, v) :: mapDelete rest key := by
        simp [mapDelete, List.filter_cons, hk]
      rw [hd]
      by_cases ho : k = other
      · simp [mapGet, ho]
      · simp [mapGet, ho, ih]

theorem mapSet_fresh {α : Type} (map : List (String × α)) (key : String) (value : α)
    (h : mapGet map key = none) : mapSet map key value = map ++ [(key, value)] := by
  induction map with
  | nil => rfl
  | cons entry rest ih =>
    obtain ⟨k, v⟩ := entry
    by_cases hk : k = key
    · simp [mapGet, hk] at h
    · simp only [mapGet, hk, ↓reduceIte] at h
      simp [mapSet, hk, ih h]

theorem mem_foldl_setAdd (values : List String) :
    ∀ (set : List String) (x : String), x ∈ values.foldl setAdd set ↔ x ∈ set ∨ x ∈ values := by
  induction values with
  | nil => intro set x; simp
  | cons value rest ih =>
    intro set x
    rw [List.foldl_cons, ih]
    unfold setAdd
    by_cases hv : value ∈ set
    · simp only [hv, ↓reduceIte, List.mem_cons]
      constructor
      · rintro (h | h)
        · exact Or.inl h
        · exact Or.inr (Or.inr h)
      · rintro (h | h | h)
        · exact Or.inl h
        · exact Or.inl (h ▸ hv)
        · exact Or.inr h
    · simp only [hv, ↓reduceIte, List.mem_append, List.mem_singleton, List.mem_cons]
      tauto

theorem mem_foldl_setDelete (values : List String) :
    ∀ (set : List String) (x : String),
      x ∈ values.foldl setDelete set ↔ x ∈ set ∧ x ∉ values := by
  induction values with
  | nil => intro set x; simp
  | cons value rest ih =>
    intro set x
    rw [List.foldl_cons, ih]
    unfold setDelete
    simp only [List.mem_filter, decide_eq_true_eq, List.mem_cons, not_or]
    tauto

theorem dangerousAmong_eq_nil (permissions : List String) :
    dangerousAmong permissions = [] ↔ ∀ p ∈ permissions, p ∉ dangerousPermissions := by
  unfold dangerousAmong
  rw [List.filter_eq_nil_iff]
  simp

theorem requestPermissions_safe (broker : Broker) (extensionId : String)
    (permissions : List String) (userCallback : Callback) (requestId : String) (now : Int)
    (h : ∀ p ∈ permissions, p ∉ dangerousPermissions) :
    requestPermissions broker extensionId permissions userCallback requestId now
      = (.granted permissions, grantPermissions broker extensionId permissions) := by
  unfold requestPermissions
  simp [(dangerousAmong_eq_nil permissions).mpr h]

theorem requestPermissions_dangerous (broker : Broker) (extensionId : String)
    (permissions : List String) (userCallback : Callback) (requestId : String) (now : Int)
    (h : ∃ p ∈ permissions, p ∈ dangerousPermissions) :
    requestPermissions broker extensionId permissions userCallback requestId now
      = (.consentRequired requestId (dangerousAmong permissions)
            "User consent required for dangerous permissions",
          { broker with
            permissionRequests :=
              mapSet broker.permissionRequests requestId
                { extensionId := extensionId
                  permissions := dangerousAmong permissions
                  callback := userCallback
                  timestamp := now } }) := by
  have hne : dangerousAmong permissions ≠ [] := by
    rw [ne_eq, dangerousAmong_eq_nil]
    obtain ⟨p, hp, hd⟩ := h
    exact fun hall => hall p hp hd
  have hlen : ¬ (dangerousAmong permissions).length = 0 := by
    rw [List.length_eq_zero]
    exact hne
  unfold requestPermissions
  simp only [hlen, ↓reduceIte]

theorem hasPermission_grantPermissions (broker : Broker) (extensionId : String)
    (permissions : List String) (p : String) (hp : p ∈ permissions) :
    hasPermission (grantPermissions broker extensionId permissions) extensionId p = true := by
  unfold hasPermission grantPermissions
  simp only [mapGet_mapSet_same, decide_eq_true_eq]
  exact (mem_foldl_setAdd permissions _ p).mpr (Or.inr hp)

/-- C16, as amended. When no requested permission is in the dangerous list, the
call returns `granted: true` with the requested permissions, and each of
them is then in the granted set of the package; when one is in the dangerous
list, the call grants nothing: the granted sets are what they were. -/
theorem requestPermissions_grants (broker : Broker) (extensionId : String)
    (permissions : List String) (userCallback : Callback) (requestId : String) (now : Int) :
    ((∀ p ∈ permissions, p ∉ dangerousPermissions) →
        (requestPermissions broker extensionId permissions userCallback requestId now).1
          = .granted permissions
        ∧ ∀ p ∈ permissions,
            hasPermission
              (requestPermissions broker extensionId permissions userCallback requestId now).2
              extensionId p = true)
      ∧ ((∃ p ∈ permissions, p ∈ dangerousPermissions) →
        (requestPermissions broker extensionId permissions userCallback requestId now).2.grantedPermissions = broker.grantedPermissions
        ∧ ∀ id p,
            hasPermission
              (requestPermissions broker extensionId permissions userCallback requestId now).2
              id p = hasPermission broker id p) := by
  constructor
  · intro h
    rw [requestPermissions_safe broker extensionId permissions userCallback requestId now h]
    exact ⟨rfl, fun p hp => hasPermission_grantPermissions broker extensionId permissions p hp⟩
  · intro h
    rw [requestPermissions_dangerous broker extensionId permissions userCallback requestId now h]
    exact ⟨rfl, fun _ _ => rfl⟩

/-- C16, as the claim states it, fails. The request asks for `storage`, which is
not in the dangerous list, and for `webRequest`, which is: the call grants
nothing, and `hasPermission` is false for `storage`. -/
theorem requestPermissions_mixed_grants_nothing :
    "storage" ∉ dangerousPermissions
      ∧ (requestPermissions emptyBroker "ext" ["storage", "webRequest"] 0 "r1" 1000).1
          = .consentRequired "r1" ["webRequest"]
              "User consent required for dangerous permissions"
      ∧ hasPermission
          (requestPermissions emptyBroker "ext" ["storage", "webRequest"] 0 "r1" 1000).2
          "ext" "storage" = false := by
  decide

/-- C17. A request with a permission of the dangerous list, the request id being
one that is not in the table of pending requests: the call returns
`granted: false` with the request id and the dangerous permissions of the
request, in order; the granted sets are what they were; and the table of
pending requests is the old one followed by one entry, under the request id,
with the package id, the dangerous permissions, the callback and the time. -/
theorem requestPermissions_pending (broker : Broker) (extensionId : String)
    (permissions : List String) (userCallback : Callback) (requestId : String) (now : Int)
    (hdangerous : ∃ p ∈ permissions, p ∈ dangerousPermissions)
    (hfresh : mapGet broker.permissionRequests requestId = none) :
    (requestPermissions broker extensionId permissions userCallback requestId now).1
        = .consentRequired requestId
            (permissions.filter fun p => decide (p ∈ dangerousPermissions))
            "User consent required for dangerous permissions"
      ∧ (requestPermissions broker extensionId permissions userCallback requestId now).2.grantedPermissions = broker.grantedPermissions
      ∧ (∀ p, hasPermission
            (requestPermissions broker extensionId permissions userCallback requestId now).2
            extensionId p = hasPermission broker extensionId p)
      ∧ (requestPermissions broker extensionId permissions userCallback requestId now).2.permissionRequests
          = broker.permissionRequests
              ++ [(requestId,
                  { extensionId := extensionId
                    permissions := permissions.filter fun p => decide (p ∈ dangerousPermissions)
                    callback := userCallback
                    timestamp := now })] := by
  rw [requestPermissions_dangerous broker extensionId permissions userCallback requestId now
    hdangerous]
  refine ⟨rfl, rfl, fun _ => rfl, ?_⟩
  exact mapSet_fresh _ _ _ hfresh

/-- A witness for C17: a request for `tabs` and `proxy` with one request pending. -/
theorem requestPermissions_pending_witness :
    (requestPermissions
        { permissionRequests := [("r0", ⟨"other", ["debugger"], 0, 500⟩)]
          grantedPermissions := [("ext", ["storage"])] }
        "ext" ["tabs", "proxy"] 7 "r1" 1000).2.permissionRequests
      = [("r0", ⟨"other", ["debugger"], 0, 500⟩), ("r1", ⟨"ext", ["proxy"], 7, 1000⟩)] :=
  (requestPermissions_pending
    { permissionRequests := [("r0", ⟨"other", ["debugger"], 0, 500⟩)]
      grantedPermissions := [("ext", ["storage"])] }
    "ext" ["tabs", "proxy"] 7 "r1" 1000 ⟨"proxy", by decide, by decide⟩ (by decide)).2.2.2

/-- C18, at the failing input. On a broker with nothing granted, a request for
`system.cpu`, which is in the blocked list and not in the dangerous one, is
granted at once. -/
theorem requestPermissions_grants_blocked :
    "system.cpu" ∈ blockedPermissions
      ∧ (∀ id b, b ∈ blockedPermissions → hasPermission emptyBroker id b = false)
      ∧ (requestPermissions emptyBroker "ext" ["system.cpu"] 0 "r1" 1000).1
          = .granted ["system.cpu"]
      ∧ hasPermission (requestPermissions emptyBroker "ext" ["system.cpu"] 0 "r1" 1000).2
          "ext" "system.cpu" = true := by
  refine ⟨by decide, fun _ _ _ => rfl, by decide, by decide⟩

/-- C19. After `revokePermissions(id, perms)`: `hasPermission(id, p)` is false
for every `p` of `perms`, and for every `p` at all when `perms` is left out;
`hasPermission` is what it was for every other package, and for the
permissions of `id` that are not in `perms`; the pending requests are what
they were. -/
theorem revokePermissions_frame (broker : Broker) (extensionId : String)
    (permissions : Option (List String)) :
    (∀ p, (permissions = none ∨ ∃ list, permissions = some list ∧ p ∈ list) →
        hasPermission (revokePermissions broker extensionId permissions) extensionId p = false)
      ∧ (∀ other q, other ≠ extensionId →
          hasPermission (revokePermissions broker extensionId permissions) other q
            = hasPermission broker other q)
      ∧ (∀ list q, permissions = some list → q ∉ list →
          hasPermission (revokePermissions broker extensionId permissions) extensionId q
            = hasPermission broker extensionId q)
      ∧ (revokePermissions broker extensionId permissions).permissionRequests
          = broker.permissionRequests := by
  cases permissions with
  | none =>
    refine ⟨?_, ?_, ?_, rfl⟩
    · intro p _
      simp [revokePermissions, hasPermission, mapGet_mapDelete_same]
    · intro other q hne
      simp [revokePermissions, hasPermission, mapGet_mapDelete_ne _ _ _ hne]
    · intro list q h
      simp at h
  | some list =>
    rcases hget : mapGet broker.grantedPermissions extensionId with _ | set
    · refine ⟨?_, ?_, ?_, ?_⟩
      · intro p _
        simp [revokePermissions, hasPermission, hget]
      · intro other q _
        simp [revokePermissions, hget]
      · intro l q _ _
        simp [revokePermissions, hget]
      · simp [revokePermissions, hget]
    · refine ⟨?_, ?_, ?_, ?_⟩
      · intro p hp
        rcases hp with hp | ⟨l, hl, hp⟩
        · simp at hp
        · simp only [Option.some.injEq] at hl
          subst hl
          simp only [revokePermissions, hget, hasPermission, mapGet_mapSet_same,
            decide_eq_false_iff_not]
          rw [mem_foldl_setDelete]
          exact fun h => h.2 hp
      · intro other q hne
        simp [revokePermissions, hget, hasPermission, mapGet_mapSet_ne _ _ _ _ hne]
      · intro l q hl hq
        simp only [Option.some.injEq] at hl
        subst hl
        simp only [revokePermissions, hget, hasPermission, mapGet_mapSet_same]
        congr 1
        rw [mem_foldl_setDelete]
        exact propext ⟨fun h => h.1, fun h => ⟨h, hq⟩⟩
      · simp [revokePermissions, hget]

theorem cleanup_foldl (now : Int) (entries : List (String × PermissionRequest)) :
    ∀ table : List (String × PermissionRequest),
      entries.foldl
          (fun table entry => if expired now entry.2 then mapDelete table entry.1 else table)
          table
        = table.filter fun e =>
            !(entries.any fun entry => decide (entry.1 = e.1) && expired now entry.2) := by
  induction entries with
  | nil => intro table; simp
  | cons entry rest ih =>
    intro table
    rw [List.foldl_cons, ih]
    by_cases he : expired now entry.2 = true
    · simp only [he, ↓reduceIte, mapDelete, List.filter_filter]
      apply List.filter_congr
      intro e _
      by_cases hk : entry.1 = e.1
      · have hk' : ¬ e.1 ≠ entry.1 := by rw [hk]; simp
        simp [hk, he]
      · have hk' : e.1 ≠ entry.1 := fun h => hk h.symm
        simp [hk, hk']
    · simp only [he]
      apply List.filter_congr
      intro e _
      simp [he]

/-- C20. On a table of pending requests in which no request id occurs twice,
`cleanupExpiredRequests` leaves exactly the requests with
`now - timestamp > 300000` out, keeps every other request as it is and in its
place, and does not touch the granted sets. -/
theorem cleanupExpiredRequests_removes (broker : Broker) (now : Int)
    (hkeys : (broker.permissionRequests.map Prod.fst).Nodup) :
    (cleanupExpiredRequests broker now).permissionRequests
        = broker.permissionRequests.filter
            (fun e => !decide (now - e.2.timestamp > 300000))
      ∧ (∀ e, e ∈ (cleanupExpiredRequests broker now).permissionRequests
          ↔ e ∈ broker.permissionRequests ∧ ¬ now - e.2.timestamp > 300000)
      ∧ (cleanupExpiredRequests broker now).grantedPermissions = broker.grantedPermissions
      ∧ (∀ id p, hasPermission (cleanupExpiredRequests broker now) id p
          = hasPermission broker id p) := by
  have hfilter : (cleanupExpiredRequests broker now).permissionRequests
      = broker.permissionRequests.filter
          (fun e => !decide (now - e.2.timestamp > 300000)) := by
    unfold cleanupExpiredRequests
    simp only
    rw [cleanup_foldl]
    apply List.filter_congr
    intro e he
    congr 1
    have hiff : (broker.permissionRequests.any fun entry =>
        decide (entry.1 = e.1) && expired now entry.2) = true ↔ expired now e.2 = true := by
      rw [List.any_eq_true]
      constructor
      · rintro ⟨entry, hmem, hcond⟩
        rw [Bool.and_eq_true, decide_eq_true_eq] at hcond
        have := List.inj_on_of_nodup_map hkeys hmem he hcond.1
        rw [← this]
        exact hcond.2
      · intro hexp
        exact ⟨e, he, by simp [hexp]⟩
    have hexp : expired now e.2 = decide (now - e.2.timestamp > 300000) := by
      unfold expired expiredTime
      rfl
    rw [← hexp]
    exact Bool.eq_iff_iff.mpr hiff
  refine ⟨hfilter, ?_, rfl, fun _ _ => rfl⟩
  intro e
  rw [hfilter, List.mem_filter]
  simp

/-- A witness for C20: of three requests the first is older than five minutes,
the second is exactly five minutes old and the third is newer. -/
theorem cleanupExpiredRequests_removes_witness :
    (cleanupExpiredRequests
        { permissionRequests :=
            [("r0", ⟨"a", ["proxy"], 0, 1000⟩), ("r1", ⟨"b", ["debugger"], 1, 100000⟩),
              ("r2", ⟨"a", ["privacy"], 2, 300000⟩)]
          grantedPermissions := [("a", ["storage"])] }
        400000).permissionRequests
      = [("r1", ⟨"b", ["debugger"], 1, 100000⟩), ("r2", ⟨"a", ["privacy"], 2, 300000⟩)] :=
  (cleanupExpiredRequests_removes
    { permissionRequests :=
        [("r0", ⟨"a", ["proxy"], 0, 1000⟩), ("r1", ⟨"b", ["debugger"], 1, 100000⟩),
          ("r2", ⟨"a", ["privacy"], 2, 300000⟩)]
      grantedPermissions := [("a", ["storage"])] }
    400000 (by decide)).1

/-! ## The catalog client -/

/-- C25, at the failing input. The identifier of the detail URL is in capitals,
and the match of the pattern is returned as it stands, in capitals, with a
name segment before it or without; only a bare identifier is put in lower
case. -/
theorem extractExtensionId_keeps_case :
    extractExtensionId
        "https://chrome.google.com/webstore/detail/ABCDEFGHIJKLMNOPQRSTUVWXYZABCDEF"
      = some "ABCDEFGHIJKLMNOPQRSTUVWXYZABCDEF"
    ∧ extractExtensionId
        "https://chrome.google.com/webstore/detail/some-name/ABCDEFGHIJKLMNOPQRSTUVWXYZABCDEF"
      = some "ABCDEFGHIJKLMNOPQRSTUVWXYZABCDEF"
    ∧ extractExtensionId "ABCDEFGHIJKLMNOPQRSTUVWXYZABCDEF"
      = some "abcdefghijklmnopqrstuvwxyzabcdef" := by
  refine ⟨by decide, by decide, by decide⟩

/-- C26, at the failing input. The identifier segment of the detail URL has 33
letters, and the first 32 of them are returned as the identifier: the
pattern does not ask for the end of the segment after the 32 letters. -/
theorem extractExtensionId_truncates :
    extractExtensionId
        "https://chrome.google.com/webstore/detail/abcdefghijklmnopqrstuvwxyzabcdefg"
      = some "abcdefghijklmnopqrstuvwxyzabcdef"
    ∧ isBareId "abcdefghijklmnopqrstuvwxyzabcdefg" = false := by
  refine ⟨by decide, by decide⟩

theorem orElse_empty (b : String) : orElse "" b = b := by
  simp [orElse]

theorem webStoreInstall_of_metadata_error (webStoreUrl tempDir : String)
    (fetched : Except String HttpResponse) (downloaded : Except String Unit)
    (h : ∀ id, ∃ message, fetchExtensionMetadata id fetched = .error message) :
    (webStoreInstall webStoreUrl tempDir fetched downloaded).isSuccess = false := by
  unfold webStoreInstall
  simp only [bind, Except.bind, pure, Except.pure, throw, throwThe, MonadExceptOf.throw]
  rcases extractExtensionId webStoreUrl with _ | id
  · rfl
  · by_cases hid : id ≠ ""
    · obtain ⟨message, hm⟩ := h id
      dsimp only
      rw [if_pos hid]
      simp only [hm]
      rfl
    · dsimp only
      rw [if_neg hid]
      rfl

theorem fetchExtensionMetadata_not_ok (extensionId : String) (response : HttpResponse)
    (h : response.ok = false) :
    fetchExtensionMetadata extensionId (.ok response)
      = .error ("Failed to fetch extension metadata: Failed to fetch extension page: "
          ++ toString response.status ++ " " ++ response.statusText) := by
  have hcat : "Failed to fetch extension metadata: " ++ "Failed to fetch extension page: "
      = "Failed to fetch extension metadata: Failed to fetch extension page: " := by decide
  unfold fetchExtensionMetadata
  simp only [bind, Except.bind, h, tryCatch, throw, throwThe, MonadExceptOf.throw,
    Bool.not_false, ↓reduceIte]
  rw [← hcat]
  simp only [String.append_assoc]

theorem fetchExtensionMetadata_ok (extensionId : String) (response : HttpResponse)
    (h : response.ok = true) :
    fetchExtensionMetadata extensionId (.ok response)
      = .ok { id := extensionId
              name := orElse (response.page.text "h1.e-f-w")
                (orElse (response.page.text "[data-g-label=\"Extension name\"]")
                  "Unknown Extension")
              description := orElse (response.page.text ".C-b-p-j-Pb")
                (orElse (response.page.text "[data-g-label=\"Extension description\"]")
                  "No description available")
              version := orElse (response.page.text ".C-b-p-j-Pb-Oa")
                (orElse (response.page.text "[data-g-label=\"Extension version\"]") "1.0.0")
              developer := orElse (response.page.text ".e-f-Me")
                (orElse (response.page.text "[data-g-label=\"Extension developer\"]")
                  "Unknown Developer")
              rating := (attrOr (response.page.attr ".rsw-stars" "title")
                (some "No rating")).getD "No rating"
              userCount := orElse (response.page.text ".e-f-ih") "0 users"
              iconUrl :=
                match attrOr (response.page.attr "img.e-f-s" "src")
                    (attrOr (response.page.attr ".webstore-test-wall-tile img" "src") none) with
                | some icon => if startsWith icon "//" then some ("https:" ++ icon) else some icon
                | none => none
              webStoreUrl := baseUrl ++ "/" ++ extensionId } := by
  unfold fetchExtensionMetadata
  simp only [bind, Except.bind, pure, Except.pure, h, Bool.not_true, Bool.false_eq_true,
    ↓reduceIte, tryCatch]

theorem fetchExtensionMetadata_rejected (extensionId message : String) :
    fetchExtensionMetadata extensionId (.error message)
      = .error ("Failed to fetch extension metadata: " ++ message) := by
  unfold fetchExtensionMetadata
  simp [bind, Except.bind, tryCatch]

/-- C27, as amended. For a response with `ok` true, `fetchExtensionMetadata`
returns the metadata, each field that is not scraped holding its fallback
value; for a response with `ok` false, and when the request itself fails, it
throws, and `ChromeWebStore.installFromWebStore` returns `success: false`. -/
theorem fetchExtensionMetadata_fallbacks (extensionId : String) (response : HttpResponse) :
    (response.ok = true →
        ∃ metadata, fetchExtensionMetadata extensionId (.ok response) = .ok metadata
          ∧ metadata.id = extensionId
          ∧ (response.page.text "h1.e-f-w" = "" →
              response.page.text "[data-g-label=\"Extension name\"]" = "" →
              metadata.name = "Unknown Extension")
          ∧ (response.page.text ".C-b-p-j-Pb" = "" →
              response.page.text "[data-g-label=\"Extension description\"]" = "" →
              metadata.description = "No description available")
          ∧ (response.page.text ".C-b-p-j-Pb-Oa" = "" →
              response.page.text "[data-g-label=\"Extension version\"]" = "" →
              metadata.version = "1.0.0")
          ∧ (response.page.text ".e-f-Me" = "" →
              response.page.text "[data-g-label=\"Extension developer\"]" = "" →
              metadata.developer = "Unknown Developer")
          ∧ (response.page.attr ".rsw-stars" "title" = none → metadata.rating = "No rating")
          ∧ (response.page.attr "img.e-f-s" "src" = none →
              response.page.attr ".webstore-test-wall-tile img" "src" = none →
              metadata.iconUrl = none))
      ∧ (response.ok = false →
          fetchExtensionMetadata extensionId (.ok response)
            = .error ("Failed to fetch extension metadata: Failed to fetch extension page: "
                ++ toString response.status ++ " " ++ response.statusText)
          ∧ ∀ webStoreUrl tempDir downloaded,
              (webStoreInstall webStoreUrl tempDir (.ok response) downloaded).isSuccess = false)
      ∧ (∀ message webStoreUrl tempDir downloaded,
          fetchExtensionMetadata extensionId (.error message)
            = .error ("Failed to fetch extension metadata: " ++ message)
          ∧ (webStoreInstall webStoreUrl tempDir (.error message) downloaded).isSuccess
              = false) := by
  refine ⟨?_, ?_, ?_⟩
  · intro hok
    refine ⟨_, fetchExtensionMetadata_ok extensionId response hok, ?_⟩
    · refine ⟨rfl, ?_, ?_, ?_, ?_, ?_, ?_⟩
      · intro h1 h2
        simp only [h1, h2, orElse_empty]
      · intro h1 h2
        simp only [h1, h2, orElse_empty]
      · intro h1 h2
        simp only [h1, h2, orElse_empty]
      · intro h1 h2
        simp only [h1, h2, orElse_empty]
      · intro h1
        simp only [h1, attrOr, Option.getD_some]
      · intro h1 h2
        simp only [h1, h2, attrOr]
  · intro hok
    refine ⟨fetchExtensionMetadata_not_ok extensionId response hok, ?_⟩
    intro webStoreUrl tempDir downloaded
    exact webStoreInstall_of_metadata_error _ _ _ _
      (fun id => ⟨_, fetchExtensionMetadata_not_ok id response hok⟩)
  · intro message webStoreUrl tempDir downloaded
    refine ⟨fetchExtensionMetadata_rejected extensionId message, ?_⟩
    exact webStoreInstall_of_metadata_error _ _ _ _
      (fun id => ⟨_, fetchExtensionMetadata_rejected id message⟩)

/-- C27, as the claim states it, fails. The detail page answers 404, the
download would succeed, and `ChromeWebStore.installFromWebStore` returns
`success: false` with the error of the metadata. -/
theorem webStoreInstall_fails_on_404 :
    webStoreInstall "cjpalhdlnbpafiamejdnhcphjbkeiagm" "/tmp"
        (.ok { ok := false, status := 404, statusText := "Not Found", page := blankPage })
        (.ok ())
      = .failure
          "Failed to fetch extension metadata: Failed to fetch extension page: 404 Not Found"
          ("Installation failed: Failed to fetch extension metadata: "
            ++ "Failed to fetch extension page: 404 Not Found") := by
  decide

/-! ## Sanitizing -/

/-- C30, at the failing input. Each pattern is removed in one pass from the left,
and what is left of the pieces around a match can be the pattern again:
`javajavascript:script:` becomes `javascript:`, and a script element comes
back in the same way. -/
theorem sanitizeExtensionContent_leaves_javascript :
    sanitizeExtensionContent "javajavascript:script:" "html" = "javascript:"
      ∧ sanitizeExtensionContent "<scr<script></script>ipt>alert(1)</script>" "html"
          = "<script>alert(1)</script>" := by
  refine ⟨by decide, by decide⟩

/-- For a content type other than `html` the content is returned as it is. -/
theorem sanitizeExtensionContent_other_type (content contentType : String)
    (h : contentType ≠ "html") : sanitizeExtensionContent content contentType = content := by
  unfold sanitizeExtensionContent
  rw [if_neg h]

/-! ## The registry -/

theorem mem_setAdd (set : List String) (value x : String) :
    x ∈ setAdd set value ↔ x ∈ set ∨ x = value := by
  unfold setAdd
  by_cases h : value ∈ set
  · rw [if_pos h]
    constructor
    · intro hx; exact Or.inl hx
    · rintro (hx | hx)
      · exact hx
      · rw [hx]; exact h
  · rw [if_neg h]
    simp

theorem mem_setDelete (set : List String) (value x : String) :
    x ∈ setDelete set value ↔ x ∈ set ∧ x ≠ value := by
  unfold setDelete
  simp

theorem mapGet_none_iff {α : Type} (map : List (String × α)) (key : String) :
    mapGet map key = none ↔ ∀ entry ∈ map, entry.1 ≠ key := by
  induction map with
  | nil => simp [mapGet]
  | cons entry rest ih =>
    obtain ⟨k, v⟩ := entry
    unfold mapGet
    by_cases hk : k = key
    · simp [hk]
    · simp [hk, ih]

theorem mapDelete_of_none {α : Type} (map : List (String × α)) (key : String)
    (h : mapGet map key = none) : mapDelete map key = map := by
  unfold mapDelete
  rw [List.filter_eq_self]
  intro entry hentry
  simpa using (mapGet_none_iff map key).mp h entry hentry

theorem mapDelete_mapSet_fresh {α : Type} (map : List (String × α)) (key : String) (value : α)
    (h : mapGet map key = none) : mapDelete (mapSet map key value) key = map := by
  rw [mapSet_fresh map key value h]
  have hd := mapDelete_of_none map key h
  unfold mapDelete at hd ⊢
  rw [List.filter_append, hd]
  simp

theorem saveEnabledExtensions_extensions (manager : Manager) (writeFails : Bool) :
    (saveEnabledExtensions manager writeFails).extensions = manager.extensions := by
  unfold saveEnabledExtensions
  cases writeFails <;> rfl

theorem saveEnabledExtensions_enabledExtensions (manager : Manager) (writeFails : Bool) :
    (saveEnabledExtensions manager writeFails).enabledExtensions = manager.enabledExtensions := by
  unfold saveEnabledExtensions
  cases writeFails <;> rfl

theorem saveEnabledExtensions_installed (manager : Manager) (writeFails : Bool) :
    (saveEnabledExtensions manager writeFails).installed = manager.installed := by
  unfold saveEnabledExtensions
  cases writeFails <;> rfl

theorem saveEnabledExtensions_security (manager : Manager) (writeFails : Bool) :
    (saveEnabledExtensions manager writeFails).security = manager.security := by
  unfold saveEnabledExtensions
  cases writeFails <;> rfl

theorem saveEnabledExtensions_tempDir (manager : Manager) (writeFails : Bool) :
    (saveEnabledExtensions manager writeFails).tempDir = manager.tempDir := by
  unfold saveEnabledExtensions
  cases writeFails <;> rfl

theorem enableExtension_of_none (manager : Manager) (extensionId : String) (writeFails : Bool)
    (h : mapGet manager.extensions extensionId = none) :
    enableExtension manager extensionId writeFails
      = (.failure "Extension not found", manager) := by
  unfold enableExtension
  rw [h]

theorem disableExtension_of_none (manager : Manager) (extensionId : String) (writeFails : Bool)
    (h : mapGet manager.extensions extensionId = none) :
    disableExtension manager extensionId writeFails
      = (.failure "Extension not found", manager) := by
  unfold disableExtension
  rw [h]

theorem enableExtension_of_some (manager : Manager) (extensionId : String) (writeFails : Bool)
    (extension : Extension) (h : mapGet manager.extensions extensionId = some extension) :
    enableExtension manager extensionId writeFails
      = (logName extension,
          saveEnabledExtensions
            { manager with
              extensions :=
                mapSet manager.extensions extensionId { extension with enabled := true }
              enabledExtensions := setAdd manager.enabledExtensions extensionId }
            writeFails) := by
  unfold enableExtension
  rw [h]

theorem disableExtension_of_some (manager : Manager) (extensionId : String) (writeFails : Bool)
    (extension : Extension) (h : mapGet manager.extensions extensionId = some extension) :
    disableExtension manager extensionId writeFails
      = (logName extension,
          saveEnabledExtensions
            { manager with
              extensions :=
                mapSet manager.extensions extensionId { extension with enabled := false }
              enabledExtensions := setDelete manager.enabledExtensions extensionId }
            writeFails) := by
  unfold disableExtension
  rw [h]

/-- C24, as amended. For an id with no record, `enableExtension` and
`disableExtension` return the failure `Extension not found` and change
nothing. For an id with a record, the record gets the flag `true`,
respectively `false`, and is otherwise the same; every other record is
unchanged; the id is in the enabled set, respectively out of it, and the
membership of every other id is unchanged; the installed directories, the
broker and the temporary directory are unchanged; the sidecar file lists
exactly the enabled set when the write succeeds and is left as it was when
the write fails; and `disableExtension` followed by `enableExtension` gives
the flag `true`, the id in the enabled set and the granted permissions of
before. -/
theorem enableExtension_disableExtension_frame (manager : Manager) (extensionId : String)
    (writeFails : Bool) :
    (mapGet manager.extensions extensionId = none →
        enableExtension manager extensionId writeFails
            = (.failure "Extension not found", manager)
          ∧ disableExtension manager extensionId writeFails
            = (.failure "Extension not found", manager))
      ∧ (∀ extension enabled disabled back,
          mapGet manager.extensions extensionId = some extension →
          enabled = (enableExtension manager extensionId writeFails).2 →
          disabled = (disableExtension manager extensionId writeFails).2 →
          back = (enableExtension disabled extensionId writeFails).2 →
          mapGet enabled.extensions extensionId = some { extension with enabled := true }
            ∧ mapGet disabled.extensions extensionId = some { extension with enabled := false }
            ∧ (∀ other, other ≠ extensionId →
                mapGet enabled.extensions other = mapGet manager.extensions other
                  ∧ mapGet disabled.extensions other = mapGet manager.extensions other)
            ∧ extensionId ∈ enabled.enabledExtensions
            ∧ extensionId ∉ disabled.enabledExtensions
            ∧ (∀ other, other ≠ extensionId →
                (other ∈ enabled.enabledExtensions ↔ other ∈ manager.enabledExtensions)
                  ∧ (other ∈ disabled.enabledExtensions ↔ other ∈ manager.enabledExtensions))
            ∧ (enabled.installed = manager.installed ∧ disabled.installed = manager.installed)
            ∧ (enabled.security = manager.security ∧ disabled.security = manager.security)
            ∧ (enabled.tempDir = manager.tempDir ∧ disabled.tempDir = manager.tempDir)
            ∧ (writeFails = false →
                enabled.enabledFile = some (.arr (enabled.enabledExtensions.map .str))
                  ∧ disabled.enabledFile = some (.arr (disabled.enabledExtensions.map .str)))
            ∧ (writeFails = true →
                enabled.enabledFile = manager.enabledFile
                  ∧ disabled.enabledFile = manager.enabledFile)
            ∧ mapGet back.extensions extensionId = some { extension with enabled := true }
            ∧ extensionId ∈ back.enabledExtensions
            ∧ back.security.grantedPermissions = manager.security.grantedPermissions) := by
  refine ⟨fun h => ⟨enableExtension_of_none _ _ _ h, disableExtension_of_none _ _ _ h⟩, ?_⟩
  intro extension enabled disabled back hget henabled hdisabled hback
  have hdget : mapGet disabled.extensions extensionId
      = some { extension with enabled := false } := by
    rw [hdisabled, disableExtension_of_some _ _ _ _ hget, saveEnabledExtensions_extensions]
    exact mapGet_mapSet_same _ _ _
  rw [enableExtension_of_some _ _ _ _ hdget] at hback
  rw [enableExtension_of_some _ _ _ _ hget] at henabled
  have hdisabled2 := hdisabled
  rw [disableExtension_of_some _ _ _ _ hget] at hdisabled2
  refine ⟨?_, hdget, ?_, ?_, ?_, ?_, ?_, ?_, ?_, ?_, ?_, ?_, ?_, ?_⟩
  · rw [henabled, saveEnabledExtensions_extensions]
    exact mapGet_mapSet_same _ _ _
  · intro other hother
    constructor
    · rw [henabled, saveEnabledExtensions_extensions]
      exact mapGet_mapSet_ne _ _ _ _ hother
    · rw [hdisabled2, saveEnabledExtensions_extensions]
      exact mapGet_mapSet_ne _ _ _ _ hother
  · rw [henabled, saveEnabledExtensions_enabledExtensions]
    exact (mem_setAdd _ _ _).mpr (Or.inr rfl)
  · rw [hdisabled2, saveEnabledExtensions_enabledExtensions]
    intro hmem
    exact ((mem_setDelete _ _ _).mp hmem).2 rfl
  · intro other hother
    constructor
    · rw [henabled, saveEnabledExtensions_enabledExtensions]
      constructor
      · intro hmem
        rcases (mem_setAdd _ _ _).mp hmem with hm | hm
        · exact hm
        · exact absurd hm hother
      · intro hmem
        exact (mem_setAdd _ _ _).mpr (Or.inl hmem)
    · rw [hdisabled2, saveEnabledExtensions_enabledExtensions]
      constructor
      · intro hmem
        exact ((mem_setDelete _ _ _).mp hmem).1
      · intro hmem
        exact (mem_setDelete _ _ _).mpr ⟨hmem, hother⟩
  · constructor
    · rw [henabled, saveEnabledExtensions_installed]
    · rw [hdisabled2, saveEnabledExtensions_installed]
  · constructor
    · rw [henabled, saveEnabledExtensions_security]
    · rw [hdisabled2, saveEnabledExtensions_security]
  · constructor
    · rw [henabled, saveEnabledExtensions_tempDir]
    · rw [hdisabled2, saveEnabledExtensions_tempDir]
  · intro hw
    constructor
    · rw [henabled, hw]
      rfl
    · rw [hdisabled2, hw]
      rfl
  · intro hw
    constructor
    · rw [henabled, hw]
      rfl
    · rw [hdisabled2, hw]
      rfl
  · rw [hback, saveEnabledExtensions_extensions]
    exact mapGet_mapSet_same _ _ _
  · rw [hback, saveEnabledExtensions_enabledExtensions]
    exact (mem_setAdd _ _ _).mpr (Or.inr rfl)
  · rw [hback, saveEnabledExtensions_security, hdisabled2, saveEnabledExtensions_security]

/-- C24, as the claim states it, fails. The record `a` is not enabled, the sidecar
file is missing and the write of the file fails: `enableExtension` returns
the success, `a` is in the enabled set, and the file is still missing, so it
does not list the enabled set. -/
theorem enableExtension_stale_sidecar :
    (enableExtension
        { extensions :=
            [("a", { id := "a", path := "a",
                     manifest := .obj [("name", .str "A")], enabled := false, apis := [],
                     installDate := none, source := none, webStoreUrl := none,
                     metadata := none })]
          enabledExtensions := []
          installed := [("a", .dir (.cons "manifest.json" (.file 20) .nil))]
          enabledFile := none
          security := emptyBroker
          tempDir := "/temp" } "a" true).1 = .success none
      ∧ (enableExtension
        { extensions :=
            [("a", { id := "a", path := "a",
                     manifest := .obj [("name", .str "A")], enabled := false, apis := [],
                     installDate := none, source := none, webStoreUrl := none,
                     metadata := none })]
          enabledExtensions := []
          installed := [("a", .dir (.cons "manifest.json" (.file 20) .nil))]
          enabledFile := none
          security := emptyBroker
          tempDir := "/temp" } "a" true).2.enabledExtensions = ["a"]
      ∧ (enableExtension
        { extensions :=
            [("a", { id := "a", path := "a",
                     manifest := .obj [("name", .str "A")], enabled := false, apis := [],
                     installDate := none, source := none, webStoreUrl := none,
                     metadata := none })]
          enabledExtensions := []
          installed := [("a", .dir (.cons "manifest.json" (.file 20) .nil))]
          enabledFile := none
          security := emptyBroker
          tempDir := "/temp" } "a" true).2.enabledFile.isNone = true := by
  refine ⟨by decide, by decide, by decide⟩

theorem uninstallExtension_of_none (manager : Manager) (extensionId : String)
    (writeFails : Bool) (rm : RmResult)
    (h : mapGet manager.extensions extensionId = none) :
    uninstallExtension manager extensionId writeFails rm
      = (.failure "Extension not found", manager) := by
  unfold uninstallExtension
  rw [h]

theorem uninstallExtension_failed (manager : Manager) (extensionId : String)
    (writeFails : Bool) (message : String) (left : Option FsNode) (extension : Extension)
    (h : mapGet manager.extensions extensionId = some extension) :
    uninstallExtension manager extensionId writeFails (.failed message left)
      = (.failure message,
          { (if extension.enabled then (disableExtension manager extensionId writeFails).2
              else manager) with
            installed :=
              afterRm
                (if extension.enabled then (disableExtension manager extensionId writeFails).2
                  else manager).installed
                extension.path (.failed message left) }) := by
  unfold uninstallExtension
  rw [h]

theorem uninstallExtension_removed (manager : Manager) (extensionId : String)
    (writeFails : Bool) (extension : Extension)
    (h : mapGet manager.extensions extensionId = some extension) :
    uninstallExtension manager extensionId writeFails .removed
      = (logName extension,
          { (if extension.enabled then (disableExtension manager extensionId writeFails).2
              else manager) with
            installed :=
              afterRm
                (if extension.enabled then (disableExtension manager extensionId writeFails).2
                  else manager).installed
                extension.path .removed
            extensions :=
              mapDelete
                (if extension.enabled then (disableExtension manager extensionId writeFails).2
                  else manager).extensions
                extensionId }) := by
  unfold uninstallExtension
  rw [h]

/-- C21, as amended. When the id has no record, `uninstallExtension` returns the
failure `Extension not found` and the state is what it was. When the
deletion of the directory throws, it returns the failure with the message of
the error and the record is still in the map, every other record unchanged
and the broker unchanged; for a record that was not enabled the map, the
enabled set and the sidecar file are what they were; a record that was
enabled has been disabled first: its flag is `false` and its id is out of
the enabled set. -/
theorem uninstallExtension_failure (manager : Manager) (extensionId : String)
    (writeFails : Bool) :
    (mapGet manager.extensions extensionId = none →
        ∀ rm, uninstallExtension manager extensionId writeFails rm
          = (.failure "Extension not found", manager))
      ∧ (∀ extension message left after,
          mapGet manager.extensions extensionId = some extension →
          after = uninstallExtension manager extensionId writeFails (.failed message left) →
          after.1 = .failure message
            ∧ mapGet after.2.extensions extensionId = some { extension with enabled := false }
            ∧ (∀ other, other ≠ extensionId →
                mapGet after.2.extensions other = mapGet manager.extensions other)
            ∧ after.2.security = manager.security
            ∧ (extension.enabled = false →
                after.2.extensions = manager.extensions
                  ∧ after.2.enabledExtensions = manager.enabledExtensions
                  ∧ after.2.enabledFile = manager.enabledFile)
            ∧ (extension.enabled = true →
                after.2.extensions
                    = mapSet manager.extensions extensionId { extension with enabled := false }
                  ∧ after.2.enabledExtensions
                    = setDelete manager.enabledExtensions extensionId
                  ∧ extensionId ∉ after.2.enabledExtensions)) := by
  refine ⟨fun h rm => uninstallExtension_of_none _ _ _ rm h, ?_⟩
  intro extension message left after hget hafter
  rw [uninstallExtension_failed _ _ _ _ _ _ hget] at hafter
  rcases henabled : extension.enabled with _ | _
  · rw [henabled] at hafter
    simp only [Bool.false_eq_true, ↓reduceIte] at hafter
    have hsame : ({ extension with enabled := false } : Extension) = extension := by
      cases extension
      simp only at henabled
      simp only [henabled]
    rw [hsame]
    subst hafter
    refine ⟨rfl, hget, fun _ _ => rfl, rfl, fun _ => ⟨rfl, rfl, rfl⟩, ?_⟩
    intro hcontra
    exact absurd hcontra (by decide)
  · rw [henabled] at hafter
    simp only [↓reduceIte] at hafter
    rw [disableExtension_of_some _ _ _ _ hget] at hafter
    subst hafter
    refine ⟨rfl, ?_, ?_, ?_, ?_, ?_⟩
    · simp only [saveEnabledExtensions_extensions]
      exact mapGet_mapSet_same _ _ _
    · intro other hother
      simp only [saveEnabledExtensions_extensions]
      exact mapGet_mapSet_ne _ _ _ _ hother
    · simp only [saveEnabledExtensions_security]
    · intro hcontra
      exact absurd hcontra (by decide)
    · intro _
      simp only [saveEnabledExtensions_extensions, saveEnabledExtensions_enabledExtensions]
      refine ⟨trivial, trivial, ?_⟩
      intro hmem
      exact ((mem_setDelete _ _ _).mp hmem).2 rfl

/-- C21, as the claim states it, fails. The record `a` is enabled and in the
enabled set, and the deletion of its directory throws: `uninstallExtension`
returns the failure, and afterwards the flag of the record is `false` and the
enabled set is empty. -/
theorem uninstallExtension_failure_disables :
    (uninstallExtension
        { extensions :=
            [("a", { id := "a", path := "a",
                     manifest := .obj [("name", .str "A")], enabled := true, apis := [],
                     installDate := none, source := none, webStoreUrl := none,
                     metadata := none })]
          enabledExtensions := ["a"]
          installed := [("a", .dir (.cons "manifest.json" (.file 20) .nil))]
          enabledFile := some (.arr [.str "a"])
          security := emptyBroker
          tempDir := "/temp" } "a" false
        (.failed "EACCES: permission denied, rmdir"
          (some (.dir (.cons "manifest.json" (.file 20) .nil))))).1
        = .failure "EACCES: permission denied, rmdir"
      ∧ ((uninstallExtension
        { extensions :=
            [("a", { id := "a", path := "a",
                     manifest := .obj [("name", .str "A")], enabled := true, apis := [],
                     installDate := none, source := none, webStoreUrl := none,
                     metadata := none })]
          enabledExtensions := ["a"]
          installed := [("a", .dir (.cons "manifest.json" (.file 20) .nil))]
          enabledFile := some (.arr [.str "a"])
          security := emptyBroker
          tempDir := "/temp" } "a" false
        (.failed "EACCES: permission denied, rmdir"
          (some (.dir (.cons "manifest.json" (.file 20) .nil))))).2.extensions.map
            fun entry => (entry.1, entry.2.enabled)) = [("a", false)]
      ∧ (uninstallExtension
        { extensions :=
            [("a", { id := "a", path := "a",
                     manifest := .obj [("name", .str "A")], enabled := true, apis := [],
                     installDate := none, source := none, webStoreUrl := none,
                     metadata := none })]
          enabledExtensions := ["a"]
          installed := [("a", .dir (.cons "manifest.json" (.file 20) .nil))]
          enabledFile := some (.arr [.str "a"])
          security := emptyBroker
          tempDir := "/temp" } "a" false
        (.failed "EACCES: permission denied, rmdir"
          (some (.dir (.cons "manifest.json" (.file 20) .nil))))).2.enabledExtensions = [] := by
  refine ⟨by decide, by decide, by decide⟩

theorem checkManifest_ok_iff (manifest : JsVal) (extensionPath : FsNode) :
    checkManifest manifest extensionPath = .ok ()
      ↔ (validateManifest manifest extensionPath).valid = true := by
  unfold checkManifest
  by_cases h : (validateManifest manifest extensionPath).valid = true
  · simp [h]
  · simp [h]

theorem getProp_name_of_checked (manifest : JsVal) (extensionPath : FsNode)
    (h : checkManifest manifest extensionPath = .ok ()) :
    ∃ name, manifest.getProp "name" = .ok name := by
  have hvalid := (checkManifest_ok_iff manifest extensionPath).mp h
  rcases hbody : validateManifestBody manifest extensionPath with message | r
  · rw [validateManifest_of_body_error manifest extensionPath message hbody] at hvalid
    exact absurd hvalid (by simp)
  · obtain ⟨e1, e2, e3, e4, e5, w, e6, p, d, h1, -⟩ :=
      validateManifestBody_inv manifest extensionPath r hbody
    rcases hname : manifest.getProp "name" with message | name
    · unfold nameErrors at h1
      rw [hname] at h1
      exact absurd h1 (by intro hc; cases hc)
    · exact ⟨name, rfl⟩

theorem logName_of_checked (extension : Extension) (extensionPath : FsNode)
    (h : checkManifest extension.manifest extensionPath = .ok ()) :
    logName extension = .success none := by
  obtain ⟨name, hname⟩ := getProp_name_of_checked _ _ h
  unfold logName
  rw [hname]

theorem installExtension_success (manager : Manager) (source : FsNode)
    (manifestFile : Option (Except String JsVal)) (extensionId installDate : String)
    (h : (installExtension manager source manifestFile extensionId installDate).1.isSuccess
      = true) :
    ∃ manifest, manifestFile = some (.ok manifest)
      ∧ checkManifest manifest source = .ok ()
      ∧ mapGet manager.installed extensionId = none
      ∧ (copyDirectory source).2 = none
      ∧ installExtension manager source manifestFile extensionId installDate
        = (.success (some extensionId),
            { manager with
              installed := mapSet manager.installed extensionId (copyDirectory source).1
              extensions :=
                mapSet manager.extensions extensionId
                  { id := extensionId
                    path := extensionId
                    manifest := manifest
                    enabled := false
                    apis := []
                    installDate := some installDate
                    source := none
                    webStoreUrl := none
                    metadata := none } }) := by
  unfold installExtension at h ⊢
  rcases manifestFile with _ | ⟨message | manifest⟩
  · exact absurd h (by simp [OpResult.isSuccess])
  · exact absurd h (by simp [OpResult.isSuccess])
  · refine ⟨manifest, rfl, ?_⟩
    dsimp only at h ⊢
    rcases hc : checkManifest manifest source with message | u
    · rw [hc] at h
      exact absurd h (by simp [OpResult.isSuccess])
    · rw [hc] at h
      dsimp only at h ⊢
      by_cases hdir : (mapGet manager.installed extensionId).isSome = true
      · rw [if_pos hdir] at h
        exact absurd h (by simp [OpResult.isSuccess])
      · rw [if_neg hdir] at h ⊢
        rcases hcopy : (copyDirectory source).2 with _ | message
        · rw [hcopy] at h
          refine ⟨rfl, ?_, rfl, rfl⟩
          simpa using hdir
        · rw [hcopy] at h
          exact absurd h (by simp [OpResult.isSuccess])

theorem installExtension_existing (manager : Manager) (source : FsNode)
    (manifestFile : Option (Except String JsVal)) (extensionId installDate : String)
    (hdir : (mapGet manager.installed extensionId).isSome = true) :
    (installExtension manager source manifestFile extensionId installDate).2 = manager
      ∧ (installExtension manager source manifestFile extensionId installDate).1.isSuccess
        = false
      ∧ ∀ manifest, manifestFile = some (.ok manifest) →
          checkManifest manifest source = .ok () →
          (installExtension manager source manifestFile extensionId installDate).1
            = .failure "Extension already installed" := by
  unfold installExtension
  rcases manifestFile with _ | ⟨message | manifest⟩
  · refine ⟨rfl, rfl, ?_⟩
    intro manifest hm
    cases hm
  · refine ⟨rfl, rfl, ?_⟩
    intro manifest hm
    cases hm
  · dsimp only
    rcases hc : checkManifest manifest source with message | u
    · refine ⟨rfl, rfl, ?_⟩
      intro manifest2 hm hc2
      cases hm
      rw [hc] at hc2
      cases hc2
    · dsimp only
      rw [if_pos hdir]
      exact ⟨rfl, rfl, fun _ _ _ => rfl⟩

theorem installFromWebStore_commits (manager : Manager) (webStoreUrl : String)
    (fetched : Except String HttpResponse) (downloaded : Except String Unit)
    (manifest : JsVal) (extracted : FsNode) (rm : RmResult) (installDate : String)
    (extensionId crxPath message : String) (metadata : Metadata)
    (hurl : isValidWebStoreUrl webStoreUrl = true)
    (hdownload : webStoreInstall webStoreUrl manager.tempDir fetched downloaded
      = .success extensionId metadata crxPath message)
    (hcheck : checkManifest manifest extracted = .ok ())
    (hrm : (mapGet manager.installed extensionId).isSome = true → rm = .removed)
    (hcopy : (copyDirectory extracted).2 = none) :
    installFromWebStore manager webStoreUrl fetched downloaded (.ok manifest) extracted rm
        installDate
      = (.success (some extensionId),
          { manager with
            installed :=
              mapSet (mapDelete manager.installed extensionId) extensionId
                (copyDirectory extracted).1
            extensions :=
              mapSet manager.extensions extensionId
                { id := extensionId
                  path := extensionId
                  manifest := manifest
                  enabled := false
                  apis := []
                  installDate := some installDate
                  source := some "chrome-web-store"
                  webStoreUrl := some webStoreUrl
                  metadata := some metadata } }) := by
  unfold installFromWebStore
  rw [hurl, hdownload]
  dsimp only
  rw [hcheck]
  dsimp only
  by_cases hdir : (mapGet manager.installed extensionId).isSome = true
  · rw [hrm hdir, if_pos hdir]
    dsimp only
    rw [hcopy]
    rfl
  · rw [if_neg hdir]
    dsimp only
    rw [hcopy]
    have hnone : mapGet manager.installed extensionId = none := by simpa using hdir
    rw [mapDelete_of_none _ _ hnone]
    rfl

theorem installFromWebStore_success (manager : Manager) (webStoreUrl : String)
    (fetched : Except String HttpResponse) (downloaded : Except String Unit)
    (parsed : Except String JsVal) (extracted : FsNode) (rm : RmResult)
    (installDate : String)
    (h : (installFromWebStore manager webStoreUrl fetched downloaded parsed extracted rm
      installDate).1.isSuccess = true) :
    ∃ extensionId metadata crxPath message manifest,
      isValidWebStoreUrl webStoreUrl = true
        ∧ webStoreInstall webStoreUrl manager.tempDir fetched downloaded
          = .success extensionId metadata crxPath message
        ∧ parsed = .ok manifest
        ∧ checkManifest manifest extracted = .ok ()
        ∧ ((mapGet manager.installed extensionId).isSome = true → rm = .removed)
        ∧ (copyDirectory extracted).2 = none := by
  unfold installFromWebStore at h
  by_cases hurl : isValidWebStoreUrl webStoreUrl = true
  · rw [hurl] at h
    simp only [Bool.not_true, Bool.false_eq_true, ↓reduceIte] at h
    rcases hdownload : webStoreInstall webStoreUrl manager.tempDir fetched downloaded with
      ⟨extensionId, metadata, crxPath, message⟩ | ⟨error, message⟩
    · rw [hdownload] at h
      dsimp only at h
      rcases parsed with error | manifest
      · exact absurd h (by simp [OpResult.isSuccess])
      · dsimp only at h
        rcases hcheck : checkManifest manifest extracted with error | u
        · rw [hcheck] at h
          exact absurd h (by simp [OpResult.isSuccess])
        · rw [hcheck] at h
          dsimp only at h
          refine ⟨extensionId, metadata, crxPath, message, manifest, hurl, rfl, rfl, hcheck, ?_, ?_⟩
          · intro hdir
            rw [if_pos hdir] at h
            rcases rm with _ | ⟨error, left⟩
            · rfl
            · exact absurd h (by simp [OpResult.isSuccess])
          · rcases hcopy : (copyDirectory extracted).2 with _ | error
            · rfl
            · rw [hcopy] at h
              by_cases hdir : (mapGet manager.installed extensionId).isSome = true
              · rw [if_pos hdir] at h
                rcases rm with _ | ⟨error2, left⟩
                · exact absurd h (by simp [OpResult.isSuccess])
                · exact absurd h (by simp [OpResult.isSuccess])
              · rw [if_neg hdir] at h
                exact absurd h (by simp [OpResult.isSuccess])
    · rw [hdownload] at h
      exact absurd h (by simp [OpResult.isSuccess])
  · have hfalse : isValidWebStoreUrl webStoreUrl = false := by simpa using hurl
    rw [hfalse] at h
    exact absurd h (by simp [OpResult.isSuccess])

theorem uninstallExtension_of_fresh_record (manager : Manager) (extensionId : String)
    (writeFails : Bool) (copy : FsNode) (extension : Extension) (extensionPath : FsNode)
    (hrecord : mapGet manager.extensions extensionId = none)
    (hdir : mapGet manager.installed extensionId = none)
    (henabled : extension.enabled = false) (hpath : extension.path = extensionId)
    (hcheck : checkManifest extension.manifest extensionPath = .ok ()) :
    uninstallExtension
        { manager with
          installed := mapSet manager.installed extensionId copy
          extensions := mapSet manager.extensions extensionId extension }
        extensionId writeFails .removed
      = (.success none, manager) := by
  rw [uninstallExtension_removed _ _ _ extension (mapGet_mapSet_same _ _ _)]
  rw [logName_of_checked extension extensionPath hcheck, henabled]
  simp only [Bool.false_eq_true, ↓reduceIte, afterRm, hpath]
  rw [mapDelete_mapSet_fresh _ _ _ hrecord, mapDelete_mapSet_fresh _ _ _ hdir]

/-- C22, as amended. When the id has no record before the install, a successful
`installExtension` under the id followed by `uninstallExtension` whose
deletion succeeds returns the success and gives back the state of before
the install: the map, the enabled set, the installed directories, the
sidecar file and the broker. The same holds for a successful
`installFromWebStore` under the id when the id has no directory before the
install either. -/
theorem install_uninstall_round_trip (manager : Manager) (extensionId installDate : String)
    (writeFails : Bool) (hrecord : mapGet manager.extensions extensionId = none) :
    (∀ source manifestFile,
        (installExtension manager source manifestFile extensionId installDate).1.isSuccess
          = true →
        uninstallExtension
            (installExtension manager source manifestFile extensionId installDate).2
            extensionId writeFails .removed
          = (.success none, manager))
      ∧ (∀ webStoreUrl fetched downloaded parsed extracted rm,
          mapGet manager.installed extensionId = none →
          (installFromWebStore manager webStoreUrl fetched downloaded parsed extracted rm
            installDate).1 = .success (some extensionId) →
          uninstallExtension
              (installFromWebStore manager webStoreUrl fetched downloaded parsed extracted rm
                installDate).2
              extensionId writeFails .removed
            = (.success none, manager)) := by
  constructor
  · intro source manifestFile hsuccess
    obtain ⟨manifest, -, hcheck, hdir, -, heq⟩ :=
      installExtension_success manager source manifestFile extensionId installDate hsuccess
    rw [heq]
    exact uninstallExtension_of_fresh_record manager extensionId writeFails _ _ source
      hrecord hdir rfl rfl hcheck
  · intro webStoreUrl fetched downloaded parsed extracted rm hdir hsuccess
    have hs : (installFromWebStore manager webStoreUrl fetched downloaded parsed extracted rm
        installDate).1.isSuccess = true := by
      rw [hsuccess]
      rfl
    obtain ⟨id, metadata, crxPath, message, manifest, hurl, hdownload, hparsed, hcheck, hrm,
      hcopy⟩ := installFromWebStore_success _ _ _ _ _ _ _ _ hs
    subst hparsed
    have heq := installFromWebStore_commits manager webStoreUrl fetched downloaded manifest
      extracted rm installDate id crxPath message metadata hurl hdownload hcheck hrm hcopy
    rw [heq] at hsuccess
    have hid : id = extensionId := by
      simpa using hsuccess
    subst hid
    rw [heq, mapDelete_of_none _ _ hdir]
    exact uninstallExtension_of_fresh_record manager id writeFails _ _ extracted
      hrecord hdir rfl rfl hcheck

theorem install_uninstall_round_trip_witness :
    mapGet (freshManager [] [] none "/temp").extensions "a" = none
      ∧ (installExtension (freshManager [] [] none "/temp")
          (.dir (.cons "manifest.json" (.file 20) .nil))
          (some (.ok (.obj [("name", .str "A"), ("version", .str "1.0"), ("manifest_version", .num 3)])))
          "a" "2026-01-01").1.isSuccess = true
      ∧ uninstallExtension
          (installExtension (freshManager [] [] none "/temp")
          (.dir (.cons "manifest.json" (.file 20) .nil))
          (some (.ok (.obj [("name", .str "A"), ("version", .str "1.0"), ("manifest_version", .num 3)])))
          "a" "2026-01-01").2
          "a" false .removed
        = (.success none, freshManager [] [] none "/temp") :=
  ⟨rfl, by decide,
    (install_uninstall_round_trip (freshManager [] [] none "/temp") "a" "2026-01-01" false rfl).1
      (.dir (.cons "manifest.json" (.file 20) .nil))
      (some (.ok (.obj [("name", .str "A"), ("version", .str "1.0"), ("manifest_version", .num 3)])))
      (by decide)⟩

/-- C22, as the claim states it, fails. The id has a record and a directory,
`installFromWebStore` installs the same id again and succeeds, and the
`uninstallExtension` that follows succeeds: the map and the installed
directories are empty afterwards, and not what they were before the install. -/
theorem reinstall_uninstall_loses_record :
    (mapGet
          (freshManager
            [("abcdefghijklmnopqrstuvwxyzabcdef", .dir (.cons "manifest.json" (.file 20) .nil))]
            [("abcdefghijklmnopqrstuvwxyzabcdef",
              .obj [("name", .str "A"), ("version", .str "1.0"), ("manifest_version", .num 3)])]
            none "/temp").extensions
          "abcdefghijklmnopqrstuvwxyzabcdef").isSome = true
      ∧ (installFromWebStore
          (freshManager
            [("abcdefghijklmnopqrstuvwxyzabcdef", .dir (.cons "manifest.json" (.file 20) .nil))]
            [("abcdefghijklmnopqrstuvwxyzabcdef",
              .obj [("name", .str "A"), ("version", .str "1.0"), ("manifest_version", .num 3)])]
            none "/temp")
          "https://chrome.google.com/webstore/detail/abcdefghijklmnopqrstuvwxyzabcdef"
          (.ok { ok := true, status := 200, statusText := "OK", page := blankPage }) (.ok ())
          (.ok (.obj [("name", .str "A"), ("version", .str "2.0"), ("manifest_version", .num 3)]))
          (.dir (.cons "manifest.json" (.file 30) .nil)) .removed "2026-01-01").1
        = .success (some "abcdefghijklmnopqrstuvwxyzabcdef")
      ∧ (uninstallExtension
          (installFromWebStore
          (freshManager
            [("abcdefghijklmnopqrstuvwxyzabcdef", .dir (.cons "manifest.json" (.file 20) .nil))]
            [("abcdefghijklmnopqrstuvwxyzabcdef",
              .obj [("name", .str "A"), ("version", .str "1.0"), ("manifest_version", .num 3)])]
            none "/temp")
          "https://chrome.google.com/webstore/detail/abcdefghijklmnopqrstuvwxyzabcdef"
          (.ok { ok := true, status := 200, statusText := "OK", page := blankPage }) (.ok ())
          (.ok (.obj [("name", .str "A"), ("version", .str "2.0"), ("manifest_version", .num 3)]))
          (.dir (.cons "manifest.json" (.file 30) .nil)) .removed "2026-01-01").2
          "abcdefghijklmnopqrstuvwxyzabcdef" false .removed).1 = .success none
      ∧ (uninstallExtension
          (installFromWebStore
          (freshManager
            [("abcdefghijklmnopqrstuvwxyzabcdef", .dir (.cons "manifest.json" (.file 20) .nil))]
            [("abcdefghijklmnopqrstuvwxyzabcdef",
              .obj [("name", .str "A"), ("version", .str "1.0"), ("manifest_version", .num 3)])]
            none "/temp")
          "https://chrome.google.com/webstore/detail/abcdefghijklmnopqrstuvwxyzabcdef"
          (.ok { ok := true, status := 200, statusText := "OK", page := blankPage }) (.ok ())
          (.ok (.obj [("name", .str "A"), ("version", .str "2.0"), ("manifest_version", .num 3)]))
          (.dir (.cons "manifest.json" (.file 30) .nil)) .removed "2026-01-01").2
          "abcdefghijklmnopqrstuvwxyzabcdef" false .removed).2.extensions.isEmpty = true
      ∧ (uninstallExtension
          (installFromWebStore
          (freshManager
            [("abcdefghijklmnopqrstuvwxyzabcdef", .dir (.cons "manifest.json" (.file 20) .nil))]
            [("abcdefghijklmnopqrstuvwxyzabcdef",
              .obj [("name", .str "A"), ("version", .str "1.0"), ("manifest_version", .num 3)])]
            none "/temp")
          "https://chrome.google.com/webstore/detail/abcdefghijklmnopqrstuvwxyzabcdef"
          (.ok { ok := true, status := 200, statusText := "OK", page := blankPage }) (.ok ())
          (.ok (.obj [("name", .str "A"), ("version", .str "2.0"), ("manifest_version", .num 3)]))
          (.dir (.cons "manifest.json" (.file 30) .nil)) .removed "2026-01-01").2
          "abcdefghijklmnopqrstuvwxyzabcdef" false .removed).2.installed.isEmpty = true := by
  refine ⟨by decide, by decide, by decide, by decide, by decide⟩

/-- C23, as amended. When the id has a directory among the installed ones,
`installExtension` under the id fails and leaves the state as it was, the
error being `Extension already installed` when the manifest is found, parses
and is valid. `installFromWebStore` does not fail on it: when the download
and the validation succeed, the deletion of the old directory succeeds and
the copy succeeds, it returns the success, the directory of the id is the
copy of the new package and the record of the id is the new record. -/
theorem install_over_existing (manager : Manager) (extensionId installDate : String)
    (previous : FsNode) (hdir : mapGet manager.installed extensionId = some previous) :
    (∀ source manifestFile,
        (installExtension manager source manifestFile extensionId installDate).2 = manager
          ∧ (installExtension manager source manifestFile extensionId installDate).1.isSuccess
            = false
          ∧ ∀ manifest, manifestFile = some (.ok manifest) →
              checkManifest manifest source = .ok () →
              (installExtension manager source manifestFile extensionId installDate).1
                = .failure "Extension already installed")
      ∧ (∀ webStoreUrl fetched downloaded manifest extracted metadata crxPath message,
          isValidWebStoreUrl webStoreUrl = true →
          webStoreInstall webStoreUrl manager.tempDir fetched downloaded
            = .success extensionId metadata crxPath message →
          checkManifest manifest extracted = .ok () →
          (copyDirectory extracted).2 = none →
          (installFromWebStore manager webStoreUrl fetched downloaded (.ok manifest) extracted
              .removed installDate).1 = .success (some extensionId)
            ∧ mapGet (installFromWebStore manager webStoreUrl fetched downloaded (.ok manifest)
                extracted .removed installDate).2.installed extensionId
              = some (copyDirectory extracted).1
            ∧ mapGet (installFromWebStore manager webStoreUrl fetched downloaded (.ok manifest)
                extracted .removed installDate).2.extensions extensionId
              = some
                  { id := extensionId
                    path := extensionId
                    manifest := manifest
                    enabled := false
                    apis := []
                    installDate := some installDate
                    source := some "chrome-web-store"
                    webStoreUrl := some webStoreUrl
                    metadata := some metadata }) := by
  have hsome : (mapGet manager.installed extensionId).isSome = true := by
    rw [hdir]
    rfl
  constructor
  · intro source manifestFile
    exact installExtension_existing manager source manifestFile extensionId installDate hsome
  · intro webStoreUrl fetched downloaded manifest extracted metadata crxPath message hurl
      hdownload hcheck hcopy
    rw [installFromWebStore_commits manager webStoreUrl fetched downloaded manifest extracted
      .removed installDate extensionId crxPath message metadata hurl hdownload hcheck
      (fun _ => rfl) hcopy]
    exact ⟨rfl, mapGet_mapSet_same _ _ _, mapGet_mapSet_same _ _ _⟩

theorem install_over_existing_witness :
    mapGet
          (freshManager
            [("abcdefghijklmnopqrstuvwxyzabcdef", .dir (.cons "manifest.json" (.file 20) .nil))]
            [("abcdefghijklmnopqrstuvwxyzabcdef",
              .obj [("name", .str "A"), ("version", .str "1.0"), ("manifest_version", .num 3)])]
            none "/temp").installed
          "abcdefghijklmnopqrstuvwxyzabcdef"
        = some (.dir (.cons "manifest.json" (.file 20) .nil))
      ∧ (installExtension
          (freshManager
            [("abcdefghijklmnopqrstuvwxyzabcdef", .dir (.cons "manifest.json" (.file 20) .nil))]
            [("abcdefghijklmnopqrstuvwxyzabcdef",
              .obj [("name", .str "A"), ("version", .str "1.0"), ("manifest_version", .num 3)])]
            none "/temp")
          (.dir (.cons "manifest.json" (.file 30) .nil))
          (some (.ok (.obj [("name", .str "A"), ("version", .str "1.0"), ("manifest_version", .num 3)])))
          "abcdefghijklmnopqrstuvwxyzabcdef" "2026-01-01").1
        = .failure "Extension already installed" :=
  ⟨rfl,
    ((install_over_existing
          (freshManager
            [("abcdefghijklmnopqrstuvwxyzabcdef", .dir (.cons "manifest.json" (.file 20) .nil))]
            [("abcdefghijklmnopqrstuvwxyzabcdef",
              .obj [("name", .str "A"), ("version", .str "1.0"), ("manifest_version", .num 3)])]
            none "/temp")
          "abcdefghijklmnopqrstuvwxyzabcdef" "2026-01-01" (.dir (.cons "manifest.json" (.file 20) .nil)) rfl).1
        (.dir (.cons "manifest.json" (.file 30) .nil))
        (some (.ok (.obj [("name", .str "A"), ("version", .str "1.0"), ("manifest_version", .num 3)])))).2.2
      (.obj [("name", .str "A"), ("version", .str "1.0"), ("manifest_version", .num 3)])
      rfl rfl⟩

/-- C23, as the claim states it, fails. The id has a record, loaded from its
directory of 20 bytes; `installFromWebStore` of the same id returns the
success, and afterwards the directory is the new package of 30 bytes and the
record is the new one, with the source `chrome-web-store`. -/
theorem installFromWebStore_replaces :
    Option.map (fun extension => extension.source)
          (mapGet
            (freshManager
            [("abcdefghijklmnopqrstuvwxyzabcdef", .dir (.cons "manifest.json" (.file 20) .nil))]
            [("abcdefghijklmnopqrstuvwxyzabcdef",
              .obj [("name", .str "A"), ("version", .str "1.0"), ("manifest_version", .num 3)])]
            none "/temp").extensions
            "abcdefghijklmnopqrstuvwxyzabcdef")
        = some none
      ∧ Option.map calculateDirectorySize
          (mapGet
            (freshManager
            [("abcdefghijklmnopqrstuvwxyzabcdef", .dir (.cons "manifest.json" (.file 20) .nil))]
            [("abcdefghijklmnopqrstuvwxyzabcdef",
              .obj [("name", .str "A"), ("version", .str "1.0"), ("manifest_version", .num 3)])]
            none "/temp").installed
            "abcdefghijklmnopqrstuvwxyzabcdef")
        = some 20
      ∧ (installFromWebStore
          (freshManager
            [("abcdefghijklmnopqrstuvwxyzabcdef", .dir (.cons "manifest.json" (.file 20) .nil))]
            [("abcdefghijklmnopqrstuvwxyzabcdef",
              .obj [("name", .str "A"), ("version", .str "1.0"), ("manifest_version", .num 3)])]
            none "/temp")
          "https://chrome.google.com/webstore/detail/abcdefghijklmnopqrstuvwxyzabcdef"
          (.ok { ok := true, status := 200, statusText := "OK", page := blankPage }) (.ok ())
          (.ok (.obj [("name", .str "A"), ("version", .str "2.0"), ("manifest_version", .num 3)]))
          (.dir (.cons "manifest.json" (.file 30) .nil)) .removed "2026-01-01").1
        = .success (some "abcdefghijklmnopqrstuvwxyzabcdef")
      ∧ Option.map (fun extension => extension.source)
          (mapGet
            (installFromWebStore
          (freshManager
            [("abcdefghijklmnopqrstuvwxyzabcdef", .dir (.cons "manifest.json" (.file 20) .nil))]
            [("abcdefghijklmnopqrstuvwxyzabcdef",
              .obj [("name", .str "A"), ("version", .str "1.0"), ("manifest_version", .num 3)])]
            none "/temp")
          "https://chrome.google.com/webstore/detail/abcdefghijklmnopqrstuvwxyzabcdef"
          (.ok { ok := true, status := 200, statusText := "OK", page := blankPage }) (.ok ())
          (.ok (.obj [("name", .str "A"), ("version", .str "2.0"), ("manifest_version", .num 3)]))
          (.dir (.cons "manifest.json" (.file 30) .nil)) .removed "2026-01-01").2.extensions
            "abcdefghijklmnopqrstuvwxyzabcdef")
        = some (some "chrome-web-store")
      ∧ Option.map calculateDirectorySize
          (mapGet
            (installFromWebStore
          (freshManager
            [("abcdefghijklmnopqrstuvwxyzabcdef", .dir (.cons "manifest.json" (.file 20) .nil))]
            [("abcdefghijklmnopqrstuvwxyzabcdef",
              .obj [("name", .str "A"), ("version", .str "1.0"), ("manifest_version", .num 3)])]
            none "/temp")
          "https://chrome.google.com/webstore/detail/abcdefghijklmnopqrstuvwxyzabcdef"
          (.ok { ok := true, status := 200, statusText := "OK", page := blankPage }) (.ok ())
          (.ok (.obj [("name", .str "A"), ("version", .str "2.0"), ("manifest_version", .num 3)]))
          (.dir (.cons "manifest.json" (.file 30) .nil)) .removed "2026-01-01").2.installed
            "abcdefghijklmnopqrstuvwxyzabcdef")
        = some 30 := by
  refine ⟨by decide, rfl, by decide, by decide, rfl⟩

theorem enabledConsistent_congr (m1 m2 : Manager) (hext : m2.extensions = m1.extensions)
    (hset : m2.enabledExtensions = m1.enabledExtensions) (h : enabledConsistent m1) :
    enabledConsistent m2 := by
  unfold enabledConsistent at h ⊢
  rw [hext, hset]
  exact h

theorem enabledConsistent_set (manager : Manager) (extensionId : String)
    (extension : Extension) (flag : Bool) (rest : Manager)
    (h : enabledConsistent manager)
    (hext : rest.extensions
      = mapSet manager.extensions extensionId { extension with enabled := flag })
    (hset : rest.enabledExtensions
      = if flag then setAdd manager.enabledExtensions extensionId
        else setDelete manager.enabledExtensions extensionId) :
    enabledConsistent rest := by
  unfold enabledConsistent at h ⊢
  intro id
  rw [hext, hset]
  by_cases hid : id = extensionId
  · subst hid
    rw [mapGet_mapSet_same]
    cases flag
    · simp [mem_setDelete]
    · simp [mem_setAdd]
  · rw [mapGet_mapSet_ne _ _ _ _ hid, ← h id]
    cases flag
    · simp [mem_setDelete, hid]
    · simp [mem_setAdd, hid]

/-- The methods `enableExtension` and `disableExtension` keep the enabled set and
the flags of the records in agreement. -/
theorem enabledConsistent_enable_disable (manager : Manager) (extensionId : String)
    (writeFails : Bool) (h : enabledConsistent manager) :
    enabledConsistent (enableExtension manager extensionId writeFails).2
      ∧ enabledConsistent (disableExtension manager extensionId writeFails).2 := by
  rcases hget : mapGet manager.extensions extensionId with _ | extension
  · rw [enableExtension_of_none _ _ _ hget, disableExtension_of_none _ _ _ hget]
    exact ⟨h, h⟩
  · rw [enableExtension_of_some _ _ _ _ hget, disableExtension_of_some _ _ _ _ hget]
    constructor
    · apply enabledConsistent_set manager extensionId extension true _ h
      · rw [saveEnabledExtensions_extensions]
      · rw [saveEnabledExtensions_enabledExtensions]
        rfl
    · apply enabledConsistent_set manager extensionId extension false _ h
      · rw [saveEnabledExtensions_extensions]
      · rw [saveEnabledExtensions_enabledExtensions]
        rfl

theorem enabledConsistent_delete (manager rest : Manager) (extensionId : String)
    (h : enabledConsistent manager) (hout : extensionId ∉ manager.enabledExtensions)
    (hext : rest.extensions = mapDelete manager.extensions extensionId)
    (hset : rest.enabledExtensions = manager.enabledExtensions) :
    enabledConsistent rest := by
  unfold enabledConsistent at h ⊢
  intro id
  rw [hext, hset]
  by_cases hid : id = extensionId
  · subst hid
    rw [mapGet_mapDelete_same]
    simp [hout]
  · rw [mapGet_mapDelete_ne _ _ _ hid]
    exact h id

/-- The method `uninstallExtension` keeps the enabled set and the flags of the
records in agreement, whatever the deletion of the directory does. -/
theorem enabledConsistent_uninstall (manager : Manager) (extensionId : String)
    (writeFails : Bool) (rm : RmResult) (h : enabledConsistent manager) :
    enabledConsistent (uninstallExtension manager extensionId writeFails rm).2 := by
  rcases hget : mapGet manager.extensions extensionId with _ | extension
  · rw [uninstallExtension_of_none _ _ _ _ hget]
    exact h
  · have hdisabled : enabledConsistent
        (if extension.enabled then (disableExtension manager extensionId writeFails).2
          else manager) := by
      by_cases he : extension.enabled = true
      · rw [if_pos he]
        exact (enabledConsistent_enable_disable manager extensionId writeFails h).2
      · rw [if_neg he]
        exact h
    have hout : extensionId ∉
        (if extension.enabled then (disableExtension manager extensionId writeFails).2
          else manager).enabledExtensions := by
      by_cases he : extension.enabled = true
      · rw [if_pos he, disableExtension_of_some _ _ _ _ hget,
          saveEnabledExtensions_enabledExtensions]
        intro hmem
        exact ((mem_setDelete _ _ _).mp hmem).2 rfl
      · rw [if_neg he]
        intro hmem
        obtain ⟨found, hfound, henabled⟩ := (h extensionId).mp hmem
        rw [hget] at hfound
        cases hfound
        exact he henabled
    rcases rm with _ | ⟨message, left⟩
    · rw [uninstallExtension_removed _ _ _ _ hget]
      exact enabledConsistent_delete _ _ extensionId hdisabled hout rfl rfl
    · rw [uninstallExtension_failed _ _ _ _ _ _ hget]
      exact enabledConsistent_congr _ _ rfl rfl hdisabled

theorem enabledConsistent_fresh_record (manager rest : Manager) (extensionId : String)
    (extension : Extension) (h : enabledConsistent manager)
    (hrecord : mapGet manager.extensions extensionId = none)
    (henabled : extension.enabled = false)
    (hext : rest.extensions = mapSet manager.extensions extensionId extension)
    (hset : rest.enabledExtensions = manager.enabledExtensions) :
    enabledConsistent rest := by
  unfold enabledConsistent at h ⊢
  intro id
  rw [hext, hset]
  by_cases hid : id = extensionId
  · subst hid
    rw [mapGet_mapSet_same, h id, hrecord]
    simp [henabled]
  · rw [mapGet_mapSet_ne _ _ _ _ hid]
    exact h id

theorem installExtension_registry (manager : Manager) (source : FsNode)
    (manifestFile : Option (Except String JsVal)) (extensionId installDate : String) :
    (installExtension manager source manifestFile extensionId installDate).2.enabledExtensions
        = manager.enabledExtensions
      ∧ ((installExtension manager source manifestFile extensionId installDate).2.extensions
          = manager.extensions
        ∨ ∃ extension, extension.enabled = false
            ∧ (installExtension manager source manifestFile extensionId installDate).2.extensions
              = mapSet manager.extensions extensionId extension) := by
  unfold installExtension
  rcases manifestFile with _ | ⟨message | manifest⟩
  · exact ⟨rfl, Or.inl rfl⟩
  · exact ⟨rfl, Or.inl rfl⟩
  · dsimp only
    rcases checkManifest manifest source with message | u
    · exact ⟨rfl, Or.inl rfl⟩
    · dsimp only
      by_cases hdir : (mapGet manager.installed extensionId).isSome = true
      · rw [if_pos hdir]
        exact ⟨rfl, Or.inl rfl⟩
      · rw [if_neg hdir]
        rcases (copyDirectory source).2 with _ | message
        · exact ⟨rfl, Or.inr ⟨_, rfl, rfl⟩⟩
        · exact ⟨rfl, Or.inl rfl⟩

theorem installFromWebStore_registry (manager : Manager) (webStoreUrl : String)
    (fetched : Except String HttpResponse) (downloaded : Except String Unit)
    (parsed : Except String JsVal) (extracted : FsNode) (rm : RmResult)
    (installDate : String) :
    (installFromWebStore manager webStoreUrl fetched downloaded parsed extracted rm
        installDate).2.enabledExtensions = manager.enabledExtensions
      ∧ ((installFromWebStore manager webStoreUrl fetched downloaded parsed extracted rm
          installDate).2.extensions = manager.extensions
        ∨ ∃ extensionId extension, extension.enabled = false
            ∧ (installFromWebStore manager webStoreUrl fetched downloaded parsed extracted rm
                installDate).1 = .success (some extensionId)
            ∧ (installFromWebStore manager webStoreUrl fetched downloaded parsed extracted rm
                installDate).2.extensions
              = mapSet manager.extensions extensionId extension) := by
  unfold installFromWebStore
  by_cases hurl : isValidWebStoreUrl webStoreUrl = true
  · rw [hurl]
    simp only [Bool.not_true, Bool.false_eq_true, ↓reduceIte]
    rcases webStoreInstall webStoreUrl manager.tempDir fetched downloaded with
      ⟨extensionId, metadata, crxPath, message⟩ | ⟨error, message⟩
    · dsimp only
      rcases parsed with error | manifest
      · exact ⟨rfl, Or.inl rfl⟩
      · dsimp only
        rcases checkManifest manifest extracted with error | u
        · exact ⟨rfl, Or.inl rfl⟩
        · dsimp only
          by_cases hdir : (mapGet manager.installed extensionId).isSome = true
          · rw [if_pos hdir]
            rcases rm with _ | ⟨error, left⟩
            · dsimp only
              rcases (copyDirectory extracted).2 with _ | error
              · exact ⟨rfl, Or.inr ⟨_, _, rfl, rfl, rfl⟩⟩
              · exact ⟨rfl, Or.inl rfl⟩
            · exact ⟨rfl, Or.inl rfl⟩
          · rw [if_neg hdir]
            dsimp only
            rcases (copyDirectory extracted).2 with _ | error
            · exact ⟨rfl, Or.inr ⟨_, _, rfl, rfl, rfl⟩⟩
            · exact ⟨rfl, Or.inl rfl⟩
    · exact ⟨rfl, Or.inl rfl⟩
  · have hfalse : isValidWebStoreUrl webStoreUrl = false := by simpa using hurl
    rw [hfalse]
    exact ⟨rfl, Or.inl rfl⟩

/-- The method `installExtension` keeps the enabled set and the flags of the
records in agreement when its id has no record. -/
theorem enabledConsistent_installExtension (manager : Manager) (source : FsNode)
    (manifestFile : Option (Except String JsVal)) (extensionId installDate : String)
    (h : enabledConsistent manager)
    (hrecord : mapGet manager.extensions extensionId = none) :
    enabledConsistent
      (installExtension manager source manifestFile extensionId installDate).2 := by
  obtain ⟨hset, hext | ⟨extension, henabled, hext⟩⟩ :=
    installExtension_registry manager source manifestFile extensionId installDate
  · exact enabledConsistent_congr _ _ hext hset h
  · exact enabledConsistent_fresh_record manager _ extensionId extension h hrecord henabled
      hext hset

/-- The method `installFromWebStore` keeps the enabled set and the flags of the
records in agreement when it fails and when the id it installs had no
record. -/
theorem enabledConsistent_installFromWebStore (manager : Manager) (webStoreUrl : String)
    (fetched : Except String HttpResponse) (downloaded : Except String Unit)
    (parsed : Except String JsVal) (extracted : FsNode) (rm : RmResult)
    (installDate : String) (h : enabledConsistent manager)
    (hrecord : ∀ extensionId,
      (installFromWebStore manager webStoreUrl fetched downloaded parsed extracted rm
        installDate).1 = .success (some extensionId) →
      mapGet manager.extensions extensionId = none) :
    enabledConsistent
      (installFromWebStore manager webStoreUrl fetched downloaded parsed extracted rm
        installDate).2 := by
  obtain ⟨hset, hext | ⟨extensionId, extension, henabled, hsuccess, hext⟩⟩ :=
    installFromWebStore_registry manager webStoreUrl fetched downloaded parsed extracted rm
      installDate
  · exact enabledConsistent_congr _ _ hext hset h
  · exact enabledConsistent_fresh_record manager _ extensionId extension h
      (hrecord extensionId hsuccess) henabled hext hset

theorem foldl_preserves {α β : Type} (P : β → Prop) (f : β → α → β)
    (hf : ∀ b a, P b → P (f b a)) : ∀ (l : List α) (b : β), P b → P (l.foldl f b) := by
  intro l
  induction l with
  | nil => intro b hb; exact hb
  | cons a rest ih => intro b hb; exact ih (f b a) (hf b a hb)

theorem enabledConsistent_loadEnabledExtensions (manager : Manager)
    (h : enabledConsistent manager) : enabledConsistent (loadEnabledExtensions manager) := by
  unfold loadEnabledExtensions
  split
  · apply foldl_preserves enabledConsistent _ _ _ _ h
    intro m item hm
    split
    · split
      · exact enabledConsistent_set m _ _ true _ hm rfl rfl
      · exact hm
    · exact hm
  · exact h

/-- The state after `new ExtensionManager()` has the enabled set and the flags of
the records in agreement, whatever is on the disk. -/
theorem enabledConsistent_freshManager (installed : List (String × FsNode))
    (found : List (String × JsVal)) (enabledFile : Option JsVal) (tempDir : String) :
    enabledConsistent (freshManager installed found enabledFile tempDir) := by
  unfold freshManager loadInstalledExtensions
  apply enabledConsistent_loadEnabledExtensions
  have hfold := foldl_preserves
    (fun (m : Manager) => m.enabledExtensions = []
      ∧ ∀ id extension, mapGet m.extensions id = some extension → extension.enabled = false)
    (fun (m : Manager) (entry : String × JsVal) =>
      { m with
        extensions :=
          mapSet m.extensions entry.1
            { id := entry.1
              path := entry.1
              manifest := entry.2
              enabled := false
              apis := []
              installDate := none
              source := none
              webStoreUrl := none
              metadata := none } })
    (by
      intro m entry hm
      refine ⟨hm.1, ?_⟩
      intro id extension hget
      by_cases hid : id = entry.1
      · subst hid
        simp only [mapGet_mapSet_same, Option.some.injEq] at hget
        rw [← hget]
      · simp only [mapGet_mapSet_ne _ _ _ _ hid] at hget
        exact hm.2 id extension hget)
    found
    { extensions := []
      enabledExtensions := []
      installed := installed
      enabledFile := enabledFile
      security := emptyBroker
      tempDir := tempDir }
    ⟨rfl, by intro id extension hget; simp [mapGet] at hget⟩
  unfold enabledConsistent
  intro id
  rw [hfold.1]
  constructor
  · intro hmem
    simp at hmem
  · rintro ⟨extension, hget, henabled⟩
    rw [hfold.2 id extension hget] at henabled
    exact absurd henabled (by decide)

/-- C29, at the failing sequence. From the manager of an empty disk,
`installFromWebStore` installs an id, `enableExtension` enables it, and
`installFromWebStore` installs the same id again: every call returns the
success, and afterwards the id is in the enabled set and in the sidecar file
while its record has the flag `false`, so that `getEnabledExtensions` returns
no record for the one member of the set. -/
theorem reinstall_breaks_enabled_set :
    (installFromWebStore
          (freshManager [] [] none "/temp")
          "https://chrome.google.com/webstore/detail/abcdefghijklmnopqrstuvwxyzabcdef"
          (.ok { ok := true, status := 200, statusText := "OK", page := blankPage }) (.ok ())
          (.ok (.obj [("name", .str "A"), ("version", .str "1.0"),
            ("manifest_version", .num 3)]))
          (.dir (.cons "manifest.json" (.file 20) .nil)) .removed "2026-01-01").1
        = .success (some "abcdefghijklmnopqrstuvwxyzabcdef")
      ∧ (enableExtension
          (installFromWebStore
            (freshManager [] [] none "/temp")
            "https://chrome.google.com/webstore/detail/abcdefghijklmnopqrstuvwxyzabcdef"
            (.ok { ok := true, status := 200, statusText := "OK", page := blankPage }) (.ok ())
            (.ok (.obj [("name", .str "A"), ("version", .str "1.0"),
              ("manifest_version", .num 3)]))
            (.dir (.cons "manifest.json" (.file 20) .nil)) .removed "2026-01-01").2
          "abcdefghijklmnopqrstuvwxyzabcdef" false).1
        = .success none
      ∧ (installFromWebStore
          (enableExtension
            (installFromWebStore
              (freshManager [] [] none "/temp")
              "https://chrome.google.com/webstore/detail/abcdefghijklmnopqrstuvwxyzabcdef"
              (.ok { ok := true, status := 200, statusText := "OK", page := blankPage }) (.ok ())
              (.ok (.obj [("name", .str "A"), ("version", .str "1.0"),
                ("manifest_version", .num 3)]))
              (.dir (.cons "manifest.json" (.file 20) .nil)) .removed "2026-01-01").2
            "abcdefghijklmnopqrstuvwxyzabcdef" false).2
          "https://chrome.google.com/webstore/detail/abcdefghijklmnopqrstuvwxyzabcdef"
          (.ok { ok := true, status := 200, statusText := "OK", page := blankPage }) (.ok ())
          (.ok (.obj [("name", .str "A"), ("version", .str "2.0"),
            ("manifest_version", .num 3)]))
          (.dir (.cons "manifest.json" (.file 30) .nil)) .removed "2026-02-01").1
        = .success (some "abcdefghijklmnopqrstuvwxyzabcdef")
      ∧ (installFromWebStore
          (enableExtension
            (installFromWebStore
              (freshManager [] [] none "/temp")
              "https://chrome.google.com/webstore/detail/abcdefghijklmnopqrstuvwxyzabcdef"
              (.ok { ok := true, status := 200, statusText := "OK", page := blankPage }) (.ok ())
              (.ok (.obj [("name", .str "A"), ("version", .str "1.0"),
                ("manifest_version", .num 3)]))
              (.dir (.cons "manifest.json" (.file 20) .nil)) .removed "2026-01-01").2
            "abcdefghijklmnopqrstuvwxyzabcdef" false).2
          "https://chrome.google.com/webstore/detail/abcdefghijklmnopqrstuvwxyzabcdef"
          (.ok { ok := true, status := 200, statusText := "OK", page := blankPage }) (.ok ())
          (.ok (.obj [("name", .str "A"), ("version", .str "2.0"),
            ("manifest_version", .num 3)]))
          (.dir (.cons "manifest.json" (.file 30) .nil)) .removed "2026-02-01").2.enabledExtensions
        = ["abcdefghijklmnopqrstuvwxyzabcdef"]
      ∧ Option.map (fun extension => extension.enabled)
          (mapGet
            (installFromWebStore
            (enableExtension
              (installFromWebStore
                (freshManager [] [] none "/temp")
                "https://chrome.google.com/webstore/detail/abcdefghijklmnopqrstuvwxyzabcdef"
                (.ok { ok := true, status := 200, statusText := "OK", page := blankPage }) (.ok ())
                (.ok (.obj [("name", .str "A"), ("version", .str "1.0"),
                  ("manifest_version", .num 3)]))
                (.dir (.cons "manifest.json" (.file 20) .nil)) .removed "2026-01-01").2
              "abcdefghijklmnopqrstuvwxyzabcdef" false).2
            "https://chrome.google.com/webstore/detail/abcdefghijklmnopqrstuvwxyzabcdef"
            (.ok { ok := true, status := 200, statusText := "OK", page := blankPage }) (.ok ())
            (.ok (.obj [("name", .str "A"), ("version", .str "2.0"),
              ("manifest_version", .num 3)]))
            (.dir (.cons "manifest.json" (.file 30) .nil)) .removed "2026-02-01").2.extensions
            "abcdefghijklmnopqrstuvwxyzabcdef")
        = some false
      ∧ (getEnabledExtensions
          (installFromWebStore
          (enableExtension
            (installFromWebStore
              (freshManager [] [] none "/temp")
              "https://chrome.google.com/webstore/detail/abcdefghijklmnopqrstuvwxyzabcdef"
              (.ok { ok := true, status := 200, statusText := "OK", page := blankPage }) (.ok ())
              (.ok (.obj [("name", .str "A"), ("version", .str "1.0"),
                ("manifest_version", .num 3)]))
              (.dir (.cons "manifest.json" (.file 20) .nil)) .removed "2026-01-01").2
            "abcdefghijklmnopqrstuvwxyzabcdef" false).2
          "https://chrome.google.com/webstore/detail/abcdefghijklmnopqrstuvwxyzabcdef"
          (.ok { ok := true, status := 200, statusText := "OK", page := blankPage }) (.ok ())
          (.ok (.obj [("name", .str "A"), ("version", .str "2.0"),
            ("manifest_version", .num 3)]))
          (.dir (.cons "manifest.json" (.file 30) .nil)) .removed "2026-02-01").2).length = 0
      ∧ (installFromWebStore
          (enableExtension
            (installFromWebStore
              (freshManager [] [] none "/temp")
              "https://chrome.google.com/webstore/detail/abcdefghijklmnopqrstuvwxyzabcdef"
              (.ok { ok := true, status := 200, statusText := "OK", page := blankPage }) (.ok ())
              (.ok (.obj [("name", .str "A"), ("version", .str "1.0"),
                ("manifest_version", .num 3)]))
              (.dir (.cons "manifest.json" (.file 20) .nil)) .removed "2026-01-01").2
            "abcdefghijklmnopqrstuvwxyzabcdef" false).2
          "https://chrome.google.com/webstore/detail/abcdefghijklmnopqrstuvwxyzabcdef"
          (.ok { ok := true, status := 200, statusText := "OK", page := blankPage }) (.ok ())
          (.ok (.obj [("name", .str "A"), ("version", .str "2.0"),
            ("manifest_version", .num 3)]))
          (.dir (.cons "manifest.json" (.file 30) .nil)) .removed "2026-02-01").2.enabledFile
        = some (.arr [.str "abcdefghijklmnopqrstuvwxyzabcdef"])
      ∧ ¬ enabledConsistent
          (installFromWebStore
          (enableExtension
            (installFromWebStore
              (freshManager [] [] none "/temp")
              "https://chrome.google.com/webstore/detail/abcdefghijklmnopqrstuvwxyzabcdef"
              (.ok { ok := true, status := 200, statusText := "OK", page := blankPage }) (.ok ())
              (.ok (.obj [("name", .str "A"), ("version", .str "1.0"),
                ("manifest_version", .num 3)]))
              (.dir (.cons "manifest.json" (.file 20) .nil)) .removed "2026-01-01").2
            "abcdefghijklmnopqrstuvwxyzabcdef" false).2
          "https://chrome.google.com/webstore/detail/abcdefghijklmnopqrstuvwxyzabcdef"
          (.ok { ok := true, status := 200, statusText := "OK", page := blankPage }) (.ok ())
          (.ok (.obj [("name", .str "A"), ("version", .str "2.0"),
            ("manifest_version", .num 3)]))
          (.dir (.cons "manifest.json" (.file 30) .nil)) .removed "2026-02-01").2 := by
  refine ⟨by decide, by decide, by decide, by decide, by decide, by decide, rfl, ?_⟩
  intro h
  obtain ⟨extension, hget, henabled⟩ := (h "abcdefghijklmnopqrstuvwxyzabcdef").mp (by decide)
  have hflag : Option.map (fun extension => extension.enabled)
      (mapGet
        (installFromWebStore
          (enableExtension
            (installFromWebStore
              (freshManager [] [] none "/temp")
              "https://chrome.google.com/webstore/detail/abcdefghijklmnopqrstuvwxyzabcdef"
              (.ok { ok := true, status := 200, statusText := "OK", page := blankPage }) (.ok ())
              (.ok (.obj [("name", .str "A"), ("version", .str "1.0"),
                ("manifest_version", .num 3)]))
              (.dir (.cons "manifest.json" (.file 20) .nil)) .removed "2026-01-01").2
            "abcdefghijklmnopqrstuvwxyzabcdef" false).2
          "https://chrome.google.com/webstore/detail/abcdefghijklmnopqrstuvwxyzabcdef"
          (.ok { ok := true, status := 200, statusText := "OK", page := blankPage }) (.ok ())
          (.ok (.obj [("name", .str "A"), ("version", .str "2.0"),
            ("manifest_version", .num 3)]))
          (.dir (.cons "manifest.json" (.file 30) .nil)) .removed "2026-02-01").2.extensions
        "abcdefghijklmnopqrstuvwxyzabcdef")
      = some false := by decide
  rw [hget] at hflag
  simp only [Option.map_some', Option.some.injEq] at hflag
  rw [henabled] at hflag
  exact absurd hflag (by decide)

end SigmaBrowser
